import Mathlib

/-!
# Form controller of the prospect data-entry page (`app.js`, `editor.js`)

A shallow embedding of the two scripts.  The page is a record `Dom`; every
handler is a function from `Dom` (and the outcome of the asynchronous
operation it awaits: file read, network answer) to `Dom`.

Platform behaviour the scripts rely on is embedded next to them:
`form.elements` (a live, ordered collection), `namedItem`, `FormData`,
property assignment on a plain object, `String.prototype.trim`, and the two
regular expressions used to split a data URL.  `toUpperCase`/`toLowerCase`
are Unicode-dependent and are taken as parameters (`CaseOps`).

Scope of the control model: single-line text inputs (`type` text, search, tel
or password), hidden inputs, single-choice drop-down selects, file inputs and
buttons.  Text areas, the other input types (check boxes and radio buttons
among them) and option-level `disabled` are outside the model.  Timers
(`setTimeout`) are not modelled: a state is the page at the moment a handler
returns.
-/

namespace ProspectForm

/-! ## Data model -/

/-- An `option` element of a select: what its `value` and `text` properties
read. -/
structure OptionElement where
  value : String
  text : String
  deriving DecidableEq, Repr

/-- A file chosen in a file input. -/
structure File where
  name : String
  type : String
  deriving DecidableEq, Repr

/-- Kinds of form controls in the model. -/
inductive Kind where
  | text
  | select
  | file
  | hidden
  | button
  deriving DecidableEq, Repr

/-- A member of `form.elements`.  `uid` is the identity of the DOM node;
`idAttr` and `name` are the `id` and `name` attributes; `disabled` is the
`disabled` property.  `value` is the current value of a text-like control or
button; a select has `options` and `selectedIndex` (`none` is index -1); a
file input has `files`. -/
structure Element where
  uid : Nat
  idAttr : String
  name : String
  kind : Kind
  disabled : Bool
  value : String
  defaultValue : String
  options : List OptionElement
  selectedIndex : Option Nat
  defaultIndex : Option Nat
  files : List File
  deriving DecidableEq, Repr

/-- The `value` property as read by the scripts (`el.value`). -/
def Element.jsValue (el : Element) : String :=
  match el.kind with
  | Kind.text => el.value
  | Kind.hidden => el.value
  | Kind.button => el.value
  | Kind.select =>
    match el.selectedIndex with
    | none => ""
    | some i =>
      match el.options.get? i with
      | none => ""
      | some o => o.value
  | Kind.file =>
    match el.files with
    | [] => ""
    | f :: _ => "C:\\fakepath\\" ++ f.name

/-- The test `!el.name` of the loops is false: the control has a name. -/
def Element.named (el : Element) : Bool := el.name != ""

/-! ## Allow-lists -/

/-- `INSERT_EDITABLE_FIELDS` of `app.js`. -/
def INSERT_EDITABLE_FIELDS : List String :=
  ["FECHA", "REGION", "EJECUTIVO", "RIF", "RAZON_SOCIAL", "SERVICIO",
   "PROPUESTA", "SRM", "DESCUENTO", "ESTATUS", "OBSERVACIONES", "theFile"]

/-- `EDITABLE_FIELDS` of `editor.js`. -/
def EDITABLE_FIELDS : List String :=
  ["SERVICIO", "PROPUESTA", "SRM", "DESCUENTOS", "ESTATUS", "FECHACAP",
   "OBSERVACIONES", "CODIGOCLIENTE", "RANGOKG", "CODIGOF", "CATEGORIA",
   "theFile"]

/-! ## Enablement loops -/

/-- The loop `for (let i = 0; i < form.elements.length; i++)` whose body
rewrites the control at index `i`.  The bound is read again at every
iteration; `fuel` bounds the number of iterations. -/
def forEachElement (body : Element → Element) :
    Nat → Nat → List Element → List Element
  | 0, _, form => form
  | fuel + 1, i, form =>
    match form.get? i with
    | none => form
    | some el => forEachElement body fuel (i + 1) (form.set i (body el))

/-- Body of the loop of `applyInsertFieldRestrictions`. -/
def insertRestrictionBody (el : Element) : Element :=
  if el.name = "" then el
  else if INSERT_EDITABLE_FIELDS.contains el.name then { el with disabled := false }
  else { el with disabled := true }

/-- `applyInsertFieldRestrictions` of `app.js`; `modeSelect` is `none` when the
selector element is absent, otherwise its value. -/
def applyInsertFieldRestrictions (modeSelect : Option String)
    (form : List Element) : List Element :=
  match modeSelect with
  | none => form
  | some mode =>
    if mode ≠ "ingresar" then form
    else forEachElement insertRestrictionBody form.length 0 form

/-- Body of the loop of `enableOnlyEditableFields`, for an allow-list. -/
def editableBody (allow : List String) (el : Element) : Element :=
  if el.name = "" then el
  else if el.name = "RIF" then { el with disabled := true }
  else if allow.contains el.name then { el with disabled := false }
  else { el with disabled := true }

/-- The loop of `enableOnlyEditableFields` over an arbitrary allow-list. -/
def enableOnlyEditableFieldsWith (allow : List String)
    (form : List Element) : List Element :=
  forEachElement (editableBody allow) form.length 0 form

/-- `enableOnlyEditableFields` of `editor.js`. -/
def enableOnlyEditableFields (form : List Element) : List Element :=
  enableOnlyEditableFieldsWith EDITABLE_FIELDS form

/-- Body of the loop of `disableAllFieldsExcept`. -/
def exceptBody (allowNames : List String) (el : Element) : Element :=
  if el.name = "" then el
  else if allowNames.contains el.name then { el with disabled := false }
  else { el with disabled := true }

/-- `disableAllFieldsExcept` of `editor.js`. -/
def disableAllFieldsExcept (allowNames : List String)
    (form : List Element) : List Element :=
  forEachElement (exceptBody allowNames) form.length 0 form

/-- Relation between a control before and after an enablement policy: only
the `disabled` flag may differ, an unnamed control is untouched, and a named
control is enabled exactly when `allowed` holds of its name. -/
def PolicyApplied (allowed : String → Prop) (f g : Element) : Prop :=
  g = { f with disabled := g.disabled } ∧
  (f.name = "" → g = f) ∧
  (f.name ≠ "" → (g.disabled = false ↔ allowed f.name))

/-! ## Platform: strings, plain objects, named lookup, form serialisation -/

/-- Case conversions of the platform (`toUpperCase`, `toLowerCase`); they are
Unicode-dependent and no property of them is assumed. -/
structure CaseOps where
  toUpperCase : String → String
  toLowerCase : String → String

/-- The ASCII case conversions, an instance used for concrete evaluation. -/
def asciiCase : CaseOps :=
  ⟨fun s => ⟨s.data.map Char.toUpper⟩, fun s => ⟨s.data.map Char.toLower⟩⟩

/-- White space and line terminators removed by `String.prototype.trim`. -/
def isJsWhiteSpace (c : Char) : Bool :=
  let n := c.toNat
  n == 9 || n == 10 || n == 11 || n == 12 || n == 13 || n == 32 || n == 160 ||
  n == 0x1680 || (0x2000 ≤ n && n ≤ 0x200A) || n == 0x2028 || n == 0x2029 ||
  n == 0x202F || n == 0x205F || n == 0x3000 || n == 0xFEFF

/-- `String.prototype.trim` on the list of characters. -/
def trimChars (l : List Char) : List Char :=
  (l.dropWhile isJsWhiteSpace).rdropWhile isJsWhiteSpace

/-- `String.prototype.trim`. -/
def jsTrim (s : String) : String := ⟨trimChars s.data⟩

/-- The value sanitisation of an input of type text, search, tel or password,
run when the `value` property is assigned: line breaks are stripped. -/
def stripNewlines (s : String) : String :=
  ⟨s.data.filter (fun c => !(c == '\n' || c == '\r'))⟩

/-- ASCII white space: tab, line feed, form feed, carriage return, space. -/
def isAsciiWhitespace (c : Char) : Bool :=
  c == '\t' || c == '\n' || c.toNat == 12 || c == '\r' || c == ' '

/-- Every run of ASCII white space becomes one space; `prev` tells that the
character before was white space. -/
def collapseChars : Bool → List Char → List Char
  | _, [] => []
  | prev, c :: cs =>
    if isAsciiWhitespace c then
      if prev then collapseChars true cs else ' ' :: collapseChars true cs
    else c :: collapseChars false cs

/-- Stripping and collapsing ASCII white space, as the getter of the `text`
property of an `option` does with the text the option holds. -/
def stripAndCollapse (s : String) : String :=
  ⟨((collapseChars false s.data).dropWhile isAsciiWhitespace).rdropWhile isAsciiWhitespace⟩

/-- Values stored in the plain objects the scripts build: a string, a `File`
entry of a `FormData`, or the attachment object `{fileName, mimeType, data}`. -/
inductive Value where
  | str (s : String)
  | file (f : File)
  | attachment (fileName mimeType : String) (data : Option String)
  deriving DecidableEq, Repr

/-- A plain object: its own properties, first assigned first. -/
abbrev JsObject := List (String × Value)

/-- The assignment of `v` to the own property `key`: the property keeps its
place when it exists and is added last when it does not. -/
def JsObject.assign : JsObject → String → Value → JsObject
  | [], key, v => [(key, v)]
  | (k, w) :: rest, key, v =>
    if k = key then (key, v) :: rest else (k, w) :: JsObject.assign rest key v

/-- The assignment `obj[key] = value` on an object created by `{}`.  The key
`__proto__` reaches the prototype setter and creates no own property. -/
def JsObject.set (o : JsObject) (key : String) (v : Value) : JsObject :=
  if key = "__proto__" then o else o.assign key v

/-- The read `obj[key]` of an own property. -/
def JsObject.get (o : JsObject) (key : String) : Option Value :=
  o.lookup key

/-- The statement `delete obj[key]`. -/
def JsObject.delete (o : JsObject) (key : String) : JsObject :=
  o.filter (fun p => p.1 != key)

/-- `Object.keys(obj)`. -/
def JsObject.keys (o : JsObject) : List String := o.map Prod.fst

/-- Result of `form.elements.namedItem(key)`: nothing, the single control
whose `id` or `name` is `key` (with its index in `form.elements`), or a
`RadioNodeList` of several controls. -/
inductive NamedItem where
  | null
  | node (i : Nat) (el : Element)
  | list (els : List Element)
  deriving DecidableEq, Repr

/-- Whether a control is matched by `namedItem(key)`. -/
def matchesKey (key : String) (el : Element) : Bool :=
  el.idAttr == key || el.name == key

/-- The controls matched by `namedItem(key)` with their indices, the first
control of the list having index `n`. -/
def matchesFrom (key : String) : Nat → List Element → List (Nat × Element)
  | _, [] => []
  | n, e :: es =>
    if matchesKey key e then (n, e) :: matchesFrom key (n + 1) es
    else matchesFrom key (n + 1) es

/-- `form.elements.namedItem(key)`. -/
def namedItem (form : List Element) (key : String) : NamedItem :=
  if key = "" then NamedItem.null
  else
    match matchesFrom key 0 form with
    | [] => NamedItem.null
    | [(i, el)] => NamedItem.node i el
    | ps => NamedItem.list (ps.map Prod.snd)

/-- Index of the first member of a list that passes a test: the loop
`for (i = 0; ...) if (test) { ...; break; }`. -/
def firstIndex {α : Type} (p : α → Bool) : List α → Option Nat
  | [] => none
  | a :: as => if p a then some 0 else (firstIndex p as).map (· + 1)

/-- ASCII lower-casing, for the case-insensitive test of `_charset_`. -/
def asciiLower (s : String) : String := ⟨s.data.map Char.toLower⟩

/-- The entries a control contributes to `new FormData(form)` (no submitter):
nothing when it is disabled, unnamed or a button; a select gives the value of
its selected option; a file input gives its files, or one empty `File` when
none is selected; a hidden input named `_charset_` gives the encoding name; any
other control gives its value. -/
def entriesOf (el : Element) : List (String × Value) :=
  if el.disabled then []
  else if el.name = "" then []
  else
    match el.kind with
    | Kind.button => []
    | Kind.select =>
      match el.selectedIndex with
      | none => []
      | some i =>
        match el.options.get? i with
        | none => []
        | some o => [(el.name, Value.str o.value)]
    | Kind.file =>
      match el.files with
      | [] => [(el.name, Value.file ⟨"", "application/octet-stream"⟩)]
      | fs => fs.map (fun f => (el.name, Value.file f))
    | Kind.hidden =>
      if asciiLower el.name = "_charset_" then [(el.name, Value.str "UTF-8")]
      else [(el.name, Value.str el.value)]
    | Kind.text => [(el.name, Value.str el.value)]

/-- The entry list of `new FormData(form)`, in the order of `form.elements`. -/
def formDataEntries (form : List Element) : List (String × Value) :=
  (form.map entriesOf).flatten

/-- The loop `for (let [key, value] of formData.entries()) obj[key] = value`. -/
def entriesToObject (entries : List (String × Value)) : JsObject :=
  entries.foldl (fun o p => o.set p.1 p.2) []

/-- The selection a drop-down select takes on `form.reset()`: the option
selected by default, and the first option when none is. -/
def resetIndex (el : Element) : Option Nat :=
  match el.defaultIndex with
  | some i =>
    if i < el.options.length then some i
    else if el.options.isEmpty then none else some 0
  | none => if el.options.isEmpty then none else some 0

/-- Effect of `form.reset()` on one control: a text input returns to its
default value, a select to the selection of `resetIndex`, a file input loses
its files; hidden inputs and buttons keep their value. -/
def Element.reset (el : Element) : Element :=
  match el.kind with
  | Kind.text => { el with value := el.defaultValue }
  | Kind.select => { el with selectedIndex := resetIndex el }
  | Kind.file => { el with files := [] }
  | Kind.hidden => el
  | Kind.button => el

/-- `form.reset()`. -/
def formReset (form : List Element) : List Element := form.map Element.reset

/-- A hidden input made by `document.createElement("input")` with `type`,
`name` and `value` assigned as in `createHiddenMirrorsForDisabledFields`. -/
def hiddenInput (uid : Nat) (name value : String) : Element :=
  { uid := uid, idAttr := "", name := name, kind := Kind.hidden, disabled := false,
    value := value, defaultValue := value, options := [], selectedIndex := none,
    defaultIndex := none, files := [] }

/-- A text input with the given identity, name, value and `disabled` flag. -/
def textInput (uid : Nat) (name value : String) (disabled : Bool) : Element :=
  { uid := uid, idAttr := "", name := name, kind := Kind.text, disabled := disabled,
    value := value, defaultValue := "", options := [], selectedIndex := none,
    defaultIndex := none, files := [] }

/-- An enabled select with the given options and selected index. -/
def selectInput (uid : Nat) (name : String) (options : List OptionElement)
    (selectedIndex : Option Nat) : Element :=
  { uid := uid, idAttr := "", name := name, kind := Kind.select, disabled := false,
    value := "", defaultValue := "", options := options, selectedIndex := selectedIndex,
    defaultIndex := selectedIndex, files := [] }

/-- The enabled file input `#fileInput` named `theFile` holding `files`. -/
def fileInputControl (uid : Nat) (files : List File) : Element :=
  { uid := uid, idAttr := "fileInput", name := "theFile", kind := Kind.file,
    disabled := false, value := "", defaultValue := "", options := [],
    selectedIndex := none, defaultIndex := none, files := files }

/-- Scenario A on the insert allow-list of the page: `FECHA` and `REGION`
are editable, `STATUS` is not and holds `pending`. -/
def scenarioA : List Element :=
  [textInput 0 "FECHA" "2024-05-01" false, textInput 1 "REGION" "Centro" false,
   textInput 2 "STATUS" "pending" true]

/-- A form with a dated text field and the file input holding `a.pdf`. -/
def formWithFile : List Element :=
  [textInput 0 "FECHA" "2024-05-01" false,
   fileInputControl 1 [⟨"a.pdf", "application/pdf"⟩]]

/-- A select `ESTATUS` whose only option is `ACTIVO`, labelled `Activo`. -/
def estatusSelect : Element :=
  selectInput 0 "ESTATUS" [⟨"ACTIVO", "Activo"⟩] (some 0)

/-- A form with the select `ESTATUS` and an empty text field `RIF`. -/
def estatusRifForm : List Element :=
  [estatusSelect, textInput 1 "RIF" "" false]

/-! ## `app.js`: hidden mirrors -/

/-- State of the loop of `createHiddenMirrorsForDisabledFields`: the form,
the array `created`, and the next fresh node identity. -/
structure MirrorState where
  form : List Element
  created : List Element
  nextUid : Nat
  deriving Repr

/-- The loop of `createHiddenMirrorsForDisabledFields` from index `i`.  The
collection `form.elements` is live: each `form.appendChild(hidden)` lengthens
it, and the bound `form.elements.length` is read again at every iteration.
The result is `none` when `fuel` iterations do not reach the end. -/
def mirrorLoop : Nat → Nat → MirrorState → Option MirrorState
  | 0, i, st => if i < st.form.length then none else some st
  | fuel + 1, i, st =>
    match st.form.get? i with
    | none => some st
    | some el =>
      if el.name = "" then mirrorLoop fuel (i + 1) st
      else if el.disabled then
        let hidden := hiddenInput st.nextUid el.name el.jsValue
        mirrorLoop fuel (i + 1)
          { form := st.form ++ [hidden], created := st.created ++ [hidden],
            nextUid := st.nextUid + 1 }
      else mirrorLoop fuel (i + 1) st

/-- `createHiddenMirrorsForDisabledFields` of `app.js`, with twice the length
of the form as iteration budget. -/
def createHiddenMirrorsForDisabledFields (form : List Element) (nextUid : Nat) :
    Option MirrorState :=
  mirrorLoop (2 * form.length) 0 { form := form, created := [], nextUid := nextUid }

/-- The clean-up `el.parentNode && el.parentNode.removeChild(el)` for one
created node: the node of that identity leaves the form. -/
def removeChild (form : List Element) (el : Element) : List Element :=
  form.filter (fun e => e.uid != el.uid)

/-- The clean-up `_createdMirrors.forEach(...)` of the submit handler. -/
def removeMirrors (form : List Element) (created : List Element) : List Element :=
  created.foldl removeChild form

/-! ## Attachments: `uploadFile` (`app.js`) and `readFileAsBase64` (`editor.js`) -/

/-- What the `FileReader` delivers: `onload` with the data URL in
`e.target.result`, or `onerror`. -/
inductive ReadOutcome where
  | loaded (dataUrl : String)
  | error
  deriving DecidableEq, Repr

/-- State of a promise when nothing more can happen to it: resolved,
rejected, or left pending for ever (its `onload` callback threw before calling
`resolve`). -/
inductive Settled (α : Type) where
  | resolved (a : α)
  | rejected
  | pending
  deriving DecidableEq, Repr

/-- The attachment object `{fileName, mimeType, data}`; `data` is `none` when
the property holds `undefined`. -/
structure Attachment where
  fileName : String
  mimeType : String
  data : Option String
  deriving DecidableEq, Repr

/-- The split `str.split(",")`: never empty. -/
def splitOnComma : List Char → List (List Char)
  | [] => [[]]
  | c :: cs =>
    if c = ',' then [] :: splitOnComma cs
    else
      match splitOnComma cs with
      | [] => [[c]]
      | p :: ps => (c :: p) :: ps

/-- Characters matched by `\w`. -/
def isWordChar (c : Char) : Bool := c.isAlphanum || c == '_'

/-- Characters matched by `.`: all but the line terminators. -/
def isDotChar (c : Char) : Bool :=
  !(c == '\n' || c == '\r' || c.toNat == 0x2028 || c.toNat == 0x2029)

/-- Whether `pat` starts `l`. -/
def startsWith (pat : List Char) (l : List Char) : Bool :=
  pat.isPrefixOf l

/-- The greatest `k` such that `pat` starts `run.drop k`: where a greedy
quantifier ends when `pat` must follow it. -/
def lastMatch (pat : List Char) : List Char → Option Nat
  | [] => if startsWith pat [] then some 0 else none
  | c :: cs =>
    match lastMatch pat cs with
    | some k => some (k + 1)
    | none => if startsWith pat (c :: cs) then some 0 else none

/-- The capture group of `/:(\w.+);/` on a string: the leftmost `:` followed
by a word character, then the longest non-empty run of `.` characters that a
`;` follows. -/
def matchColonMime : List Char → Option (List Char)
  | [] => none
  | c :: rest =>
    if c = ':' then
      match rest with
      | [] => none
      | w :: tail =>
        if isWordChar w then
          match lastMatch [';'] ((tail.takeWhile isDotChar).drop 1) with
          | some k => some (w :: (tail.takeWhile isDotChar).take (k + 1))
          | none => matchColonMime rest
        else matchColonMime rest
    else matchColonMime rest

/-- The capture group of `/data:(.*);base64/` on a string: the leftmost
`data:`, then the longest run of `.` characters that `;base64` follows. -/
def matchDataMime : List Char → Option (List Char)
  | [] => none
  | c :: rest =>
    if startsWith "data:".data (c :: rest) then
      match lastMatch ";base64".data ((rest.drop 4).takeWhile isDotChar) with
      | some k => some (((rest.drop 4).takeWhile isDotChar).take k)
      | none => matchDataMime rest
    else matchDataMime rest

/-- `uploadFile(file)` of `app.js`.  When the regular expression does not
match, `match(...)[1]` throws inside `onload` and the promise stays pending. -/
def uploadFile (file : File) : ReadOutcome → Settled Attachment
  | ReadOutcome.error => Settled.rejected
  | ReadOutcome.loaded dataUrl =>
    let data := splitOnComma dataUrl.data
    match matchColonMime (data.headD []) with
    | none => Settled.pending
    | some mime =>
      Settled.resolved
        { fileName := file.name, mimeType := ⟨mime⟩,
          data := (data.get? 1).map String.mk }

/-- `readFileAsBase64(file)` of `editor.js`. -/
def readFileAsBase64 (file : File) : ReadOutcome → Settled Attachment
  | ReadOutcome.error => Settled.rejected
  | ReadOutcome.loaded dataUrl =>
    let parts := splitOnComma dataUrl.data
    let header := parts.headD []
    let base64 := match parts.get? 1 with
      | some b => b
      | none => []
    let mime := match matchDataMime header with
      | some m => String.mk m
      | none => file.type
    Settled.resolved { fileName := file.name, mimeType := mime, data := some ⟨base64⟩ }

/-- The attachment as a property value. -/
def Attachment.toValue (a : Attachment) : Value :=
  Value.attachment a.fileName a.mimeType a.data

/-! ## The page -/

/-- The message area `messageDiv`. -/
structure Message where
  display : String
  text : String
  backgroundColor : String
  color : String
  deriving DecidableEq, Repr

/-- A record of the remote sheet, keys in enumeration order; a value is
`none` for `null`/`undefined` and otherwise its string form. -/
abbrev Record := List (String × Option String)

/-- A request given to `fetch`. -/
inductive Request where
  | get (rif : String)
  | postInsert (body : JsObject)
  | postUpdate (rif : String) (updates : JsObject)
  deriving DecidableEq, Repr

/-- The parsed JSON answer of the service: `status`, `record`, `message`. -/
structure Response where
  status : String
  record : Option Record
  message : Option String
  deriving DecidableEq, Repr

/-- What a `fetch` followed by `resp.json()` delivers: a rejection carrying the
text of `error.message`, or the parsed answer. -/
inductive FetchOutcome where
  | failed (errorMessage : String)
  | json (data : Response)
  deriving DecidableEq, Repr

/-- The page.  `form` is `form.elements`; `detachedFiles` are the files of the
element `#fileInput` when it is not a control of the form; `requests` logs
the calls of `fetch`, oldest first.  The page is assumed to hold the elements
both scripts fetch by id when they load. -/
structure Dom where
  form : List Element
  nextUid : Nat
  detachedFiles : List File
  modeSelect : String
  rifControlsDisplay : String
  rifSearch : String
  updateControlDisplay : String
  submitButtonDisplay : String
  submitButtonDisabled : Bool
  submitButtonLoading : Bool
  fileNameDisplay : String
  message : Message
  requests : List Request
  deriving DecidableEq, Repr

/-- The list `fileInput.files` of `document.getElementById("fileInput")`. -/
def Dom.fileInputFiles (d : Dom) : List File :=
  match d.form.find? (fun el => el.idAttr == "fileInput") with
  | some el => el.files
  | none => d.detachedFiles

/-- The expression `text || fallback` on an optional string. -/
def orElse (text : Option String) (fallback : String) : String :=
  match text with
  | none => fallback
  | some s => if s = "" then fallback else s

/-- `showMessage(text, type)` of `editor.js`, as left when it returns. -/
def showMessage (d : Dom) (text : String) (type : String) : Dom :=
  if type = "success" then
    { d with message := ⟨"block", text, "#48c78e", "white"⟩ }
  else if type = "error" then
    { d with message := ⟨"block", text, "#f14668", "white"⟩ }
  else
    { d with message := ⟨"block", text, "beige", "black"⟩ }

/-- `setMode(mode)` of `editor.js`. -/
def setMode (d : Dom) (mode : String) : Dom :=
  if mode = "consultar" then
    { d with rifControlsDisplay := "block", submitButtonDisplay := "none",
             updateControlDisplay := "none" }
  else
    { d with rifControlsDisplay := "none", submitButtonDisplay := "inline-block",
             updateControlDisplay := "none", rifSearch := "" }

/-- A page in mode `mode` holding `form`, with no message, no request made,
the query controls hidden and the submit button shown. -/
def pageOf (form : List Element) (nextUid : Nat) (mode : String) : Dom :=
  { form := form, nextUid := nextUid, detachedFiles := [], modeSelect := mode,
    rifControlsDisplay := "none", rifSearch := "", updateControlDisplay := "none",
    submitButtonDisplay := "inline-block", submitButtonDisabled := false,
    submitButtonLoading := false, fileNameDisplay := "No file selected",
    message := ⟨"none", "", "", ""⟩, requests := [] }

/-! ## `editor.js`: populating and collecting -/

/-- The look-up at the head of the loop body of `populateForm`: by the key,
else by the key in upper case, else by the key in lower case. -/
def resolveField (ops : CaseOps) (form : List Element) (key : String) : NamedItem :=
  match namedItem form key with
  | NamedItem.null =>
    match namedItem form (ops.toUpperCase key) with
    | NamedItem.null => namedItem form (ops.toLowerCase key)
    | found => found
  | found => found

/-- The test of the option loop of `populateForm` for one option. -/
def optionMatches (ops : CaseOps) (valStr : String) (opt : OptionElement) : Bool :=
  ops.toLowerCase (jsTrim opt.value) == ops.toLowerCase valStr ||
  ops.toLowerCase (jsTrim opt.text) == ops.toLowerCase valStr

/-- The assignment `elem.value = v` on a select: the first option whose value
is `v` becomes the selected one, and none is selected when there is none. -/
def setSelectValue (el : Element) (v : String) : Element :=
  match firstIndex (fun o => o.value == v) el.options with
  | some i => { el with selectedIndex := some i }
  | none => { el with selectedIndex := none }

/-- The select branch of `populateForm` for the control `elem` and the record
value `value`.  The new option is given `valStr` as value and as text; its
`text` then reads stripped and collapsed. -/
def populateSelect (ops : CaseOps) (elem : Element) (value : String) : Element :=
  let valStr := jsTrim value
  match firstIndex (optionMatches ops valStr) elem.options with
  | some i => { elem with selectedIndex := some i }
  | none =>
    setSelectValue
      { elem with options := elem.options ++ [⟨valStr, stripAndCollapse valStr⟩] } valStr

/-- The branch `elem.value = value ?? ""` of `populateForm` for a control that
is not a select.  A text input sanitises the assigned value.  A hidden input
or a button keeps its value in the `value` attribute.  A file input accepts
only the empty string, which clears its files; any other string throws, and
the handler of that exception finds no `elem.length` and does nothing. -/
def populateValue (elem : Element) (value : String) : Element :=
  match elem.kind with
  | Kind.text => { elem with value := stripNewlines value }
  | Kind.hidden => { elem with value := value, defaultValue := value }
  | Kind.button => { elem with value := value, defaultValue := value }
  | Kind.file => if value = "" then { elem with files := [] } else elem
  | Kind.select => elem

/-- One iteration of `for (const key in record)` in `populateForm`.  A
`RadioNodeList` has no `tagName`, and assigning its `value` only checks radio
buttons, of which the model has none. -/
def populateKey (ops : CaseOps) (form : List Element) (entry : String × Option String) :
    List Element :=
  let value := entry.2.getD ""
  match resolveField ops form entry.1 with
  | NamedItem.null => form
  | NamedItem.list _ => form
  | NamedItem.node i elem =>
    if elem.kind = Kind.select then form.set i (populateSelect ops elem value)
    else form.set i (populateValue elem value)

/-- `populateForm(record)` of `editor.js`. -/
def populateForm (ops : CaseOps) (d : Dom) (record : Option Record) : Dom :=
  match record with
  | none => d
  | some rec =>
    let form := rec.foldl (populateKey ops) d.form
    if d.modeSelect = "consultar" then { d with form := enableOnlyEditableFields form }
    else { d with form := form }

/-- `collectFormData()` of `editor.js`. -/
def collectFormData (form : List Element) : JsObject :=
  entriesToObject (formDataEntries form)

/-- `collectEditableFormData()` of `editor.js`. -/
def collectEditableFormData (form : List Element) : JsObject :=
  (formDataEntries form).foldl
    (fun obj p =>
      if p.1 = "RIF" then obj
      else if EDITABLE_FIELDS.contains p.1 then obj.set p.1 p.2
      else obj)
    []

/-- The value a search gives back to its caller and the page it leaves:
`buscarRif(rif)` of `editor.js`. -/
def buscarRif (d : Dom) (rif : String) (net : FetchOutcome) : Dom × Option Record :=
  if rif = "" ∨ jsTrim rif = "" then
    (showMessage d "Introduce un RIF válido." "error", none)
  else
    let d1 := showMessage d "Buscando..." "info"
    let d2 := { d1 with requests := d1.requests ++ [Request.get rif] }
    match net with
    | FetchOutcome.failed _ => (showMessage d2 "Error de conexión al buscar RIF." "error", none)
    | FetchOutcome.json data =>
      match data.status == "success", data.record with
      | true, some rec => (showMessage d2 "Registro encontrado." "success", some rec)
      | _, _ =>
        if data.status = "not_found" then (showMessage d2 "RIF no encontrado." "error", none)
        else
          (showMessage d2 (orElse data.message "Respuesta inesperada del servidor.") "error",
           none)

/-- `actualizarRegistro(rif, updates)` of `editor.js`; `rif` is `none` for
`null`. -/
def actualizarRegistro (d : Dom) (rif : Option String) (updates : JsObject)
    (net : FetchOutcome) : Dom :=
  match rif with
  | none => showMessage d "No hay RIF para actualizar." "error"
  | some r =>
    if r = "" then showMessage d "No hay RIF para actualizar." "error"
    else
      let d1 := showMessage d "Enviando actualización..." "info"
      let d2 := { d1 with requests := d1.requests ++ [Request.postUpdate r updates] }
      match net with
      | FetchOutcome.failed _ => showMessage d2 "Error al enviar actualización." "error"
      | FetchOutcome.json data =>
        if data.status = "success" then
          showMessage d2 (orElse data.message "Registro actualizado.") "success"
        else showMessage d2 (orElse data.message "Fallo al actualizar.") "error"

/-- The value `rifField ? rifField.value.trim() : null` of the update handler;
the `value` of a `RadioNodeList` without radio buttons is the empty string. -/
def rifValueOf (form : List Element) : Option String :=
  match namedItem form "RIF" with
  | NamedItem.null => none
  | NamedItem.node _ el => some (jsTrim el.jsValue)
  | NamedItem.list _ => some (jsTrim "")

/-- The loop `Object.keys(updates).forEach(k => ...)` of the update handler:
every key whose value is the empty string is deleted. -/
def deleteEmptyKeys (updates : JsObject) : JsObject :=
  updates.keys.foldl
    (fun o k => if o.get k = some (Value.str "") then o.delete k else o) updates

/-- The mapping `updates` of the update handler at the call of
`actualizarRegistro`, when the attachment, if any, was read: `none` stands for
the early return after a failed read. -/
def buildUpdates (d : Dom) (read : ReadOutcome) : Option JsObject :=
  let updates := collectEditableFormData d.form
  match d.fileInputFiles with
  | [] => some (deleteEmptyKeys updates)
  | file :: _ =>
    match readFileAsBase64 file read with
    | Settled.resolved fileObj => some (deleteEmptyKeys (updates.set "fileData" fileObj.toValue))
    | _ => none

/-- The click handler of `updateButton` in `editor.js`. -/
def updateClick (d : Dom) (read : ReadOutcome) (net : FetchOutcome) : Dom :=
  match rifValueOf d.form with
  | none => showMessage d "El formulario no contiene un RIF válido." "error"
  | some rifValue =>
    if rifValue = "" then showMessage d "El formulario no contiene un RIF válido." "error"
    else
      match buildUpdates d read with
      | none => showMessage d "Error leyendo archivo seleccionado." "error"
      | some updates => actualizarRegistro d (some rifValue) updates net

/-- The click handler of `searchButton` in `editor.js`. -/
def searchClick (ops : CaseOps) (d : Dom) (net : FetchOutcome) : Dom :=
  let rif := jsTrim d.rifSearch
  match buscarRif d rif net with
  | (d1, none) => d1
  | (d1, some rec) =>
    let d2 := populateForm ops d1 (some rec)
    { d2 with updateControlDisplay := "block", submitButtonDisplay := "none" }

/-- The click handler of `clearSearch` in `editor.js`. -/
def clearSearchClick (d : Dom) : Dom :=
  showMessage
    { d with rifSearch := "", form := formReset d.form, updateControlDisplay := "none",
             submitButtonDisplay := "inline-block" }
    "Limpio." "info"

/-- The `change` event of `modeSelect` after the user picked `newMode`: the
listener of `app.js`, then the listener of `editor.js` (both only touch
disjoint parts of the controls, so their order is immaterial). -/
def modeChange (d : Dom) (newMode : String) : Dom :=
  let d0 := { d with modeSelect := newMode }
  let d1 := if newMode = "ingresar" then
      { d0 with form := applyInsertFieldRestrictions (some newMode) d0.form }
    else d0
  let d2 := { d1 with form := formReset d1.form, rifSearch := "",
                      updateControlDisplay := "none" }
  let d3 := setMode d2 newMode
  if newMode = "consultar" then { d3 with form := disableAllFieldsExcept ["RIF"] d3.form }
  else d3

/-- The page once both scripts have run at load time: `app.js` applies the
insert restrictions, `editor.js` sets the mode (an empty selector value counts
as `ingresar`) and, in `consultar`, leaves only `RIF` enabled. -/
def initialise (d : Dom) : Dom :=
  let d1 := { d with form := applyInsertFieldRestrictions (some d.modeSelect) d.form }
  let d2 := setMode d1 (if d1.modeSelect = "" then "ingresar" else d1.modeSelect)
  if d2.modeSelect = "consultar" then { d2 with form := disableAllFieldsExcept ["RIF"] d2.form }
  else d2

/-- User actions on the query controls: changing the mode, typing a RIF and
clicking search (with the answer the service then gives), clearing. -/
inductive Action where
  | modeChange (newMode : String)
  | search (typed : String) (net : FetchOutcome)
  | clearSearch
  deriving Repr

/-- The page after one action. -/
def step (ops : CaseOps) (d : Dom) : Action → Dom
  | Action.modeChange m => modeChange d m
  | Action.search typed net => searchClick ops { d with rifSearch := typed } net
  | Action.clearSearch => clearSearchClick d

/-- The page after a sequence of actions. -/
def run (ops : CaseOps) (d : Dom) (actions : List Action) : Dom :=
  actions.foldl (step ops) d

/-! ## `app.js`: the submit handler -/

/-- How a handler ends: it returns (with the page it leaves), or it stays
suspended for ever at an `await` on a promise that never settles (with the
page as it stands then). -/
inductive HandlerResult where
  | returned (d : Dom)
  | suspended (d : Dom)
  deriving DecidableEq, Repr

/-- The `finally` block of the submit handler. -/
def submitFinally (d : Dom) (created : List Element) : Dom :=
  { d with form := removeMirrors d.form created, submitButtonDisabled := false,
           submitButtonLoading := false }

/-- The `catch` block of the submit handler followed by its `finally` block;
`errorMessage` is the text of `error.message`. -/
def submitCatch (d : Dom) (created : List Element) (errorMessage : String) : Dom :=
  submitFinally
    { d with message := ⟨d.message.display, "Error: " ++ errorMessage, "#f14668", "white"⟩ }
    created

/-- The submit handler from the call of `fetch` on, with the body `formDataObj`. -/
def submitSend (d : Dom) (created : List Element) (formDataObj : JsObject)
    (net : FetchOutcome) : Dom :=
  let d1 := { d with requests := d.requests ++ [Request.postInsert formDataObj] }
  match net with
  | FetchOutcome.failed errorMessage => submitCatch d1 created errorMessage
  | FetchOutcome.json data =>
    if data.status = "success" then
      submitFinally
        { d1 with
            message := ⟨d1.message.display, orElse data.message "Data submitted successfully!",
                        "#48c78e", "white"⟩,
            form := formReset d1.form,
            fileNameDisplay := "No file selected" }
        created
    else submitCatch d1 created (orElse data.message "Submission failed")

/-- The flat object `formDataObj` the submit handler collects before it looks
at the file input: in `ingresar` the insert restrictions are applied and the
mirrors created, then the form is serialised.  `none` only if the mirror loop
exceeds its iteration budget. -/
def collectAll (modeSelect : String) (form : List Element) (nextUid : Nat) :
    Option (MirrorState × JsObject) :=
  let mirrors :=
    if modeSelect = "ingresar" then
      createHiddenMirrorsForDisabledFields (applyInsertFieldRestrictions (some modeSelect) form)
        nextUid
    else some { form := form, created := [], nextUid := nextUid }
  mirrors.map (fun st => (st, entriesToObject (formDataEntries st.form)))

/-- The `submit` handler of the form in `app.js`.  A rejected `uploadFile`
carries a `ProgressEvent`, whose `message` is `undefined`. -/
def submitHandler (d : Dom) (read : ReadOutcome) (net : FetchOutcome) :
    Option HandlerResult :=
  let d1 := { d with message := ⟨"block", "Submitting...", "beige", "black"⟩,
                     submitButtonDisabled := true, submitButtonLoading := true }
  match collectAll d.modeSelect d.form d.nextUid with
  | none => none
  | some (st, formDataObj) =>
    let d2 := { d1 with form := st.form, nextUid := st.nextUid }
    match d2.fileInputFiles with
    | [] => some (HandlerResult.returned (submitSend d2 st.created formDataObj net))
    | file :: _ =>
      match uploadFile file read with
      | Settled.resolved fileObj =>
        some (HandlerResult.returned
          (submitSend d2 st.created (formDataObj.set "fileData" fileObj.toValue) net))
      | Settled.rejected =>
        some (HandlerResult.returned (submitCatch d2 st.created "undefined"))
      | Settled.pending => some (HandlerResult.suspended d2)

/-- Node identities in the form are below the next identity
`document.createElement` hands out. -/
def FreshUids (d : Dom) : Prop := ∀ e ∈ d.form, e.uid < d.nextUid

/-- The mirrors `createHiddenMirrorsForDisabledFields` makes for a list of
controls, the first with identity `uid`: one per named disabled control, in
order. -/
def mirrorList : List Element → Nat → List Element
  | [], _ => []
  | el :: rest, uid =>
    if el.name ≠ "" ∧ el.disabled = true then
      hiddenInput uid el.name el.jsValue :: mirrorList rest (uid + 1)
    else mirrorList rest uid

/-- Controls the mirror loop passes over without creating anything. -/
def Skipped (e : Element) : Prop := e.name = "" ∨ e.disabled = false

/-- The form as the submit handler serialises it, mirrors apart: with the
insert restrictions applied in `ingresar`, untouched otherwise. -/
def insertForm (modeSelect : String) (form : List Element) : List Element :=
  if modeSelect = "ingresar" then applyInsertFieldRestrictions (some modeSelect) form
  else form

/-- The mirrors the submit handler creates: those of `insertForm` in
`ingresar`, none otherwise. -/
def carriers (modeSelect : String) (form : List Element) (nextUid : Nat) : List Element :=
  if modeSelect = "ingresar" then mirrorList (insertForm modeSelect form) nextUid else []

/-- The control serialises, when enabled, as one entry holding its own string
value: a text-like or hidden control, or a select with a selected option. -/
def HasOwnEntry (f : Element) : Prop :=
  f.kind = Kind.text ∨ f.kind = Kind.hidden ∨
  (f.kind = Kind.select ∧ ∃ i o, f.selectedIndex = some i ∧ f.options.get? i = some o)

/-- The named controls of the form have pairwise distinct names. -/
def DistinctNames (form : List Element) : Prop :=
  ((form.filter Element.named).map Element.name).Nodup

/-- What `namedItem` found, without the controls: `none` for nothing,
`some (some i)` for the single control of index `i`, `some none` for a
`RadioNodeList`. -/
def NamedItem.index : NamedItem → Option (Option Nat)
  | NamedItem.null => none
  | NamedItem.node i _ => some (some i)
  | NamedItem.list _ => some none

/-- What no iteration of `populateForm` changes in a control: the identity of
the node, its `id`, its `name` and its kind. -/
def shapeOf (e : Element) : Nat × String × String × Kind :=
  (e.uid, e.idAttr, e.name, e.kind)

/-- The control an iteration of `populateForm` leaves in place of `elem` for
the record value `value`. -/
def populated (ops : CaseOps) (elem : Element) (value : String) : Element :=
  if elem.kind = Kind.select then populateSelect ops elem value
  else populateValue elem value

/-- The value a text, hidden or select control reads after an iteration of
`populateForm` with the record value `value`: for a text input the value
without its line breaks, for a hidden input the value itself, and for a select
the value of the first option that matches it once trimmed, else the trimmed
value. -/
def populatedValue (ops : CaseOps) (elem : Element) (value : String) : String :=
  if elem.kind = Kind.select then
    match elem.options.find? (optionMatches ops (jsTrim value)) with
    | some o => o.value
    | none => jsTrim value
  else if elem.kind = Kind.text then stripNewlines value
  else value

/-- The page after a sequence of actions followed by the typing of a RIF and
a click on the search button, answered by `net`. -/
def searchAfter (ops : CaseOps) (d : Dom) (actions : List Action) (typed : String)
    (net : FetchOutcome) : Dom :=
  step ops (run ops d actions) (Action.search typed net)

/-- The action is a search that finds a record: a RIF was typed and the
answer has status `success` and a record. -/
def Action.finds : Action → Bool
  | Action.search typed (FetchOutcome.json data) =>
    jsTrim typed != "" && data.status == "success" && data.record.isSome
  | _ => false

/-- A query page with a disabled `RIF` holding `J-1`, an editable `SERVICIO`
and the file input holding `a.pdf`. -/
def queryPageWithFile : Dom :=
  pageOf [textInput 0 "RIF" "J-1" true, textInput 1 "SERVICIO" "x" false,
          fileInputControl 2 [⟨"a.pdf", "application/pdf"⟩]] 3 "consultar"

/-- A page in `ingresar` with the fields `RIF` and `SERVICIO`, both empty. -/
def freshPage : Dom :=
  pageOf [textInput 0 "RIF" "" false, textInput 1 "SERVICIO" "" false] 2 "ingresar"

/-- A page in `consultar` with the fields `RIF` and `SERVICIO`, both empty. -/
def queryPage : Dom :=
  pageOf [textInput 0 "RIF" "" false, textInput 1 "SERVICIO" "" false] 2 "consultar"

/-- Every search of the sequence is clicked while the mode is `consultar`
(the search button belongs to the query controls, hidden in any other mode). -/
def SearchesInQuery (ops : CaseOps) : Dom → List Action → Prop
  | _, [] => True
  | d, a :: as =>
    (∀ typed net, a = Action.search typed net → d.modeSelect = "consultar") ∧
    SearchesInQuery ops (step ops d a) as

/-- Whether a search has found a record since the mode was last changed,
after a sequence of actions that starts with the flag `found`. -/
def foundFrom (found : Bool) (actions : List Action) : Bool :=
  actions.foldl
    (fun f a =>
      match a with
      | Action.modeChange _ => false
      | _ => f || a.finds)
    found

/-- Whether a search has found a record since the page was loaded or the mode
last changed. -/
def foundSince (actions : List Action) : Bool := foundFrom false actions

/-- The enabled flag the handlers give the control named `name`: in
`consultar`, only `RIF` until a search finds a record and the fields of
`EDITABLE_FIELDS` from then on; otherwise the fields of
`INSERT_EDITABLE_FIELDS`. -/
def enabledBy (mode : String) (found : Bool) (name : String) : Prop :=
  if mode = "consultar" then
    if found = true then name ∈ EDITABLE_FIELDS else name = "RIF"
  else name ∈ INSERT_EDITABLE_FIELDS

/-- The named controls of the form have the enabled flags of `enabledBy`. -/
def FlagsBy (mode : String) (found : Bool) (form : List Element) : Prop :=
  ∀ e ∈ form, e.name ≠ "" → (e.disabled = false ↔ enabledBy mode found e.name)

/-- The name and the `disabled` flag of a control. -/
def flagOf (e : Element) : String × Bool := (e.name, e.disabled)

/-- The part of the visibility rule the handlers keep: in `consultar` the
query controls are shown; in any other mode the query controls and the update
control are hidden and the submit button is shown. -/
def ControlsByMode (s : Dom) : Prop :=
  (s.modeSelect = "consultar" → s.rifControlsDisplay = "block") ∧
  (s.modeSelect ≠ "consultar" →
    s.rifControlsDisplay = "none" ∧ s.updateControlDisplay = "none" ∧
    s.submitButtonDisplay = "inline-block")

/-- The mode is one of the two the selector offers and the named controls
have the enabled flags of `enabledBy`. -/
def FlagsInvariant (d : Dom) (found : Bool) : Prop :=
  (d.modeSelect = "ingresar" ∨ d.modeSelect = "consultar") ∧
  FlagsBy d.modeSelect found d.form

/-- The page reached from the loaded page `d` by a sequence of actions. -/
def reached (ops : CaseOps) (d : Dom) (actions : List Action) : Dom :=
  run ops (initialise d) actions

/-- A search answered with the record `{RIF: rif, SERVICIO: servicio}`. -/
def foundSearch (rif servicio : String) : Action :=
  Action.search rif
    (FetchOutcome.json
      ⟨"success", some [("RIF", some rif), ("SERVICIO", some servicio)], none⟩)

/-- A page in `ingresar` with an enabled `FECHA`, a field `STATUS` outside the
insert allow-list holding `pending`, and the file input holding `a.pdf`. -/
def submitPageWithFile : Dom :=
  pageOf [textInput 0 "FECHA" "a" false, textInput 1 "STATUS" "pending" false,
          fileInputControl 2 [⟨"a.pdf", "application/pdf"⟩]] 3 "ingresar"

/-! ## Lemmas on the enablement loops -/

theorem forEachElement_aux (body : Element → Element) :
    ∀ (fuel : Nat) (pre post : List Element), post.length ≤ fuel →
      forEachElement body fuel pre.length (pre ++ post) = pre ++ post.map body := by
  intro fuel
  induction fuel with
  | zero =>
    intro pre post h
    have : post = [] := List.length_eq_zero.mp (Nat.le_zero.mp h)
    subst this
    simp [forEachElement]
  | succ n ih =>
    intro pre post h
    cases post with
    | nil => simp [forEachElement]
    | cons x xs =>
      have hget : (pre ++ x :: xs).get? pre.length = some x := by
        rw [List.get?_eq_getElem?, List.getElem?_append_right (le_refl _)]
        simp
      have hset : (pre ++ x :: xs).set pre.length (body x) = (pre ++ [body x]) ++ xs := by
        simp [List.set_append_right]
      simp only [forEachElement, hget, hset]
      have hlen : (pre ++ [body x]).length = pre.length + 1 := by simp
      have := ih (pre ++ [body x]) xs (by simpa using h)
      rw [hlen] at this
      rw [this]
      simp

theorem forEachElement_eq_map (body : Element → Element) (form : List Element) :
    forEachElement body form.length 0 form = form.map body := by
  simpa using forEachElement_aux body form.length [] form (le_refl _)

theorem forall₂_map_right_of {R : Element → Element → Prop} (body : Element → Element)
    (h : ∀ e, R e (body e)) : ∀ form : List Element, List.Forall₂ R form (form.map body)
  | [] => List.Forall₂.nil
  | e :: es => List.Forall₂.cons (h e) (forall₂_map_right_of body h es)

theorem insertRestrictionBody_spec (e : Element) :
    PolicyApplied (fun n => n ∈ INSERT_EDITABLE_FIELDS) e (insertRestrictionBody e) := by
  unfold PolicyApplied insertRestrictionBody
  rcases e with ⟨u, i, n, k, d, v, dv, o, si, di, fs⟩
  by_cases hn : n = ""
  · simp [hn]
  · by_cases hm : n ∈ INSERT_EDITABLE_FIELDS <;> simp [hn, hm]

theorem editableBody_spec (allow : List String) (e : Element) :
    PolicyApplied (fun n => n ∈ allow ∧ n ≠ "RIF") e (editableBody allow e) := by
  unfold PolicyApplied editableBody
  rcases e with ⟨u, i, n, k, d, v, dv, o, si, di, fs⟩
  by_cases hn : n = ""
  · simp [hn]
  · by_cases hr : n = "RIF"
    · simp [hn, hr]
    · by_cases hm : n ∈ allow <;> simp [hn, hr, hm]

theorem exceptBody_spec (allowNames : List String) (e : Element) :
    PolicyApplied (fun n => n ∈ allowNames) e (exceptBody allowNames e) := by
  unfold PolicyApplied exceptBody
  rcases e with ⟨u, i, n, k, d, v, dv, o, si, di, fs⟩
  by_cases hn : n = ""
  · simp [hn]
  · by_cases hm : n ∈ allowNames <;> simp [hn, hm]

/-! ## Lemmas on plain objects -/

theorem JsObject.mem_keys_assign {key x : String} {v : Value} :
    ∀ {o : JsObject}, x ∈ JsObject.keys (JsObject.assign o key v) → x = key ∨ x ∈ o.keys
  | [], h => by
    simp only [JsObject.assign, JsObject.keys, List.map_cons, List.map_nil,
      List.mem_singleton] at h
    exact Or.inl h
  | (k, w) :: rest, h => by
    unfold JsObject.assign at h
    split at h
    · simp only [JsObject.keys, List.map_cons, List.mem_cons] at h ⊢
      rcases h with h | h
      · exact Or.inl h
      · exact Or.inr (Or.inr h)
    · simp only [JsObject.keys, List.map_cons, List.mem_cons] at h ⊢
      rcases h with h | h
      · exact Or.inr (Or.inl h)
      · rcases JsObject.mem_keys_assign (o := rest) h with h' | h'
        · exact Or.inl h'
        · exact Or.inr (Or.inr h')

theorem JsObject.mem_keys_set {o : JsObject} {key x : String} {v : Value}
    (h : x ∈ (o.set key v).keys) : x = key ∨ x ∈ o.keys := by
  unfold JsObject.set at h
  split at h
  · exact Or.inr h
  · exact JsObject.mem_keys_assign h

theorem JsObject.get_some_mem_keys {o : JsObject} {key : String} {v : Value}
    (h : o.get key = some v) : key ∈ o.keys := by
  induction o with
  | nil => simp [JsObject.get, List.lookup] at h
  | cons p ps ih =>
    obtain ⟨k, w⟩ := p
    by_cases hk : key = k
    · simp [JsObject.keys, hk]
    · have hb : (key == k) = false := by simpa using hk
      simp only [JsObject.get, List.lookup, hb] at h
      have := ih h
      simp only [JsObject.keys, List.map_cons, List.mem_cons]
      exact Or.inr this

theorem JsObject.get_delete_self (o : JsObject) (key : String) :
    (o.delete key).get key = none := by
  induction o with
  | nil => rfl
  | cons p ps ih =>
    obtain ⟨k, w⟩ := p
    by_cases hk : k = key
    · subst hk
      simpa [JsObject.delete, JsObject.get, List.filter] using ih
    · have hb : (key == k) = false := by simpa using fun h => hk h.symm
      have hne : (k != key) = true := by simpa using hk
      simp only [JsObject.delete, List.filter, hne, JsObject.get, List.lookup, hb]
      exact ih

theorem JsObject.get_delete_of_ne (o : JsObject) {key x : String} (h : x ≠ key) :
    (o.delete key).get x = o.get x := by
  induction o with
  | nil => rfl
  | cons p ps ih =>
    obtain ⟨k, w⟩ := p
    by_cases hk : k = key
    · subst hk
      have hb : (x == k) = false := by simpa using h
      simpa [JsObject.delete, JsObject.get, List.filter, List.lookup, hb] using ih
    · have hne : (k != key) = true := by simpa using hk
      by_cases hx : x = k
      · subst hx
        simp [JsObject.delete, List.filter, hne, JsObject.get, List.lookup]
      · have hb : (x == k) = false := by simpa using hx
        simp only [JsObject.delete, List.filter, hne, JsObject.get, List.lookup, hb]
        exact ih

theorem JsObject.keys_delete_subset (o : JsObject) (key : String) :
    ∀ x ∈ (o.delete key).keys, x ∈ o.keys := by
  intro x hx
  simp only [JsObject.keys, JsObject.delete, List.mem_map, List.mem_filter] at hx ⊢
  obtain ⟨p, ⟨hp, _⟩, rfl⟩ := hx
  exact ⟨p, hp, rfl⟩

/-- The fold of `deleteEmptyKeys` over a list of keys, from any object. -/
theorem deleteEmpty_fold (ks : List String) :
    ∀ o : JsObject,
      let r := ks.foldl
        (fun o k => if o.get k = some (Value.str "") then JsObject.delete o k else o) o
      (∀ x, r.get x = o.get x ∨ r.get x = none) ∧
      (∀ x ∈ ks, r.get x ≠ some (Value.str "")) ∧
      (∀ x ∈ JsObject.keys r, x ∈ o.keys) := by
  induction ks with
  | nil =>
    intro o
    exact ⟨fun _ => Or.inl rfl, fun _ h => by simp at h, fun _ h => h⟩
  | cons k ks ih =>
    intro o
    simp only [List.foldl_cons]
    set o1 : JsObject := if o.get k = some (Value.str "") then JsObject.delete o k else o
      with ho1
    obtain ⟨h1, h2, h3⟩ := ih o1
    have hstep : ∀ x, JsObject.get o1 x = o.get x ∨ JsObject.get o1 x = none := by
      intro x
      rw [ho1]
      split
      · by_cases hx : x = k
        · subst hx
          exact Or.inr (JsObject.get_delete_self o x)
        · exact Or.inl (JsObject.get_delete_of_ne o hx)
      · exact Or.inl rfl
    have hk : JsObject.get o1 k ≠ some (Value.str "") := by
      rw [ho1]
      split
      · rw [JsObject.get_delete_self]
        simp
      · assumption
    have hkeys : ∀ x ∈ JsObject.keys o1, x ∈ o.keys := by
      intro x hx
      rw [ho1] at hx
      split at hx
      · exact JsObject.keys_delete_subset o k x hx
      · exact hx
    refine ⟨?_, ?_, ?_⟩
    · intro x
      rcases h1 x with h | h
      · rcases hstep x with h' | h'
        · exact Or.inl (h.trans h')
        · exact Or.inr (h.trans h')
      · exact Or.inr h
    · intro x hx
      rcases List.mem_cons.mp hx with rfl | hx
      · rcases h1 x with h | h
        · rw [h]
          exact hk
        · rw [h]
          simp
      · exact h2 x hx
    · intro x hx
      exact hkeys x (h3 x hx)

theorem deleteEmptyKeys_no_empty (o : JsObject) (key : String) :
    (deleteEmptyKeys o).get key ≠ some (Value.str "") := by
  obtain ⟨h1, h2, _⟩ := deleteEmpty_fold o.keys o
  intro h
  have h' : (deleteEmptyKeys o).get key = o.get key := by
    rcases h1 key with e | e
    · exact e
    · unfold deleteEmptyKeys at h
      rw [e] at h
      cases h
  exact h2 key (JsObject.get_some_mem_keys (h'.symm.trans h)) h

theorem deleteEmptyKeys_keys_subset (o : JsObject) :
    ∀ x ∈ (deleteEmptyKeys o).keys, x ∈ o.keys :=
  (deleteEmpty_fold o.keys o).2.2

theorem collectEditable_fold (entries : List (String × Value)) :
    ∀ o : JsObject, (∀ x ∈ o.keys, x ≠ "RIF" ∧ x ∈ EDITABLE_FIELDS) →
      ∀ x ∈ JsObject.keys (entries.foldl
        (fun obj p =>
          if p.1 = "RIF" then obj
          else if EDITABLE_FIELDS.contains p.1 then JsObject.set obj p.1 p.2
          else obj) o), x ≠ "RIF" ∧ x ∈ EDITABLE_FIELDS := by
  induction entries with
  | nil => intro o h; exact h
  | cons p ps ih =>
    intro o h
    simp only [List.foldl_cons]
    apply ih
    intro x hx
    split at hx
    · exact h x hx
    · split at hx
      · rcases JsObject.mem_keys_set hx with rfl | hx
        · rename_i hne hmem
          exact ⟨hne, by simpa using hmem⟩
        · exact h x hx
      · exact h x hx

theorem collectEditableFormData_keys (form : List Element) :
    ∀ x ∈ (collectEditableFormData form).keys, x ≠ "RIF" ∧ x ∈ EDITABLE_FIELDS :=
  collectEditable_fold _ [] (by intro x hx; simp [JsObject.keys] at hx)

theorem buildUpdates_keys {d : Dom} {read : ReadOutcome} {updates : JsObject}
    (h : buildUpdates d read = some updates) :
    ∀ x ∈ updates.keys, x = "fileData" ∨ (x ≠ "RIF" ∧ x ∈ EDITABLE_FIELDS) := by
  intro x hx
  unfold buildUpdates at h
  split at h
  · cases h
    exact Or.inr (collectEditableFormData_keys d.form x (deleteEmptyKeys_keys_subset _ x hx))
  · split at h
    · cases h
      rcases JsObject.mem_keys_set (deleteEmptyKeys_keys_subset _ x hx) with h1 | h1
      · exact Or.inl h1
      · exact Or.inr (collectEditableFormData_keys d.form x h1)
    · cases h

theorem showMessage_requests (d : Dom) (text type : String) :
    (showMessage d text type).requests = d.requests := by
  unfold showMessage
  split
  · rfl
  · split <;> rfl

theorem showMessage_form (d : Dom) (text type : String) :
    (showMessage d text type).form = d.form := by
  unfold showMessage
  split
  · rfl
  · split <;> rfl

theorem showMessage_updateControl (d : Dom) (text type : String) :
    (showMessage d text type).updateControlDisplay = d.updateControlDisplay := by
  unfold showMessage
  split
  · rfl
  · split <;> rfl

theorem showMessage_error (d : Dom) (text : String) :
    (showMessage d text "error").message = ⟨"block", text, "#f14668", "white"⟩ := by
  simp [showMessage]

/-- The requests the update handler leaves: those it found, or those and one
update request carrying the mapping `buildUpdates` gives. -/
theorem updateClick_requests (d : Dom) (read : ReadOutcome) (net : FetchOutcome) :
    (updateClick d read net).requests = d.requests ∨
    ∃ rif updates, buildUpdates d read = some updates ∧ rifValueOf d.form = some rif ∧
      rif ≠ "" ∧
      (updateClick d read net).requests = d.requests ++ [Request.postUpdate rif updates] := by
  unfold updateClick
  split
  · exact Or.inl (showMessage_requests _ _ _)
  · rename_i rifValue hrif
    split
    · exact Or.inl (showMessage_requests _ _ _)
    · rename_i hne
      split
      · exact Or.inl (showMessage_requests _ _ _)
      · rename_i updates hupd
        refine Or.inr ⟨rifValue, updates, hupd, hrif, hne, ?_⟩
        unfold actualizarRegistro
        simp only [hne, if_false]
        cases net with
        | failed m => simp [showMessage_requests]
        | json data =>
          by_cases hs : data.status = "success" <;> simp [hs, showMessage_requests]

/-! ## Lemmas on the mirrors -/

theorem mirrorLoop_skip : ∀ (app pre : List Element) (cr : List Element) (u fuel : Nat),
    (∀ e ∈ app, Skipped e) → app.length ≤ fuel →
    mirrorLoop fuel pre.length { form := pre ++ app, created := cr, nextUid := u }
      = some { form := pre ++ app, created := cr, nextUid := u } := by
  intro app
  induction app with
  | nil =>
    intro pre cr u fuel _ _
    cases fuel with
    | zero => simp [mirrorLoop]
    | succ f => simp [mirrorLoop]
  | cons a as ih =>
    intro pre cr u fuel hskip hfuel
    cases fuel with
    | zero => simp at hfuel
    | succ f =>
      have hget : (pre ++ a :: as).get? pre.length = some a := by
        rw [List.get?_eq_getElem?, List.getElem?_append_right (le_refl _)]
        simp
      have hrec := ih (pre ++ [a]) cr u f (fun e he => hskip e (List.mem_cons_of_mem _ he))
        (by simpa using hfuel)
      simp only [List.length_append, List.length_singleton, List.append_assoc,
        List.singleton_append] at hrec
      simp only [mirrorLoop, hget]
      rcases hskip a (List.mem_cons_self _ _) with hn | hd
      · simp only [hn, if_true]
        exact hrec
      · by_cases hn : a.name = ""
        · simp only [hn, if_true]
          exact hrec
        · simp only [hn, if_false, hd]
          exact hrec

theorem mirrorList_length_le : ∀ (l : List Element) (u : Nat), (mirrorList l u).length ≤ l.length
  | [], _ => by simp [mirrorList]
  | e :: es, u => by
    unfold mirrorList
    split
    · simpa using mirrorList_length_le es (u + 1)
    · exact Nat.le_succ_of_le (mirrorList_length_le es u)

theorem mirrorList_uid_ge : ∀ (l : List Element) (u : Nat), ∀ m ∈ mirrorList l u, u ≤ m.uid
  | [], _ => by simp [mirrorList]
  | e :: es, u => by
    intro m hm
    unfold mirrorList at hm
    split at hm
    · rcases List.mem_cons.mp hm with rfl | hm
      · simp [hiddenInput]
      · exact Nat.le_of_succ_le (mirrorList_uid_ge es (u + 1) m hm)
    · exact mirrorList_uid_ge es u m hm

theorem mirrorLoop_spec : ∀ (post pre app cr : List Element) (u fuel : Nat),
    (∀ e ∈ app, Skipped e) →
    post.length + app.length + (mirrorList post u).length ≤ fuel →
    mirrorLoop fuel pre.length { form := pre ++ post ++ app, created := cr, nextUid := u }
      = some { form := pre ++ post ++ app ++ mirrorList post u,
               created := cr ++ mirrorList post u,
               nextUid := u + (mirrorList post u).length } := by
  intro post
  induction post with
  | nil =>
    intro pre app cr u fuel hskip hfuel
    simp only [mirrorList, List.append_nil, List.length_nil, Nat.add_zero]
    exact mirrorLoop_skip app pre cr u fuel hskip (by simpa [mirrorList] using hfuel)
  | cons x xs ih =>
    intro pre app cr u fuel hskip hfuel
    cases fuel with
    | zero => simp at hfuel
    | succ f =>
      have hget : (pre ++ (x :: xs) ++ app).get? pre.length = some x := by
        rw [List.append_assoc, List.get?_eq_getElem?,
          List.getElem?_append_right (le_refl _)]
        simp
      have hform : pre ++ (x :: xs) ++ app = (pre ++ [x]) ++ xs ++ app := by simp
      have hlen : (pre ++ [x]).length = pre.length + 1 := by simp
      simp only [mirrorLoop, hget]
      by_cases hn : x.name = ""
      · have hml : mirrorList (x :: xs) u = mirrorList xs u := by simp [mirrorList, hn]
        simp only [hn, if_true, hml]
        rw [hml] at hfuel
        have := ih (pre ++ [x]) app cr u f hskip (by simp at hfuel ⊢; omega)
        rw [hlen] at this
        rw [hform, this]
      · by_cases hd : x.disabled = true
        · have hml : mirrorList (x :: xs) u
              = hiddenInput u x.name x.jsValue :: mirrorList xs (u + 1) := by
            simp [mirrorList, hn, hd]
          simp only [hn, if_false, hd, if_true, hml]
          rw [hml] at hfuel
          have hskip' : ∀ e ∈ app ++ [hiddenInput u x.name x.jsValue], Skipped e := by
            intro e he
            rcases List.mem_append.mp he with he | he
            · exact hskip e he
            · rw [List.mem_singleton.mp he]
              exact Or.inr rfl
          have := ih (pre ++ [x]) (app ++ [hiddenInput u x.name x.jsValue])
            (cr ++ [hiddenInput u x.name x.jsValue]) (u + 1) f hskip'
            (by simp at hfuel ⊢; omega)
          rw [hlen] at this
          have e1 : pre ++ (x :: xs) ++ app ++ [hiddenInput u x.name x.jsValue]
              = pre ++ [x] ++ xs ++ (app ++ [hiddenInput u x.name x.jsValue]) := by simp
          rw [e1, this]
          simp [Nat.add_assoc, Nat.add_comm 1]
        · have hml : mirrorList (x :: xs) u = mirrorList xs u := by simp [mirrorList, hd]
          have hd' : x.disabled = false := by simpa using hd
          simp only [hn, if_false, hd', hml]
          rw [hml] at hfuel
          have := ih (pre ++ [x]) app cr u f hskip (by simp at hfuel ⊢; omega)
          rw [hlen] at this
          rw [hform]
          simpa using this

/-- The mirror loop ends within its budget: the form gains the mirrors of its
named disabled controls at its end, and `created` lists them. -/
theorem createHiddenMirrors_eq (form : List Element) (u : Nat) :
    createHiddenMirrorsForDisabledFields form u
      = some { form := form ++ mirrorList form u, created := mirrorList form u,
               nextUid := u + (mirrorList form u).length } := by
  have h := mirrorLoop_spec form [] [] [] u (2 * form.length) (by simp)
    (by have := mirrorList_length_le form u; simp; omega)
  simpa [createHiddenMirrorsForDisabledFields] using h

theorem removeMirrors_eq_filter (created : List Element) :
    ∀ form : List Element,
      removeMirrors form created
        = form.filter (fun e => !(created.map Element.uid).contains e.uid) := by
  induction created with
  | nil => intro form; simp [removeMirrors]
  | cons c cs ih =>
    intro form
    have := ih (removeChild form c)
    simp only [removeMirrors, List.foldl_cons] at this ⊢
    rw [this]
    simp only [removeChild, List.filter_filter, List.map_cons]
    apply List.filter_congr
    intro e _
    by_cases h1 : e.uid = c.uid <;> simp [h1]

theorem Element.reset_uid (e : Element) : e.reset.uid = e.uid := by
  unfold Element.reset
  split <;> rfl

theorem formReset_uids (form : List Element) :
    (formReset form).map Element.uid = form.map Element.uid := by
  simp [formReset, Function.comp, Element.reset_uid]

theorem insertRestrictionBody_uid (e : Element) : (insertRestrictionBody e).uid = e.uid := by
  unfold insertRestrictionBody
  split
  · rfl
  · split <;> rfl

theorem applyInsert_uids (mode : Option String) (form : List Element) :
    (applyInsertFieldRestrictions mode form).map Element.uid = form.map Element.uid := by
  unfold applyInsertFieldRestrictions
  split
  · rfl
  · split
    · rfl
    · rw [forEachElement_eq_map]
      simp [Function.comp, insertRestrictionBody_uid]

theorem removeMirrors_append_of {A B ms : List Element} {u : Nat}
    (hA : ∀ e ∈ A, e.uid < u) (hms : ∀ m ∈ ms, u ≤ m.uid)
    (hB : ∀ b ∈ B, b.uid ∈ ms.map Element.uid) :
    removeMirrors (A ++ B) ms = A := by
  rw [removeMirrors_eq_filter, List.filter_append]
  have h1 : A.filter (fun e => !(ms.map Element.uid).contains e.uid) = A := by
    apply List.filter_eq_self.mpr
    intro e he
    simp only [Bool.not_eq_true', List.contains_eq_any_beq, List.any_eq_false, List.mem_map,
      forall_exists_index, and_imp, forall_apply_eq_imp_iff₂, beq_iff_eq]
    intro m hm heq
    have := hA e he
    have := hms m hm
    omega
  have h2 : B.filter (fun e => !(ms.map Element.uid).contains e.uid) = [] := by
    apply List.filter_eq_nil_iff.mpr
    intro e he
    have := hB e he
    simp only [List.mem_map] at this
    obtain ⟨m, hm, hme⟩ := this
    simp only [Bool.not_eq_true, Bool.not_eq_false', List.contains_eq_any_beq, List.any_eq_true,
      List.mem_map, beq_iff_eq]
    exact ⟨e.uid, ⟨m, hm, hme⟩, rfl⟩
  rw [h1, h2, List.append_nil]

theorem insertForm_uids (mode : String) (form : List Element) :
    (insertForm mode form).map Element.uid = form.map Element.uid := by
  unfold insertForm
  split
  · exact applyInsert_uids _ _
  · rfl

theorem carriers_uid_ge (mode : String) (form : List Element) (u : Nat) :
    ∀ m ∈ carriers mode form u, u ≤ m.uid := by
  unfold carriers
  split
  · exact mirrorList_uid_ge _ _
  · intro m hm
    simp at hm

theorem collectAll_eq (mode : String) (form : List Element) (u : Nat) :
    collectAll mode form u
      = some ({ form := insertForm mode form ++ carriers mode form u,
                created := carriers mode form u,
                nextUid := u + (carriers mode form u).length },
              entriesToObject (formDataEntries (insertForm mode form ++ carriers mode form u))) := by
  unfold collectAll insertForm carriers
  by_cases hm : mode = "ingresar"
  · simp only [hm, if_true, createHiddenMirrors_eq, Option.map_some', insertForm]
  · simp [hm]

/-- What is left of the form and its mirrors after the clean-up, reset or not. -/
theorem cleanup_forms {d : Dom} (hfresh : FreshUids d) :
    removeMirrors (insertForm d.modeSelect d.form ++ carriers d.modeSelect d.form d.nextUid)
        (carriers d.modeSelect d.form d.nextUid) = insertForm d.modeSelect d.form ∧
    removeMirrors
        (formReset (insertForm d.modeSelect d.form ++ carriers d.modeSelect d.form d.nextUid))
        (carriers d.modeSelect d.form d.nextUid) = formReset (insertForm d.modeSelect d.form) := by
  have hF : ∀ e ∈ insertForm d.modeSelect d.form, e.uid < d.nextUid := by
    intro e he
    have : e.uid ∈ (insertForm d.modeSelect d.form).map Element.uid :=
      List.mem_map.mpr ⟨e, he, rfl⟩
    rw [insertForm_uids] at this
    obtain ⟨e', he', heq⟩ := List.mem_map.mp this
    rw [← heq]
    exact hfresh e' he'
  constructor
  · exact removeMirrors_append_of hF (carriers_uid_ge _ _ _)
      (fun b hb => List.mem_map.mpr ⟨b, hb, rfl⟩)
  · unfold formReset
    rw [List.map_append]
    apply removeMirrors_append_of (u := d.nextUid) _ (carriers_uid_ge _ _ _)
    · intro b hb
      obtain ⟨m, hm, rfl⟩ := List.mem_map.mp hb
      rw [Element.reset_uid]
      exact List.mem_map.mpr ⟨m, hm, rfl⟩
    · intro e he
      obtain ⟨m, hm, rfl⟩ := List.mem_map.mp he
      rw [Element.reset_uid]
      exact hF m hm

theorem submitSend_form (d : Dom) (created : List Element) (obj : JsObject)
    (net : FetchOutcome) :
    (submitSend d created obj net).form = removeMirrors d.form created ∨
    (submitSend d created obj net).form = removeMirrors (formReset d.form) created := by
  unfold submitSend
  cases net with
  | failed m => exact Or.inl rfl
  | json data =>
    by_cases hs : data.status = "success"
    · simp only [hs, if_true]
      exact Or.inr rfl
    · simp only [hs, if_false]
      exact Or.inl rfl

/-- The submit handler always ends within the budget of its mirror loop; when
it returns the form is `insertForm`, reset or not; it returns unless the
promise of `uploadFile` stays pending. -/
theorem submitHandler_cases (d : Dom) (read : ReadOutcome) (net : FetchOutcome)
    (hfresh : FreshUids d) :
    ∃ r, submitHandler d read net = some r ∧
      (∀ d', r = HandlerResult.returned d' →
        d'.form = insertForm d.modeSelect d.form ∨
        d'.form = formReset (insertForm d.modeSelect d.form)) ∧
      ((∀ file, uploadFile file read ≠ Settled.pending) → ∃ d', r = HandlerResult.returned d') := by
  obtain ⟨hc1, hc2⟩ := cleanup_forms hfresh
  unfold submitHandler
  rw [collectAll_eq]
  simp only
  split
  · refine ⟨_, rfl, ?_, fun _ => ⟨_, rfl⟩⟩
    intro d' hd'
    cases hd'
    rcases submitSend_form _ _ _ _ with h | h
    · exact Or.inl (h.trans hc1)
    · exact Or.inr (h.trans hc2)
  · rename_i file rest hfiles
    cases hu : uploadFile file read with
    | resolved a =>
      refine ⟨_, rfl, ?_, fun _ => ⟨_, rfl⟩⟩
      intro d' hd'
      cases hd'
      rcases submitSend_form _ _ _ _ with h | h
      · exact Or.inl (h.trans hc1)
      · exact Or.inr (h.trans hc2)
    | rejected =>
      refine ⟨_, rfl, ?_, fun _ => ⟨_, rfl⟩⟩
      intro d' hd'
      cases hd'
      exact Or.inl hc1
    | pending =>
      refine ⟨_, rfl, ?_, fun h => absurd hu (h file)⟩
      intro d' hd'
      cases hd'

/-! ## Lemmas on serialisation -/

theorem JsObject.get_assign_self (key : String) (v : Value) :
    ∀ o : JsObject, JsObject.get (JsObject.assign o key v) key = some v
  | [] => by simp [JsObject.assign, JsObject.get, List.lookup]
  | (k, w) :: rest => by
    unfold JsObject.assign
    split
    · simp [JsObject.get, List.lookup]
    · rename_i hk
      have hb : (key == k) = false := by simpa using fun e => hk e.symm
      simp only [JsObject.get, List.lookup, hb]
      exact JsObject.get_assign_self key v rest

theorem JsObject.get_assign_of_ne {key x : String} (v : Value) (h : x ≠ key) :
    ∀ o : JsObject, JsObject.get (JsObject.assign o key v) x = o.get x
  | [] => by
    have hb : (x == key) = false := by simpa using h
    simp [JsObject.assign, JsObject.get, List.lookup, hb]
  | (k, w) :: rest => by
    unfold JsObject.assign
    split
    · rename_i hk
      subst hk
      have hb : (x == k) = false := by simpa using h
      simp [JsObject.get, List.lookup, hb]
    · by_cases hx : x = k
      · subst hx
        simp [JsObject.get, List.lookup]
      · have hb : (x == k) = false := by simpa using hx
        simp only [JsObject.get, List.lookup, hb]
        exact JsObject.get_assign_of_ne v h rest

theorem JsObject.get_set_self (o : JsObject) {key : String} (v : Value)
    (h : key ≠ "__proto__") : (o.set key v).get key = some v := by
  unfold JsObject.set
  simp only [h, if_false]
  exact JsObject.get_assign_self key v o

theorem JsObject.get_set_of_ne (o : JsObject) {key x : String} (v : Value) (h : x ≠ key) :
    (o.set key v).get x = o.get x := by
  unfold JsObject.set
  split
  · rfl
  · exact JsObject.get_assign_of_ne v h o

/-- Reading a key of the object built from an entry list: when every entry
of that key holds `v`, and there is one, the object holds `v` there. -/
theorem entries_fold_get {key : String} {v : Value} (hkey : key ≠ "__proto__") :
    ∀ (entries : List (String × Value)) (o : JsObject),
      (∀ p ∈ entries, p.1 = key → p.2 = v) →
      ((∃ p ∈ entries, p.1 = key) ∨ o.get key = some v) →
      JsObject.get (entries.foldl (fun o p => JsObject.set o p.1 p.2) o) key = some v := by
  intro entries
  induction entries with
  | nil =>
    intro o _ h
    rcases h with ⟨p, hp, _⟩ | h
    · simp at hp
    · exact h
  | cons q qs ih =>
    intro o hall hex
    simp only [List.foldl_cons]
    apply ih
    · intro p hp
      exact hall p (List.mem_cons_of_mem _ hp)
    · by_cases hq : q.1 = key
      · right
        have hv := hall q (List.mem_cons_self _ _) hq
        rw [hq, hv]
        exact JsObject.get_set_self o v hkey
      · rcases hex with ⟨p, hp, hpk⟩ | h
        · rcases List.mem_cons.mp hp with rfl | hp
          · exact absurd hpk hq
          · exact Or.inl ⟨p, hp, hpk⟩
        · right
          rw [JsObject.get_set_of_ne o q.2 (fun e => hq e.symm)]
          exact h

theorem entriesToObject_get {key : String} {v : Value} (hkey : key ≠ "__proto__")
    (entries : List (String × Value))
    (hall : ∀ p ∈ entries, p.1 = key → p.2 = v) (hex : ∃ p ∈ entries, p.1 = key) :
    (entriesToObject entries).get key = some v :=
  entries_fold_get hkey entries [] hall (Or.inl hex)

theorem mem_entriesOf {e : Element} {p : String × Value} (h : p ∈ entriesOf e) :
    p.1 = e.name ∧ e.disabled = false ∧ e.name ≠ "" := by
  unfold entriesOf at h
  split at h
  · simp at h
  · rename_i hd
    split at h
    · simp at h
    · rename_i hn
      have hd' : e.disabled = false := by simpa using hd
      refine ⟨?_, hd', hn⟩
      split at h
      · simp at h
      · split at h
        · simp at h
        · split at h
          · simp at h
          · simp only [List.mem_singleton] at h
            rw [h]
      · split at h
        · simp only [List.mem_singleton] at h
          rw [h]
        · simp only [List.mem_map] at h
          obtain ⟨f, _, rfl⟩ := h
          rfl
      · split at h <;>
        · simp only [List.mem_singleton] at h
          rw [h]
      · simp only [List.mem_singleton] at h
        rw [h]

theorem mem_formDataEntries {form : List Element} {p : String × Value}
    (h : p ∈ formDataEntries form) : ∃ e ∈ form, p ∈ entriesOf e := by
  simp only [formDataEntries, List.mem_flatten, List.mem_map] at h
  obtain ⟨l, ⟨e, he, rfl⟩, hp⟩ := h
  exact ⟨e, he, hp⟩

theorem formDataEntries_mem {form : List Element} {e : Element} {p : String × Value}
    (he : e ∈ form) (hp : p ∈ entriesOf e) : p ∈ formDataEntries form := by
  simp only [formDataEntries, List.mem_flatten, List.mem_map]
  exact ⟨entriesOf e, ⟨e, he, rfl⟩, hp⟩

/-- An enabled named control with an entry of its own serialises as its value. -/
theorem entriesOf_own {f : Element} (hown : HasOwnEntry f) (hd : f.disabled = false)
    (hn : f.name ≠ "") (hc : asciiLower f.name ≠ "_charset_") :
    entriesOf f = [(f.name, Value.str f.jsValue)] := by
  unfold entriesOf Element.jsValue
  rcases hown with hk | hk | ⟨hk, i, o, hi, ho⟩
  · simp [hd, hn, hk]
  · simp [hd, hn, hk, hc]
  · have ho' : f.options[i]? = some o := by simpa using ho
    simp [hd, hn, hk, hi, ho']

theorem mem_mirrorList : ∀ (l : List Element) (u : Nat) (m : Element), m ∈ mirrorList l u →
    ∃ e ∈ l, e.name ≠ "" ∧ e.disabled = true ∧ ∃ uid, m = hiddenInput uid e.name e.jsValue
  | [], _, m, h => by simp [mirrorList] at h
  | x :: xs, u, m, h => by
    unfold mirrorList at h
    split at h
    · rename_i hc
      rcases List.mem_cons.mp h with rfl | h
      · exact ⟨x, List.mem_cons_self _ _, hc.1, hc.2, u, rfl⟩
      · obtain ⟨e, he, h1, h2, h3⟩ := mem_mirrorList xs (u + 1) m h
        exact ⟨e, List.mem_cons_of_mem _ he, h1, h2, h3⟩
    · obtain ⟨e, he, h1, h2, h3⟩ := mem_mirrorList xs u m h
      exact ⟨e, List.mem_cons_of_mem _ he, h1, h2, h3⟩

theorem mirrorList_names : ∀ (l : List Element) (u : Nat),
    (mirrorList l u).map Element.name
      = (l.filter (fun e => e.named && e.disabled)).map Element.name
  | [], _ => rfl
  | x :: xs, u => by
    unfold mirrorList
    by_cases hc : x.name ≠ "" ∧ x.disabled = true
    · have hb : (x.named && x.disabled) = true := by
        simp [Element.named, hc.1, hc.2]
      rw [if_pos hc, List.filter_cons, if_pos hb, List.map_cons, List.map_cons,
        mirrorList_names xs (u + 1)]
      rfl
    · have hb : ¬ (x.named && x.disabled) = true := by
        intro h
        simp only [Element.named, Bool.and_eq_true, bne_iff_ne, ne_eq] at h
        exact hc h
      rw [if_neg hc, List.filter_cons, if_neg hb]
      exact mirrorList_names xs u

theorem exists_mirror : ∀ (l : List Element) (u : Nat) (e : Element), e ∈ l → e.name ≠ "" →
    e.disabled = true → ∃ uid, hiddenInput uid e.name e.jsValue ∈ mirrorList l u
  | [], _, e, h, _, _ => by simp at h
  | x :: xs, u, e, h, hn, hd => by
    unfold mirrorList
    rcases List.mem_cons.mp h with rfl | h
    · simp only [hn, hd, ne_eq, not_false_eq_true, and_self, if_true]
      exact ⟨u, List.mem_cons_self _ _⟩
    · split
      · obtain ⟨uid, hu⟩ := exists_mirror xs (u + 1) e h hn hd
        exact ⟨uid, List.mem_cons_of_mem _ hu⟩
      · exact exists_mirror xs u e h hn hd

theorem insertForm_ingresar (form : List Element) :
    insertForm "ingresar" form = form.map insertRestrictionBody := by
  simp [insertForm, applyInsertFieldRestrictions, forEachElement_eq_map]

theorem insertRestrictionBody_name (e : Element) : (insertRestrictionBody e).name = e.name := by
  unfold insertRestrictionBody
  split
  · rfl
  · split <;> rfl

theorem insertRestrictionBody_jsValue (e : Element) :
    (insertRestrictionBody e).jsValue = e.jsValue := by
  unfold insertRestrictionBody
  split
  · rfl
  · split <;> rfl

theorem insertRestrictionBody_disabled {e : Element} (hn : e.name ≠ "") :
    (insertRestrictionBody e).disabled = !(INSERT_EDITABLE_FIELDS.contains e.name) := by
  unfold insertRestrictionBody
  rw [if_neg hn]
  split
  · rename_i h
    rw [h]
    rfl
  · rename_i h
    have : INSERT_EDITABLE_FIELDS.contains e.name = false := by simpa using h
    rw [this]
    rfl

theorem insertRestrictionBody_own {e : Element} (h : HasOwnEntry e) :
    HasOwnEntry (insertRestrictionBody e) := by
  unfold insertRestrictionBody
  split
  · exact h
  · split <;> exact h

theorem named_names_map_body (form : List Element) :
    ((form.map insertRestrictionBody).filter Element.named).map Element.name
      = (form.filter Element.named).map Element.name := by
  induction form with
  | nil => rfl
  | cons x xs ih =>
    have hx : (insertRestrictionBody x).named = x.named := by
      simp [Element.named, insertRestrictionBody_name]
    simp only [List.map_cons, List.filter_cons, hx]
    split
    · simp only [List.map_cons, insertRestrictionBody_name, ih]
    · exact ih

theorem distinct_names_unique {form : List Element} (hd : DistinctNames form)
    {e f : Element} (he : e ∈ form) (hf : f ∈ form) (hn : f.name ≠ "")
    (heq : e.name = f.name) : e = f := by
  have he' : e ∈ form.filter Element.named := by
    simp [List.mem_filter, he, Element.named, heq, hn]
  have hf' : f ∈ form.filter Element.named := by
    simp [List.mem_filter, hf, Element.named, hn]
  exact List.inj_on_of_nodup_map hd he' hf' heq

theorem allow_names_plain : ∀ n ∈ INSERT_EDITABLE_FIELDS,
    n ≠ "__proto__" ∧ asciiLower n ≠ "_charset_" := by
  decide

theorem hiddenInput_entries {uid : Nat} {n v : String} (hn : n ≠ "")
    (hc : asciiLower n ≠ "_charset_") :
    entriesOf (hiddenInput uid n v) = [(n, Value.str v)] := by
  simp [entriesOf, hiddenInput, hn, hc]

/-- Reading the payload of the insert mode at the name of a named control of
a form with distinct names. -/
theorem collectAll_get {form : List Element} (u : Nat) (hdist : DistinctNames form)
    {f : Element} (hf : f ∈ form) (hn : f.name ≠ "") :
    (f.name ∉ INSERT_EDITABLE_FIELDS → f.name ≠ "__proto__" →
      asciiLower f.name ≠ "_charset_" →
      (entriesToObject (formDataEntries
        (insertForm "ingresar" form ++ carriers "ingresar" form u))).get f.name
          = some (Value.str f.jsValue) ∧
      ((carriers "ingresar" form u).map Element.name).count f.name = 1) ∧
    (f.name ∈ INSERT_EDITABLE_FIELDS → HasOwnEntry f →
      (entriesToObject (formDataEntries
        (insertForm "ingresar" form ++ carriers "ingresar" form u))).get f.name
          = some (Value.str f.jsValue)) := by
  have hcar : carriers "ingresar" form u = mirrorList (form.map insertRestrictionBody) u := by
    simp [carriers, insertForm_ingresar]
  rw [hcar, insertForm_ingresar]
  -- every entry under the name of `f` comes from `f` or from its mirror
  have hsrc : ∀ p ∈ formDataEntries
      (form.map insertRestrictionBody ++ mirrorList (form.map insertRestrictionBody) u),
      p.1 = f.name →
      (p ∈ entriesOf (insertRestrictionBody f) ∧ (insertRestrictionBody f).disabled = false) ∨
      ((insertRestrictionBody f).disabled = true ∧
        ∃ uid, p ∈ entriesOf (hiddenInput uid f.name f.jsValue)) := by
    intro p hp hpk
    obtain ⟨e', he', hpe⟩ := mem_formDataEntries hp
    obtain ⟨h1, h2, _⟩ := mem_entriesOf hpe
    rcases List.mem_append.mp he' with hF | hM
    · obtain ⟨e, he, rfl⟩ := List.mem_map.mp hF
      have hname : e.name = f.name := by
        rw [← insertRestrictionBody_name e, ← h1, hpk]
      have := distinct_names_unique hdist he hf hn hname
      subst this
      exact Or.inl ⟨hpe, h2⟩
    · obtain ⟨e1, he1, hn1, hd1, uid, rfl⟩ := mem_mirrorList _ _ _ hM
      obtain ⟨e, he, rfl⟩ := List.mem_map.mp he1
      have hname : e.name = f.name := by
        rw [← insertRestrictionBody_name e]
        have : (hiddenInput uid (insertRestrictionBody e).name
            (insertRestrictionBody e).jsValue).name = (insertRestrictionBody e).name := rfl
        rw [← this, ← h1, hpk]
      have := distinct_names_unique hdist he hf hn hname
      subst this
      refine Or.inr ⟨hd1, uid, ?_⟩
      rw [insertRestrictionBody_name, insertRestrictionBody_jsValue] at hpe
      exact hpe
  have hbody : insertRestrictionBody f ∈ form.map insertRestrictionBody :=
    List.mem_map.mpr ⟨f, hf, rfl⟩
  constructor
  · intro hnot hproto hcs
    have hdis : (insertRestrictionBody f).disabled = true := by
      rw [insertRestrictionBody_disabled hn]
      simpa using hnot
    constructor
    · apply entriesToObject_get hproto
      · intro p hp hpk
        rcases hsrc p hp hpk with ⟨_, h⟩ | ⟨_, uid, h⟩
        · rw [hdis] at h
          cases h
        · rw [hiddenInput_entries hn hcs, List.mem_singleton] at h
          rw [h]
      · obtain ⟨uid, hm⟩ := exists_mirror (form.map insertRestrictionBody) u
          (insertRestrictionBody f) hbody (by rw [insertRestrictionBody_name]; exact hn) hdis
        rw [insertRestrictionBody_name, insertRestrictionBody_jsValue] at hm
        refine ⟨(f.name, Value.str f.jsValue), ?_, rfl⟩
        apply formDataEntries_mem (List.mem_append_right _ hm)
        rw [hiddenInput_entries hn hcs]
        exact List.mem_singleton_self _
    · rw [mirrorList_names]
      apply List.count_eq_one_of_mem
      · have hsub : ((form.map insertRestrictionBody).filter
            (fun e => e.named && e.disabled)).map Element.name
            |>.Sublist (((form.map insertRestrictionBody).filter Element.named).map
              Element.name) := by
          apply List.Sublist.map
          apply List.monotone_filter_right
          intro a ha
          simp only [Bool.and_eq_true] at ha
          exact ha.1
        rw [named_names_map_body] at hsub
        exact hsub.nodup hdist
      · apply List.mem_map.mpr
        refine ⟨insertRestrictionBody f, ?_, insertRestrictionBody_name f⟩
        simp [List.mem_filter, hf, Element.named, insertRestrictionBody_name, hn, hdis]
        exact ⟨f, hf, rfl⟩
  · intro hin hown
    obtain ⟨hproto, hcs⟩ := allow_names_plain f.name hin
    have hen : (insertRestrictionBody f).disabled = false := by
      rw [insertRestrictionBody_disabled hn]
      simpa using hin
    have hent : entriesOf (insertRestrictionBody f) = [(f.name, Value.str f.jsValue)] := by
      have := entriesOf_own (insertRestrictionBody_own hown) hen
        (by rw [insertRestrictionBody_name]; exact hn)
        (by rw [insertRestrictionBody_name]; exact hcs)
      rw [insertRestrictionBody_name, insertRestrictionBody_jsValue] at this
      exact this
    apply entriesToObject_get hproto
    · intro p hp hpk
      rcases hsrc p hp hpk with ⟨h, _⟩ | ⟨h, _⟩
      · rw [hent, List.mem_singleton] at h
        rw [h]
      · rw [hen] at h
        cases h
    · refine ⟨(f.name, Value.str f.jsValue), ?_, rfl⟩
      apply formDataEntries_mem (List.mem_append_left _ hbody)
      rw [hent]
      exact List.mem_singleton_self _

theorem entriesToObject_get_last {key : String} (hkey : key ≠ "__proto__")
    (entries : List (String × Value)) :
    (entriesToObject entries).get key
      = ((entries.filter (fun p => p.1 == key)).getLast?).map Prod.snd := by
  induction entries using List.reverseRecOn with
  | nil => rfl
  | append_singleton qs q ih =>
    have hfold : entriesToObject (qs ++ [q]) = (entriesToObject qs).set q.1 q.2 := by
      simp [entriesToObject, List.foldl_append]
    rw [hfold, List.filter_append]
    by_cases hq : q.1 = key
    · have : [q].filter (fun p => p.1 == key) = [q] := by simp [hq]
      rw [this, List.getLast?_append_of_ne_nil _ (by simp), hq]
      simp [JsObject.get_set_self _ _ hkey]
    · have : [q].filter (fun p => p.1 == key) = [] := by simp [hq]
      rw [this, List.append_nil, JsObject.get_set_of_ne _ _ (fun e => hq e.symm), ih]

theorem formDataEntries_append (l1 l2 : List Element) :
    formDataEntries (l1 ++ l2) = formDataEntries l1 ++ formDataEntries l2 := by
  simp [formDataEntries]

theorem formDataEntries_cons (e : Element) (l : List Element) :
    formDataEntries (e :: l) = entriesOf e ++ formDataEntries l := by
  simp [formDataEntries]

theorem filter_entries_nil {l : List Element} {key : String}
    (h : ∀ e ∈ l, e.disabled = false → e.name ≠ key) :
    (formDataEntries l).filter (fun p => p.1 == key) = [] := by
  apply List.filter_eq_nil_iff.mpr
  intro p hp
  obtain ⟨e, he, hpe⟩ := mem_formDataEntries hp
  obtain ⟨h1, h2, _⟩ := mem_entriesOf hpe
  simp only [beq_iff_eq]
  rw [h1]
  exact h e he h2

theorem filter_entriesOf_self (e : Element) :
    (entriesOf e).filter (fun p => p.1 == e.name) = entriesOf e := by
  apply List.filter_eq_self.mpr
  intro p hp
  simp only [beq_iff_eq]
  exact (mem_entriesOf hp).1

theorem insertRestrictionBody_allowed {f : Element} (hn : f.name ≠ "")
    (hin : f.name ∈ INSERT_EDITABLE_FIELDS) :
    insertRestrictionBody f = { f with disabled := false } := by
  unfold insertRestrictionBody
  rw [if_neg hn, if_pos (by simpa using hin)]

/-- In a form with distinct names split at a named control, no other control
has the name of that control. -/
theorem distinct_names_split {A B : List Element} {f : Element}
    (hdist : DistinctNames (A ++ f :: B)) (hn : f.name ≠ "") :
    (∀ e ∈ A, e.name ≠ f.name) ∧ (∀ e ∈ B, e.name ≠ f.name) := by
  unfold DistinctNames at hdist
  have hfn : f.named = true := by simp [Element.named, hn]
  rw [List.filter_append, List.filter_cons, if_pos hfn, List.map_append, List.map_cons] at hdist
  have h1 := List.nodup_append.mp hdist
  have h2 := List.nodup_cons.mp h1.2.1
  constructor
  · intro e he heq
    have hmem : e.name ∈ (A.filter Element.named).map Element.name :=
      List.mem_map.mpr ⟨e, List.mem_filter.mpr ⟨he, by simp [Element.named, heq, hn]⟩, rfl⟩
    exact h1.2.2 hmem (by rw [heq]; exact List.mem_cons_self _ _)
  · intro e he heq
    have hmem : e.name ∈ (B.filter Element.named).map Element.name :=
      List.mem_map.mpr ⟨e, List.mem_filter.mpr ⟨he, by simp [Element.named, heq, hn]⟩, rfl⟩
    rw [heq] at hmem
    exact h2.1 hmem

/-- Reading the payload of the insert mode at the name of an allow-listed
control of a form with distinct names: the last entry of the control itself. -/
theorem collectAll_get_enabled {form : List Element} (u : Nat) (hdist : DistinctNames form)
    {f : Element} (hf : f ∈ form) (hn : f.name ≠ "")
    (hin : f.name ∈ INSERT_EDITABLE_FIELDS) :
    (entriesToObject (formDataEntries
      (insertForm "ingresar" form ++ carriers "ingresar" form u))).get f.name
      = ((entriesOf { f with disabled := false }).getLast?).map Prod.snd := by
  have hcar : carriers "ingresar" form u = mirrorList (form.map insertRestrictionBody) u := by
    simp [carriers, insertForm_ingresar]
  obtain ⟨hproto, _⟩ := allow_names_plain f.name hin
  rw [hcar, insertForm_ingresar, entriesToObject_get_last hproto]
  have hen : (insertRestrictionBody f).disabled = false := by
    rw [insertRestrictionBody_disabled hn]
    simpa using hin
  -- no mirror has the name of `f`
  have hmir : ∀ m ∈ mirrorList (form.map insertRestrictionBody) u,
      m.disabled = false → m.name ≠ f.name := by
    intro m hm _ heq
    obtain ⟨e1, he1, _, hd1, uid, rfl⟩ := mem_mirrorList _ _ _ hm
    obtain ⟨e, he, rfl⟩ := List.mem_map.mp he1
    have hname : e.name = f.name := by
      rw [← insertRestrictionBody_name e]
      exact heq
    have := distinct_names_unique hdist he hf hn hname
    subst this
    rw [hen] at hd1
    cases hd1
  obtain ⟨A, B, rfl⟩ := List.append_of_mem hf
  obtain ⟨hA, hB⟩ := distinct_names_split hdist hn
  have hA' : ∀ e ∈ A.map insertRestrictionBody, e.disabled = false → e.name ≠ f.name := by
    intro e he _
    obtain ⟨e0, he0, rfl⟩ := List.mem_map.mp he
    rw [insertRestrictionBody_name]
    exact hA e0 he0
  have hB' : ∀ e ∈ B.map insertRestrictionBody, e.disabled = false → e.name ≠ f.name := by
    intro e he _
    obtain ⟨e0, he0, rfl⟩ := List.mem_map.mp he
    rw [insertRestrictionBody_name]
    exact hB e0 he0
  generalize mirrorList (List.map insertRestrictionBody (A ++ f :: B)) u = M at hmir ⊢
  have hself := filter_entriesOf_self (insertRestrictionBody f)
  rw [insertRestrictionBody_name] at hself
  rw [List.map_append, List.map_cons, formDataEntries_append, formDataEntries_append,
    formDataEntries_cons, List.filter_append, List.filter_append, List.filter_append,
    filter_entries_nil hA', filter_entries_nil hB', filter_entries_nil hmir, hself,
    insertRestrictionBody_allowed hn hin]
  simp

/-! ## Lemmas on `trim` and on the option loop -/

theorem trimChars_idem (l : List Char) : trimChars (trimChars l) = trimChars l := by
  unfold trimChars
  have h1 : ((l.dropWhile isJsWhiteSpace).rdropWhile isJsWhiteSpace).dropWhile isJsWhiteSpace
      = (l.dropWhile isJsWhiteSpace).rdropWhile isJsWhiteSpace := by
    rw [List.dropWhile_eq_self_iff]
    intro hl
    have hpre := List.rdropWhile_prefix isJsWhiteSpace (l := l.dropWhile isJsWhiteSpace)
    have hlen : 0 < (l.dropWhile isJsWhiteSpace).length :=
      Nat.lt_of_lt_of_le hl hpre.length_le
    have hget := List.IsPrefix.getElem hpre hl
    have hnot := List.dropWhile_get_zero_not isJsWhiteSpace l hlen
    simp only [List.get_eq_getElem] at hnot ⊢
    rw [hget]
    exact hnot
  rw [h1, List.rdropWhile_idempotent]

theorem jsTrim_idem (s : String) : jsTrim (jsTrim s) = jsTrim s := by
  simp [jsTrim, trimChars_idem]

theorem firstIndex_eq_none {α : Type} {p : α → Bool} :
    ∀ {l : List α}, firstIndex p l = none ↔ ∀ a ∈ l, p a = false
  | [] => by simp [firstIndex]
  | a :: as => by
    unfold firstIndex
    by_cases h : p a = true
    · simp [h]
    · have h' : p a = false := by simpa using h
      simp only [h', Bool.false_eq_true, if_false, Option.map_eq_none', List.mem_cons,
        forall_eq_or_imp, true_and]
      exact firstIndex_eq_none

theorem firstIndex_append_new {α : Type} {p : α → Bool} {b : α} (hb : p b = true) :
    ∀ {l : List α}, (∀ a ∈ l, p a = false) → firstIndex p (l ++ [b]) = some l.length
  | [], _ => by simp [firstIndex, hb]
  | a :: as, h => by
    have ha : p a = false := h a (List.mem_cons_self _ _)
    have := firstIndex_append_new hb (l := as) (fun x hx => h x (List.mem_cons_of_mem _ hx))
    simp [firstIndex, ha, this]

/-- The index found by the loop holds a member that passes the test, the
first of the list to do so. -/
theorem firstIndex_eq_some {α : Type} {p : α → Bool} :
    ∀ {l : List α} {i : Nat}, firstIndex p l = some i →
      ∃ a, l.get? i = some a ∧ p a = true ∧ l.find? p = some a
  | [], i, h => by simp [firstIndex] at h
  | a :: as, i, h => by
    unfold firstIndex at h
    by_cases hp : p a = true
    · simp only [hp, if_true, Option.some.injEq] at h
      subst h
      exact ⟨a, rfl, hp, by simp [List.find?, hp]⟩
    · have hp' : p a = false := by simpa using hp
      simp only [hp', Bool.false_eq_true, if_false, Option.map_eq_some'] at h
      obtain ⟨j, hj, rfl⟩ := h
      obtain ⟨b, hb1, hb2, hb3⟩ := firstIndex_eq_some hj
      exact ⟨b, by simpa using hb1, hb2, by simp [List.find?, hp', hb3]⟩

/-- The select branch when no option matches: one option is appended, with
the trimmed value as value and that value stripped and collapsed as label, and
it becomes the selected one. -/
theorem populateSelect_unmatched (ops : CaseOps) (elem : Element) (value : String)
    (hno : ∀ o ∈ elem.options, optionMatches ops (jsTrim value) o = false) :
    populateSelect ops elem value
      = { elem with
            options := elem.options ++ [⟨jsTrim value, stripAndCollapse (jsTrim value)⟩],
            selectedIndex := some elem.options.length } := by
  unfold populateSelect
  simp only [firstIndex_eq_none.mpr hno]
  unfold setSelectValue
  have hfresh : ∀ o ∈ elem.options, (fun o : OptionElement => o.value == jsTrim value) o = false := by
    intro o ho
    by_contra hc
    have hv : o.value = jsTrim value := by simpa using hc
    have := hno o ho
    simp only [optionMatches, Bool.or_eq_false_iff, beq_eq_false_iff_ne, ne_eq] at this
    apply this.1
    rw [hv, jsTrim_idem]
  have := firstIndex_append_new (p := fun o : OptionElement => o.value == jsTrim value)
    (b := ⟨jsTrim value, stripAndCollapse (jsTrim value)⟩) (by simp) hfresh
  simp only [this]

/-! ## Lemmas on `namedItem` and `populateForm` -/

theorem matchesKey_shape {e e' : Element} (h : shapeOf e' = shapeOf e) (key : String) :
    matchesKey key e' = matchesKey key e := by
  simp only [shapeOf, Prod.mk.injEq] at h
  simp [matchesKey, h.2.1, h.2.2.1]

theorem matchesFrom_shape (key : String) :
    ∀ (l l' : List Element) (n : Nat), l'.map shapeOf = l.map shapeOf →
      (matchesFrom key n l').map Prod.fst = (matchesFrom key n l).map Prod.fst
  | [], [], _, _ => rfl
  | [], _ :: _, _, h => by simp at h
  | _ :: _, [], _, h => by simp at h
  | e :: es, e' :: es', n, h => by
    simp only [List.map_cons, List.cons.injEq] at h
    have ih := matchesFrom_shape key es es' (n + 1) h.2
    simp only [matchesFrom, matchesKey_shape h.1 key]
    split
    · simp [ih]
    · exact ih

theorem mem_matchesFrom (key : String) :
    ∀ (l : List Element) (n i : Nat) (e : Element), (i, e) ∈ matchesFrom key n l →
      n ≤ i ∧ l.get? (i - n) = some e
  | [], _, _, _, h => by simp [matchesFrom] at h
  | x :: xs, n, i, e, h => by
    unfold matchesFrom at h
    have rec_case : (i, e) ∈ matchesFrom key (n + 1) xs →
        n ≤ i ∧ (x :: xs).get? (i - n) = some e := by
      intro h'
      obtain ⟨h1, h2⟩ := mem_matchesFrom key xs (n + 1) i e h'
      refine ⟨by omega, ?_⟩
      have : i - n = (i - (n + 1)) + 1 := by omega
      rw [this]
      simpa using h2
    split at h
    · rcases List.mem_cons.mp h with h | h
      · simp only [Prod.mk.injEq] at h
        obtain ⟨rfl, rfl⟩ := h
        simp
      · exact rec_case h
    · exact rec_case h

theorem namedItem_index (form : List Element) (key : String) :
    (namedItem form key).index =
      if key = "" then none
      else
        match (matchesFrom key 0 form).map Prod.fst with
        | [] => none
        | [i] => some (some i)
        | _ => some none := by
  unfold namedItem
  split
  · rfl
  · split
    · rename_i h
      simp [h, NamedItem.index]
    · rename_i i el h
      simp [h, NamedItem.index]
    · rename_i ps h1 h2
      match hps : matchesFrom key 0 form with
      | [] => exact absurd hps h1
      | [(i, el)] => exact absurd hps (h2 i el)
      | _ :: _ :: _ => simp [NamedItem.index]

theorem namedItem_shape {l l' : List Element} (h : l'.map shapeOf = l.map shapeOf)
    (key : String) : (namedItem l' key).index = (namedItem l key).index := by
  rw [namedItem_index, namedItem_index, matchesFrom_shape key l l' 0 h]

theorem NamedItem.index_eq_none {x : NamedItem} : x.index = none ↔ x = NamedItem.null := by
  cases x <;> simp [NamedItem.index]

theorem resolveField_shape (ops : CaseOps) {l l' : List Element}
    (h : l'.map shapeOf = l.map shapeOf) (key : String) :
    (resolveField ops l' key).index = (resolveField ops l key).index := by
  have h1 := namedItem_shape h key
  have h2 := namedItem_shape h (ops.toUpperCase key)
  have h3 := namedItem_shape h (ops.toLowerCase key)
  unfold resolveField
  cases ha : namedItem l key <;> cases ha' : namedItem l' key <;>
    simp only [ha, ha', NamedItem.index, reduceCtorEq, Option.some.injEq] at h1 ⊢
  · cases hb : namedItem l (ops.toUpperCase key) <;>
      cases hb' : namedItem l' (ops.toUpperCase key) <;>
      simp only [hb, hb', NamedItem.index, reduceCtorEq, Option.some.injEq] at h2 ⊢
    · exact h3
    · exact h2
  · exact h1

theorem namedItem_node_get {form : List Element} {key : String} {i : Nat} {e : Element}
    (h : namedItem form key = NamedItem.node i e) : form.get? i = some e := by
  unfold namedItem at h
  split at h
  · cases h
  · split at h
    · cases h
    · rename_i j el hm
      cases h
      have : (i, e) ∈ matchesFrom key 0 form := by rw [hm]; exact List.mem_singleton_self _
      simpa using (mem_matchesFrom key form 0 i e this).2
    · cases h

theorem resolveField_node_get {ops : CaseOps} {form : List Element} {key : String} {i : Nat}
    {e : Element} (h : resolveField ops form key = NamedItem.node i e) :
    form.get? i = some e := by
  unfold resolveField at h
  split at h
  · split at h
    · exact namedItem_node_get h
    · rename_i found _ _
      exact namedItem_node_get (by rw [← h])
  · rename_i found _
    exact namedItem_node_get (by rw [← h])

theorem populateSelect_matched (ops : CaseOps) (e : Element) (v : String) {i : Nat}
    (h : firstIndex (optionMatches ops (jsTrim v)) e.options = some i) :
    populateSelect ops e v = { e with selectedIndex := some i } := by
  unfold populateSelect
  simp only [h]

theorem populateSelect_shape (ops : CaseOps) (e : Element) (v : String) :
    shapeOf (populateSelect ops e v) = shapeOf e := by
  cases h : firstIndex (optionMatches ops (jsTrim v)) e.options with
  | some i => rw [populateSelect_matched ops e v h]; rfl
  | none => rw [populateSelect_unmatched ops e v (firstIndex_eq_none.mp h)]; rfl

theorem populateValue_shape (e : Element) (v : String) :
    shapeOf (populateValue e v) = shapeOf e := by
  unfold populateValue
  split
  · rfl
  · rfl
  · rfl
  · split <;> rfl
  · rfl

theorem populated_shape (ops : CaseOps) (e : Element) (v : String) :
    shapeOf (populated ops e v) = shapeOf e := by
  unfold populated
  split
  · exact populateSelect_shape ops e v
  · exact populateValue_shape e v

theorem populateKey_eq (ops : CaseOps) (form : List Element) (entry : String × Option String) :
    populateKey ops form entry =
      match resolveField ops form entry.1 with
      | NamedItem.node i elem => form.set i (populated ops elem (entry.2.getD ""))
      | _ => form := by
  unfold populateKey populated
  cases h : resolveField ops form entry.1 with
  | null => rfl
  | list els => rfl
  | node i elem =>
    simp only []
    split <;> rfl

theorem set_shape {form : List Element} {i : Nat} {e x : Element}
    (hget : form.get? i = some e) (hx : shapeOf x = shapeOf e) :
    (form.set i x).map shapeOf = form.map shapeOf := by
  rw [List.map_set, hx]
  apply List.ext_getElem?
  intro n
  by_cases hn : i = n
  · subst hn
    have hget' : form[i]? = some e := by simpa using hget
    rw [List.getElem?_set_self', List.getElem?_map, hget']
    rfl
  · rw [List.getElem?_set_ne hn]

theorem populateKey_shape (ops : CaseOps) (form : List Element)
    (entry : String × Option String) :
    (populateKey ops form entry).map shapeOf = form.map shapeOf := by
  rw [populateKey_eq]
  split
  · rename_i i elem h
    exact set_shape (resolveField_node_get h) (populated_shape ops elem _)
  · rfl

theorem populateKey_get_ne (ops : CaseOps) (form : List Element)
    (entry : String × Option String) (i : Nat)
    (h : (resolveField ops form entry.1).index ≠ some (some i)) :
    (populateKey ops form entry).get? i = form.get? i := by
  rw [populateKey_eq]
  split
  · rename_i j elem hj
    have hne : j ≠ i := by
      intro e
      apply h
      rw [hj, e]
      rfl
    simp only [List.get?_eq_getElem?]
    exact List.getElem?_set_ne hne
  · rfl

/-- Keys that do not resolve to the control of index `i` leave it as it is. -/
theorem populate_fold_untouched (ops : CaseOps) (form : List Element) (i : Nat) :
    ∀ (qs : Record) (form0 : List Element), form0.map shapeOf = form.map shapeOf →
      (∀ q ∈ qs, (resolveField ops form q.1).index ≠ some (some i)) →
      (qs.foldl (populateKey ops) form0).map shapeOf = form.map shapeOf ∧
      (qs.foldl (populateKey ops) form0).get? i = form0.get? i := by
  intro qs
  induction qs with
  | nil => intro form0 h _; exact ⟨h, rfl⟩
  | cons q qs ih =>
    intro form0 hshape hq
    simp only [List.foldl_cons]
    have hs1 : (populateKey ops form0 q).map shapeOf = form.map shapeOf :=
      (populateKey_shape ops form0 q).trans hshape
    obtain ⟨h1, h2⟩ := ih (populateKey ops form0 q) hs1
      (fun x hx => hq x (List.mem_cons_of_mem _ hx))
    refine ⟨h1, h2.trans ?_⟩
    apply populateKey_get_ne
    rw [resolveField_shape ops hshape]
    exact hq q (List.mem_cons_self _ _)

theorem populate_fold_shape (ops : CaseOps) :
    ∀ (qs : Record) (form0 : List Element),
      (qs.foldl (populateKey ops) form0).map shapeOf = form0.map shapeOf := by
  intro qs
  induction qs with
  | nil => intro form0; rfl
  | cons q qs ih =>
    intro form0
    simp only [List.foldl_cons]
    exact (ih _).trans (populateKey_shape ops form0 q)

theorem distinctNames_of_shape {l l' : List Element} (h : l'.map shapeOf = l.map shapeOf)
    (hd : DistinctNames l) : DistinctNames l' := by
  have key : ∀ m : List Element, (m.filter Element.named).map Element.name
      = ((m.map shapeOf).filter (fun s => s.2.2.1 != "")).map (fun s => s.2.2.1) := by
    intro m
    induction m with
    | nil => rfl
    | cons x xs ih =>
      simp only [List.map_cons, List.filter_cons, Element.named, shapeOf]
      split
      · simp only [List.map_cons, List.cons.injEq, true_and]
        exact ih
      · exact ih
  unfold DistinctNames at hd ⊢
  rw [key, h, ← key]
  exact hd

theorem populated_jsValue (ops : CaseOps) (e : Element) (v : String)
    (hk : e.kind = Kind.text ∨ e.kind = Kind.hidden ∨ e.kind = Kind.select) :
    (populated ops e v).jsValue = populatedValue ops e v ∧ HasOwnEntry (populated ops e v) := by
  unfold populated populatedValue
  rcases hk with hk | hk | hk
  · simp only [hk, reduceCtorEq, if_false]
    exact ⟨by simp [populateValue, hk, Element.jsValue], Or.inl (by simp [populateValue, hk])⟩
  · simp only [hk, reduceCtorEq, if_false]
    exact ⟨by simp [populateValue, hk, Element.jsValue],
      Or.inr (Or.inl (by simp [populateValue, hk]))⟩
  · rw [if_pos hk, if_pos hk]
    cases hfi : firstIndex (optionMatches ops (jsTrim v)) e.options with
    | some i =>
      obtain ⟨o, ho1, _, ho3⟩ := firstIndex_eq_some hfi
      have ho1' : e.options[i]? = some o := by simpa using ho1
      rw [populateSelect_matched ops e v hfi, ho3]
      exact ⟨by simp [Element.jsValue, hk, ho1'], Or.inr (Or.inr ⟨hk, i, o, rfl, ho1⟩)⟩
    | none =>
      have hno := firstIndex_eq_none.mp hfi
      have hfind : e.options.find? (optionMatches ops (jsTrim v)) = none := by
        simpa [List.find?_eq_none] using hno
      rw [populateSelect_unmatched ops e v hno, hfind]
      exact ⟨by simp [Element.jsValue, hk], Or.inr (Or.inr ⟨hk, e.options.length,
        ⟨jsTrim v, stripAndCollapse (jsTrim v)⟩, rfl, by simp⟩)⟩

theorem NamedItem.index_eq_node {x : NamedItem} {i : Nat} (h : x.index = some (some i)) :
    ∃ e, x = NamedItem.node i e := by
  cases x with
  | null => simp [NamedItem.index] at h
  | list els => simp [NamedItem.index] at h
  | node j e =>
    simp only [NamedItem.index, Option.some.injEq] at h
    subst h
    exact ⟨e, rfl⟩

theorem shape_at {l l' : List Element} (h : l'.map shapeOf = l.map shapeOf) {i : Nat}
    {e e' : Element} (he : l.get? i = some e) (he' : l'.get? i = some e') :
    shapeOf e' = shapeOf e := by
  have h1 : (l'.map shapeOf)[i]? = (l.map shapeOf)[i]? := by rw [h]
  have he1 : l[i]? = some e := by simpa using he
  have he2 : l'[i]? = some e' := by simpa using he'
  simpa [List.getElem?_map, he1, he2] using h1

/-- The control a record key leaves behind it at the end of `populateForm`. -/
theorem populate_fold_result (ops : CaseOps) (form : List Element) (pre post : Record)
    (key : String) (v : Option String) (i : Nat) (f : Element)
    (hres : resolveField ops form key = NamedItem.node i f)
    (hpost : ∀ q ∈ post, (resolveField ops form q.1).index ≠ some (some i))
    (hpre : f.kind = Kind.select →
      ∀ q ∈ pre, (resolveField ops form q.1).index ≠ some (some i))
    (hkind : f.kind = Kind.text ∨ f.kind = Kind.hidden ∨ f.kind = Kind.select) :
    ∃ g, g ∈ (pre ++ (key, v) :: post).foldl (populateKey ops) form ∧
      g.name = f.name ∧ g.jsValue = populatedValue ops f (v.getD "") ∧ HasOwnEntry g ∧
      ((pre ++ (key, v) :: post).foldl (populateKey ops) form).map shapeOf
        = form.map shapeOf := by
  rw [List.foldl_append, List.foldl_cons]
  have hs1 := populate_fold_shape ops pre form
  have hidx : (resolveField ops (pre.foldl (populateKey ops) form) key).index
      = some (some i) := by
    rw [resolveField_shape ops hs1, hres]
    rfl
  obtain ⟨f1, hres1⟩ := NamedItem.index_eq_node hidx
  have hget1 := resolveField_node_get hres1
  have hget0 := resolveField_node_get hres
  have hshape1 : shapeOf f1 = shapeOf f := shape_at hs1 hget0 hget1
  have hk1 : f1.kind = f.kind := by
    simp only [shapeOf, Prod.mk.injEq] at hshape1
    exact hshape1.2.2.2
  have hstep : populateKey ops (pre.foldl (populateKey ops) form) (key, v)
      = (pre.foldl (populateKey ops) form).set i (populated ops f1 (v.getD "")) := by
    rw [populateKey_eq]
    simp only [hres1]
  have hs2 : (populateKey ops (pre.foldl (populateKey ops) form) (key, v)).map shapeOf
      = form.map shapeOf := (populateKey_shape ops _ _).trans hs1
  obtain ⟨hs3, hget3⟩ := populate_fold_untouched ops form i post _ hs2 hpost
  have hget2 : (populateKey ops (pre.foldl (populateKey ops) form) (key, v)).get? i
      = some (populated ops f1 (v.getD "")) := by
    rw [hstep]
    have h1 : (pre.foldl (populateKey ops) form)[i]? = some f1 := by simpa using hget1
    simp [List.getElem?_set_self', h1]
  have hkind1 : f1.kind = Kind.text ∨ f1.kind = Kind.hidden ∨ f1.kind = Kind.select := by
    rw [hk1]
    exact hkind
  obtain ⟨hval, hown⟩ := populated_jsValue ops f1 (v.getD "") hkind1
  have hvaleq : populatedValue ops f1 (v.getD "") = populatedValue ops f (v.getD "") := by
    by_cases hsel : f.kind = Kind.select
    · have hun := (populate_fold_untouched ops form i pre form rfl (hpre hsel)).2
      rw [hget1, hget0] at hun
      cases hun
      rfl
    · have hsel1 : ¬ f1.kind = Kind.select := by rw [hk1]; exact hsel
      simp [populatedValue, hsel, hsel1, hk1]
  refine ⟨populated ops f1 (v.getD ""), ?_, ?_, hval.trans hvaleq, hown, hs3⟩
  · exact List.get?_mem (hget3.trans hget2)
  · have := (populated_shape ops f1 (v.getD "")).trans hshape1
    simp only [shapeOf, Prod.mk.injEq] at this
    exact this.2.2.1

/-! ## Lemmas on the query handlers -/

theorem showMessage_eq_error (d : Dom) (text : String) :
    showMessage d text "error" = { d with message := ⟨"block", text, "#f14668", "white"⟩ } := by
  simp [showMessage]

/-- A search with a typed RIF whose answer has status `not_found`. -/
theorem searchClick_not_found (ops : CaseOps) (d : Dom) (data : Response)
    (hstatus : data.status = "not_found") (htyped : jsTrim d.rifSearch ≠ "") :
    searchClick ops d (FetchOutcome.json data)
      = { d with message := ⟨"block", "RIF no encontrado.", "#f14668", "white"⟩,
                 requests := d.requests ++ [Request.get (jsTrim d.rifSearch)] } := by
  have h2 : jsTrim (jsTrim d.rifSearch) ≠ "" := by rw [jsTrim_idem]; exact htyped
  have hs : (data.status == "success") = false := by rw [hstatus]; decide
  unfold searchClick buscarRif
  simp only [htyped, h2, or_self, if_false, hs, hstatus, if_true]
  simp [showMessage]

theorem populateForm_updateControl (ops : CaseOps) (d : Dom) (r : Option Record) :
    (populateForm ops d r).updateControlDisplay = d.updateControlDisplay := by
  unfold populateForm
  split
  · rfl
  · split <;> rfl

theorem buscarRif_none_updateControl (d : Dom) (rif : String) (net : FetchOutcome) :
    (buscarRif d rif net).1.updateControlDisplay = d.updateControlDisplay := by
  unfold buscarRif
  split
  · exact showMessage_updateControl _ _ _
  · cases net with
    | failed m => exact showMessage_updateControl _ _ _
    | json data =>
      simp only []
      split
      · exact showMessage_updateControl _ _ _
      · split <;> exact showMessage_updateControl _ _ _

theorem buscarRif_some {d : Dom} {rif : String} {net : FetchOutcome} {rec : Record}
    (h : (buscarRif d rif net).2 = some rec) :
    (rif ≠ "" ∧ jsTrim rif ≠ "") ∧
    ∃ data, net = FetchOutcome.json data ∧ data.status = "success" ∧ data.record = some rec := by
  unfold buscarRif at h
  split at h
  · cases h
  · rename_i hrif
    refine ⟨by simpa [not_or] using hrif, ?_⟩
    cases net with
    | failed m => cases h
    | json data =>
      simp only [] at h
      split at h
      · rename_i r hs hr
        simp only [Option.some.injEq] at h
        subst h
        exact ⟨data, rfl, by simpa using hs, hr⟩
      · split at h <;> cases h

theorem setMode_updateControl (d : Dom) (mode : String) :
    (setMode d mode).updateControlDisplay = "none" := by
  unfold setMode
  split <;> rfl

theorem modeChange_updateControl (d : Dom) (newMode : String) :
    (modeChange d newMode).updateControlDisplay = "none" := by
  unfold modeChange
  simp only []
  split
  · exact setMode_updateControl _ _
  · exact setMode_updateControl _ _

theorem clearSearchClick_updateControl (d : Dom) :
    (clearSearchClick d).updateControlDisplay = "none" := by
  unfold clearSearchClick
  rw [showMessage_updateControl]

theorem initialise_updateControl (d : Dom) : (initialise d).updateControlDisplay = "none" := by
  have h : ∀ x : Dom,
      (if x.modeSelect = "consultar" then
          { x with form := disableAllFieldsExcept ["RIF"] x.form }
        else x).updateControlDisplay = x.updateControlDisplay := by
    intro x
    split <;> rfl
  unfold initialise
  simp only []
  rw [h]
  exact setMode_updateControl _ _

theorem step_hidden (ops : CaseOps) (d : Dom) (a : Action)
    (hd : d.updateControlDisplay = "none") (ha : a.finds = false) :
    (step ops d a).updateControlDisplay = "none" := by
  cases a with
  | modeChange m => exact modeChange_updateControl d m
  | clearSearch => exact clearSearchClick_updateControl d
  | search typed net =>
    unfold step searchClick
    simp only []
    cases hb : buscarRif { d with rifSearch := typed } (jsTrim typed) net with
    | mk d1 r =>
      have h1 : d1.updateControlDisplay = "none" := by
        have := buscarRif_none_updateControl { d with rifSearch := typed } (jsTrim typed) net
        rw [hb] at this
        exact this.trans hd
      cases r with
      | none => exact h1
      | some rec =>
        exfalso
        have hsome : (buscarRif { d with rifSearch := typed } (jsTrim typed) net).2 = some rec := by
          rw [hb]
        obtain ⟨⟨h2, _⟩, data, rfl, hs, hr⟩ := buscarRif_some hsome
        simp [Action.finds, h2, hs, hr] at ha

theorem run_hidden (ops : CaseOps) :
    ∀ (actions : List Action) (d : Dom), d.updateControlDisplay = "none" →
      (∀ a ∈ actions, a.finds = false) → (run ops d actions).updateControlDisplay = "none" := by
  intro actions
  induction actions with
  | nil => intro d hd _; exact hd
  | cons a as ih =>
    intro d hd hall
    simp only [run, List.foldl_cons]
    exact ih (step ops d a) (step_hidden ops d a hd (hall a (List.mem_cons_self _ _)))
      (fun x hx => hall x (List.mem_cons_of_mem _ hx))

/-- The function `collectEditableFormData` alone keeps an empty value; the
removal of empty values is the step of the update handler that follows it. -/
theorem collectEditableFormData_keeps_empty :
    (collectEditableFormData [textInput 0 "SERVICIO" "" false]).get "SERVICIO"
      = some (Value.str "") := by
  decide

/-! ## Lemmas on the attachment readers -/

theorem splitOnComma_no_comma : ∀ l : List Char, (∀ c ∈ l, c ≠ ',') → splitOnComma l = [l]
  | [], _ => rfl
  | c :: cs, h => by
    have hc : c ≠ ',' := h c (List.mem_cons_self _ _)
    have ih := splitOnComma_no_comma cs (fun x hx => h x (List.mem_cons_of_mem _ hx))
    simp [splitOnComma, hc, ih]

theorem splitOnComma_append : ∀ (a b : List Char), (∀ c ∈ a, c ≠ ',') →
    splitOnComma (a ++ ',' :: b) = a :: splitOnComma b
  | [], b, _ => by simp [splitOnComma]
  | c :: cs, b, h => by
    have hc : c ≠ ',' := h c (List.mem_cons_self _ _)
    have ih := splitOnComma_append cs b (fun x hx => h x (List.mem_cons_of_mem _ hx))
    simp [splitOnComma, hc, ih]

theorem lastMatch_short (pat : List Char) :
    ∀ l : List Char, l.length < pat.length → lastMatch pat l = none
  | [], h => by
    cases pat with
    | nil => simp at h
    | cons p ps => simp [lastMatch, startsWith, List.isPrefixOf]
  | c :: cs, h => by
    have ih := lastMatch_short pat cs (by simp at h; omega)
    have hlt : (c :: cs).length < pat.length := h
    have : startsWith pat (c :: cs) = false := by
      unfold startsWith
      by_contra hc
      have hp : pat <+: c :: cs := List.isPrefixOf_iff_prefix.mp (by simpa using hc)
      have := hp.length_le
      omega
    simp [lastMatch, ih, this]

theorem lastMatch_append_self (pat : List Char) (hpat : pat ≠ []) :
    ∀ l : List Char, lastMatch pat (l ++ pat) = some l.length
  | [] => by
    cases pat with
    | nil => exact absurd rfl hpat
    | cons p ps =>
      have h1 := lastMatch_short (p :: ps) ps (by simp)
      have h2 : startsWith (p :: ps) (p :: ps) = true := by
        unfold startsWith
        exact List.isPrefixOf_iff_prefix.mpr (List.prefix_refl _)
      simp [lastMatch, h1, h2]
  | c :: cs => by
    have ih := lastMatch_append_self pat hpat cs
    simp [lastMatch, ih]

theorem lastMatch_single_none (c : Char) :
    ∀ l : List Char, c ∉ l → lastMatch [c] l = none
  | [], _ => by simp [lastMatch, startsWith, List.isPrefixOf]
  | x :: xs, h => by
    have hx : c ≠ x := fun e => h (e ▸ List.mem_cons_self _ _)
    have ih := lastMatch_single_none c xs (fun hm => h (List.mem_cons_of_mem _ hm))
    simp [lastMatch, ih, startsWith, List.isPrefixOf, hx]

theorem lastMatch_single_last (c : Char) (rest : List Char) (hrest : c ∉ rest) :
    ∀ l : List Char, lastMatch [c] (l ++ c :: rest) = some l.length
  | [] => by
    simp [lastMatch, lastMatch_single_none c rest hrest, startsWith, List.isPrefixOf]
  | x :: xs => by
    have ih := lastMatch_single_last c rest hrest xs
    simp [lastMatch, ih]

theorem takeWhile_dot_all (l : List Char) (h : ∀ c ∈ l, isDotChar c = true) :
    l.takeWhile isDotChar = l :=
  List.takeWhile_eq_self_iff.mpr h

theorem base64_suffix_dot : ∀ c ∈ ";base64".data, isDotChar c = true := by decide

theorem base64_suffix_no_comma : ∀ c ∈ ";base64".data, c ≠ ',' := by decide

theorem data_scheme_no_comma : ∀ c ∈ "data:".data, c ≠ ',' := by decide

theorem matchColonMime_cons_ne (c : Char) (rest : List Char) (h : c ≠ ':') :
    matchColonMime (c :: rest) = matchColonMime rest := by
  rw [matchColonMime.eq_def]
  simp only [if_neg h]

theorem matchColonMime_colon (w : Char) (tail : List Char) (k : Nat)
    (hw : isWordChar w = true)
    (hk : lastMatch [';'] ((tail.takeWhile isDotChar).drop 1) = some k) :
    matchColonMime (':' :: w :: tail) = some (w :: (tail.takeWhile isDotChar).take (k + 1)) := by
  rw [matchColonMime.eq_def]
  simp only [if_true, hw, hk]

theorem matchColonMime_header (w : Char) (tail : List Char) (hw : isWordChar w = true)
    (ht : tail ≠ []) (hdot : ∀ c ∈ tail, isDotChar c = true) :
    matchColonMime ("data:".data ++ (w :: tail) ++ ";base64".data) = some (w :: tail) := by
  obtain ⟨t, ts, rfl⟩ := List.exists_cons_of_ne_nil ht
  have hrun : ((t :: ts) ++ ";base64".data).takeWhile isDotChar = (t :: ts) ++ ";base64".data := by
    apply takeWhile_dot_all
    intro c hc
    rcases List.mem_append.mp hc with h | h
    · exact hdot c h
    · exact base64_suffix_dot c h
  have hlast : lastMatch [';'] (ts ++ ';' :: "base64".data) = some ts.length :=
    lastMatch_single_last ';' "base64".data (by decide) ts
  have hk : lastMatch [';'] ((((t :: ts) ++ ";base64".data).takeWhile isDotChar).drop 1)
      = some ts.length := by
    rw [hrun]
    exact hlast
  have hshape : "data:".data ++ (w :: t :: ts) ++ ";base64".data
      = 'd' :: 'a' :: 't' :: 'a' :: ':' :: w :: ((t :: ts) ++ ";base64".data) := rfl
  rw [hshape, matchColonMime_cons_ne _ _ (by decide), matchColonMime_cons_ne _ _ (by decide),
    matchColonMime_cons_ne _ _ (by decide), matchColonMime_cons_ne _ _ (by decide),
    matchColonMime_colon w _ ts.length hw hk, hrun]
  simp

theorem matchDataMime_header (mime : List Char) (hdot : ∀ c ∈ mime, isDotChar c = true) :
    matchDataMime ("data:".data ++ mime ++ ";base64".data) = some mime := by
  have hrun : (mime ++ ";base64".data).takeWhile isDotChar = mime ++ ";base64".data := by
    apply takeWhile_dot_all
    intro c hc
    rcases List.mem_append.mp hc with h | h
    · exact hdot c h
    · exact base64_suffix_dot c h
  have hlast := lastMatch_append_self ";base64".data (by decide) mime
  have hshape : "data:".data ++ mime ++ ";base64".data
      = 'd' :: ('a' :: 't' :: 'a' :: ':' :: (mime ++ ";base64".data)) := rfl
  have hstart : startsWith "data:".data
      ('d' :: ('a' :: 't' :: 'a' :: ':' :: (mime ++ ";base64".data))) = true := by
    simp [startsWith, List.isPrefixOf]
  rw [hshape, matchDataMime.eq_def]
  simp only [hstart, if_true, List.drop_succ_cons, List.drop_zero, hrun, hlast]
  simp

/-- On a data URL whose media type has at least two characters, begins with
a word character and holds neither a comma nor a line terminator, and whose
payload holds no comma, both readers resolve with the same attachment. -/
theorem attachments_agree (file : File) (w : Char) (tail payload : List Char)
    (hw : isWordChar w = true) (ht : tail ≠ [])
    (hdot : ∀ c ∈ w :: tail, isDotChar c = true)
    (hc : ∀ c ∈ w :: tail, c ≠ ',') (hp : ∀ c ∈ payload, c ≠ ',') :
    uploadFile file
        (ReadOutcome.loaded ⟨"data:".data ++ (w :: tail) ++ ";base64".data ++ ',' :: payload⟩)
      = Settled.resolved ⟨file.name, ⟨w :: tail⟩, some ⟨payload⟩⟩ ∧
    readFileAsBase64 file
        (ReadOutcome.loaded ⟨"data:".data ++ (w :: tail) ++ ";base64".data ++ ',' :: payload⟩)
      = Settled.resolved ⟨file.name, ⟨w :: tail⟩, some ⟨payload⟩⟩ := by
  have hhead : ∀ c ∈ "data:".data ++ (w :: tail) ++ ";base64".data, c ≠ ',' := by
    intro c hcm
    rcases List.mem_append.mp hcm with h | h
    · rcases List.mem_append.mp h with h | h
      · exact data_scheme_no_comma c h
      · exact hc c h
    · exact base64_suffix_no_comma c h
  have hsplit : splitOnComma
      ("data:".data ++ (w :: tail) ++ ";base64".data ++ ',' :: payload)
      = ["data:".data ++ (w :: tail) ++ ";base64".data, payload] := by
    rw [splitOnComma_append _ _ hhead, splitOnComma_no_comma payload hp]
  constructor
  · unfold uploadFile
    simp only [hsplit, List.headD_cons,
      matchColonMime_header w tail hw ht (fun c h => hdot c (List.mem_cons_of_mem _ h))]
    rfl
  · unfold readFileAsBase64
    simp only [hsplit, List.headD_cons, matchDataMime_header (w :: tail) hdot]
    rfl

/-! ## Lemmas on the reachable pages -/

theorem showMessage_eq (d : Dom) (text type : String) :
    ∃ m, showMessage d text type = { d with message := m } := by
  unfold showMessage
  split
  · exact ⟨_, rfl⟩
  · split <;> exact ⟨_, rfl⟩

theorem buscarRif_eq (d : Dom) (rif : String) (net : FetchOutcome) :
    ∃ m reqs, (buscarRif d rif net).1 = { d with message := m, requests := reqs } := by
  have key : ∀ (x : Dom) (text type : String), (∃ m reqs, x = { d with message := m, requests := reqs }) →
      ∃ m reqs, showMessage x text type = { d with message := m, requests := reqs } := by
    intro x text type hx
    obtain ⟨m, reqs, rfl⟩ := hx
    obtain ⟨m', hm'⟩ := showMessage_eq { d with message := m, requests := reqs } text type
    exact ⟨m', reqs, hm'⟩
  have hd : ∃ m reqs, d = { d with message := m, requests := reqs } := ⟨d.message, d.requests, rfl⟩
  unfold buscarRif
  split
  · dsimp only
    exact key d _ _ hd
  · have h2 : ∃ m reqs,
        ({ (showMessage d "Buscando..." "info") with
            requests := (showMessage d "Buscando..." "info").requests ++ [Request.get rif] } : Dom)
          = { d with message := m, requests := reqs } := by
      obtain ⟨m, hm⟩ := showMessage_eq d "Buscando..." "info"
      rw [hm]
      exact ⟨m, _, rfl⟩
    cases net with
    | failed e =>
      dsimp only
      exact key _ _ _ h2
    | json data =>
      dsimp only
      split
      · dsimp only
        exact key _ _ _ h2
      · split
        · dsimp only
          exact key _ _ _ h2
        · dsimp only
          exact key _ _ _ h2

theorem populateForm_eq (ops : CaseOps) (d : Dom) (r : Option Record) :
    populateForm ops d r = { d with form := (populateForm ops d r).form } := by
  unfold populateForm
  split
  · rfl
  · split <;> rfl

theorem populateForm_form_congr (ops : CaseOps) (d d' : Dom) (r : Option Record)
    (hf : d'.form = d.form) (hm : d'.modeSelect = d.modeSelect) :
    (populateForm ops d' r).form = (populateForm ops d r).form := by
  unfold populateForm
  split
  · exact hf
  · simp only [hf, hm]
    split <;> rfl

/-- A search finds a record exactly when a RIF was typed and the answer has
status `success` and a record. -/
theorem buscarRif_finds (d : Dom) (typed : String) (net : FetchOutcome) :
    (∃ rec, (buscarRif d (jsTrim typed) net).2 = some rec)
      ↔ (Action.search typed net).finds = true := by
  constructor
  · rintro ⟨rec, h⟩
    obtain ⟨⟨h1, _⟩, data, rfl, hs, hr⟩ := buscarRif_some h
    simp [Action.finds, h1, hs, hr]
  · intro h
    cases net with
    | failed e => simp [Action.finds] at h
    | json data =>
      have h' : (jsTrim typed ≠ "" ∧ data.status = "success") ∧ ∃ rec, data.record = some rec := by
        simpa [Action.finds, Option.isSome_iff_exists] using h
      obtain ⟨⟨h1, h2⟩, rec, h3⟩ := h'
      have h1' : jsTrim (jsTrim typed) ≠ "" := by rw [jsTrim_idem]; exact h1
      refine ⟨rec, ?_⟩
      unfold buscarRif
      simp [h1, h1', h2, h3]

/-- The page a click on the search button leaves: the message and the requests
change; when a record is found the form is populated, the update control shown
and the submit button hidden. -/
theorem searchClick_cases (ops : CaseOps) (d : Dom) (net : FetchOutcome) :
    ((∀ rec, (buscarRif d (jsTrim d.rifSearch) net).2 ≠ some rec) ∧
      ∃ m reqs, searchClick ops d net = { d with message := m, requests := reqs }) ∨
    (∃ rec, (buscarRif d (jsTrim d.rifSearch) net).2 = some rec ∧
      ∃ m reqs, searchClick ops d net
        = { d with form := (populateForm ops d (some rec)).form, message := m,
                   requests := reqs, updateControlDisplay := "block",
                   submitButtonDisplay := "none" }) := by
  obtain ⟨m, reqs, hb⟩ := buscarRif_eq d (jsTrim d.rifSearch) net
  unfold searchClick
  simp only []
  cases hres : buscarRif d (jsTrim d.rifSearch) net with
  | mk d1 r =>
    rw [hres] at hb
    simp only at hb
    subst hb
    cases r with
    | none =>
      left
      exact ⟨(fun rec h => by cases h), m, reqs, rfl⟩
    | some rec =>
      right
      refine ⟨rec, rfl, m, reqs, ?_⟩
      simp only []
      rw [populateForm_eq ops _ (some rec),
        populateForm_form_congr ops d { d with message := m, requests := reqs } (some rec)
          rfl rfl]

theorem setMode_controls (d : Dom) (mode : String) :
    (setMode d mode).modeSelect = d.modeSelect ∧ (setMode d mode).form = d.form ∧
    (mode = "consultar" → (setMode d mode).rifControlsDisplay = "block") ∧
    (mode ≠ "consultar" →
      (setMode d mode).rifControlsDisplay = "none" ∧
      (setMode d mode).updateControlDisplay = "none" ∧
      (setMode d mode).submitButtonDisplay = "inline-block") := by
  unfold setMode
  by_cases h : mode = "consultar"
  · simp [h]
  · simp [h]

theorem modeChange_modeSelect (d : Dom) (m : String) : (modeChange d m).modeSelect = m := by
  unfold modeChange
  simp only []
  split
  · simp only [(setMode_controls _ _).1]
    split <;> rfl
  · simp only [(setMode_controls _ _).1]
    split <;> rfl

theorem modeChange_controls (d : Dom) (m : String) : ControlsByMode (modeChange d m) := by
  unfold ControlsByMode
  rw [modeChange_modeSelect]
  unfold modeChange
  simp only []
  constructor
  · intro hm
    simp only [hm, if_true]
    exact (setMode_controls _ _).2.2.1 rfl
  · intro hm
    simp only [hm, if_false]
    exact (setMode_controls _ _).2.2.2 hm

theorem initialise_controls (d : Dom) : ControlsByMode (initialise d) := by
  have hmode : ∀ x : Dom,
      (setMode x (if x.modeSelect = "" then "ingresar" else x.modeSelect)).modeSelect
        = x.modeSelect := fun x => (setMode_controls _ _).1
  have hiff : ∀ ms : String,
      (if ms = "" then "ingresar" else ms) = "consultar" ↔ ms = "consultar" := by
    intro ms
    by_cases h : ms = ""
    · subst h
      simp
    · simp [h]
  unfold ControlsByMode initialise
  simp only [hmode]
  constructor
  · intro hm
    have hm' : d.modeSelect = "consultar" := by
      split at hm <;> simpa [(setMode_controls _ _).1] using hm
    simp only [hm', if_true]
    exact (setMode_controls _ _).2.2.1 (by simp)
  · intro hm
    have hm' : d.modeSelect ≠ "consultar" := by
      intro h
      apply hm
      simp [h, (setMode_controls _ _).1]
    simp only [hm', if_false]
    exact (setMode_controls _ _).2.2.2 (fun h => hm' ((hiff _).mp h))

theorem clearSearchClick_eq (d : Dom) :
    ∃ m, clearSearchClick d
      = { d with rifSearch := "", form := formReset d.form, updateControlDisplay := "none",
                 submitButtonDisplay := "inline-block", message := m } := by
  unfold clearSearchClick
  obtain ⟨m, hm⟩ := showMessage_eq
    { d with rifSearch := "", form := formReset d.form, updateControlDisplay := "none",
             submitButtonDisplay := "inline-block" } "Limpio." "info"
  exact ⟨m, hm⟩

theorem step_controls (ops : CaseOps) (d : Dom) (a : Action) (hd : ControlsByMode d)
    (ha : ∀ typed net, a = Action.search typed net → d.modeSelect = "consultar") :
    ControlsByMode (step ops d a) := by
  cases a with
  | modeChange m => exact modeChange_controls d m
  | clearSearch =>
    obtain ⟨m, hm⟩ := clearSearchClick_eq d
    show ControlsByMode (clearSearchClick d)
    rw [hm]
    exact ⟨hd.1, fun h => ⟨(hd.2 h).1, rfl, rfl⟩⟩
  | search typed net =>
    have hq := ha typed net rfl
    show ControlsByMode (searchClick ops { d with rifSearch := typed } net)
    rcases searchClick_cases ops { d with rifSearch := typed } net with
      ⟨_, m, reqs, h⟩ | ⟨rec, _, m, reqs, h⟩
    · rw [h]
      exact ⟨hd.1, fun hne => absurd hq hne⟩
    · rw [h]
      exact ⟨hd.1, fun hne => absurd hq hne⟩

/-- From a page that keeps the rule of `ControlsByMode`, every sequence of
actions whose searches are clicked in `consultar` leads to such a page. -/
theorem run_controls (ops : CaseOps) :
    ∀ (actions : List Action) (d : Dom), ControlsByMode d → SearchesInQuery ops d actions →
      ControlsByMode (run ops d actions) := by
  intro actions
  induction actions with
  | nil => intro d hd _; exact hd
  | cons a as ih =>
    intro d hd hs
    simp only [run, List.foldl_cons]
    exact ih (step ops d a) (step_controls ops d a hd hs.1) hs.2

/-! ## Lemmas on the enabled flags of the reachable pages -/

theorem flags_of_map {allowed : String → Prop} (body : Element → Element)
    (hspec : ∀ e, PolicyApplied allowed e (body e)) (form : List Element) :
    ∀ g ∈ form.map body, g.name ≠ "" → (g.disabled = false ↔ allowed g.name) := by
  intro g hg hn
  obtain ⟨f, _, rfl⟩ := List.mem_map.mp hg
  obtain ⟨h1, _, h3⟩ := hspec f
  have hname : (body f).name = f.name := by rw [h1]
  rw [hname] at hn ⊢
  exact h3 hn

theorem flagsBy_of_flagOf {mode : String} {found : Bool} {form form' : List Element}
    (h : form'.map flagOf = form.map flagOf) (hf : FlagsBy mode found form) :
    FlagsBy mode found form' := by
  intro g hg hn
  have hmem : flagOf g ∈ form.map flagOf := by
    rw [← h]
    exact List.mem_map.mpr ⟨g, hg, rfl⟩
  obtain ⟨f, hfm, hfg⟩ := List.mem_map.mp hmem
  simp only [flagOf, Prod.mk.injEq] at hfg
  rw [← hfg.1, ← hfg.2]
  exact hf f hfm (by rw [hfg.1]; exact hn)

theorem Element.reset_flagOf (e : Element) : flagOf e.reset = flagOf e := by
  unfold Element.reset
  split <;> rfl

theorem formReset_flagOf (form : List Element) :
    (formReset form).map flagOf = form.map flagOf := by
  simp [formReset, Function.comp, Element.reset_flagOf]

theorem set_map_eq {β : Type} (proj : Element → β) {form : List Element} {i : Nat}
    {e x : Element} (hget : form.get? i = some e) (hx : proj x = proj e) :
    (form.set i x).map proj = form.map proj := by
  rw [List.map_set, hx]
  apply List.ext_getElem?
  intro n
  by_cases hn : i = n
  · subst hn
    have hget' : form[i]? = some e := by simpa using hget
    rw [List.getElem?_set_self', List.getElem?_map, hget']
    rfl
  · rw [List.getElem?_set_ne hn]

theorem populated_flagOf (ops : CaseOps) (e : Element) (v : String) :
    flagOf (populated ops e v) = flagOf e := by
  unfold populated
  split
  · cases h : firstIndex (optionMatches ops (jsTrim v)) e.options with
    | some i => rw [populateSelect_matched ops e v h]; rfl
    | none => rw [populateSelect_unmatched ops e v (firstIndex_eq_none.mp h)]; rfl
  · unfold populateValue
    split
    · rfl
    · rfl
    · rfl
    · split <;> rfl
    · rfl

theorem populateKey_flagOf (ops : CaseOps) (form : List Element)
    (entry : String × Option String) :
    (populateKey ops form entry).map flagOf = form.map flagOf := by
  rw [populateKey_eq]
  split
  · rename_i i elem h
    exact set_map_eq flagOf (resolveField_node_get h) (populated_flagOf ops elem _)
  · rfl

theorem populate_fold_flagOf (ops : CaseOps) :
    ∀ (qs : Record) (form : List Element),
      (qs.foldl (populateKey ops) form).map flagOf = form.map flagOf := by
  intro qs
  induction qs with
  | nil => intro form; rfl
  | cons q qs ih =>
    intro form
    simp only [List.foldl_cons]
    exact (ih _).trans (populateKey_flagOf ops form q)

theorem enabledBy_insert {mode : String} (h : mode ≠ "consultar") (found : Bool)
    (name : String) : enabledBy mode found name ↔ name ∈ INSERT_EDITABLE_FIELDS := by
  simp [enabledBy, h]

theorem flagsBy_insert (form : List Element) :
    FlagsBy "ingresar" false (applyInsertFieldRestrictions (some "ingresar") form) := by
  have : applyInsertFieldRestrictions (some "ingresar") form
      = form.map insertRestrictionBody := by
    simp [applyInsertFieldRestrictions, forEachElement_eq_map]
  rw [this]
  intro g hg hn
  rw [enabledBy_insert (by decide)]
  exact flags_of_map insertRestrictionBody insertRestrictionBody_spec form g hg hn

theorem flagsBy_rif_only (form : List Element) :
    FlagsBy "consultar" false (disableAllFieldsExcept ["RIF"] form) := by
  unfold disableAllFieldsExcept
  rw [forEachElement_eq_map]
  intro g hg hn
  have := flags_of_map (exceptBody ["RIF"]) (exceptBody_spec ["RIF"]) form g hg hn
  simpa [enabledBy] using this

theorem flagsBy_editable (form : List Element) :
    FlagsBy "consultar" true (enableOnlyEditableFields form) := by
  unfold enableOnlyEditableFields enableOnlyEditableFieldsWith
  rw [forEachElement_eq_map]
  intro g hg hn
  have := flags_of_map (editableBody EDITABLE_FIELDS) (editableBody_spec EDITABLE_FIELDS)
    form g hg hn
  rw [this]
  simp only [enabledBy, if_true]
  constructor
  · exact fun h => h.1
  · intro h
    refine ⟨h, ?_⟩
    intro hr
    rw [hr] at h
    revert h
    decide

theorem modeChange_form_ingresar (d : Dom) :
    (modeChange d "ingresar").form
      = formReset (applyInsertFieldRestrictions (some "ingresar") d.form) := by
  simp [modeChange, setMode]

theorem modeChange_form_consultar (d : Dom) :
    (modeChange d "consultar").form = disableAllFieldsExcept ["RIF"] (formReset d.form) := by
  simp [modeChange, setMode]

theorem initialise_flags (d : Dom)
    (hmode : d.modeSelect = "ingresar" ∨ d.modeSelect = "consultar") :
    FlagsInvariant (initialise d) false := by
  rcases hmode with h | h
  · have hform : (initialise d).form = applyInsertFieldRestrictions (some "ingresar") d.form := by
      simp [initialise, setMode, h]
    have hm : (initialise d).modeSelect = "ingresar" := by
      simp [initialise, setMode, h]
    refine ⟨Or.inl hm, ?_⟩
    rw [hm, hform]
    exact flagsBy_insert d.form
  · have hform : (initialise d).form = disableAllFieldsExcept ["RIF"] d.form := by
      simp [initialise, setMode, h, applyInsertFieldRestrictions]
    have hm : (initialise d).modeSelect = "consultar" := by
      simp [initialise, setMode, h]
    refine ⟨Or.inr hm, ?_⟩
    rw [hm, hform]
    exact flagsBy_rif_only d.form

theorem flagsBy_found_irrelevant {mode : String} (h : mode ≠ "consultar") {found found' : Bool}
    {form : List Element} (hf : FlagsBy mode found form) : FlagsBy mode found' form := by
  intro e he hn
  rw [enabledBy_insert h]
  exact (hf e he hn).trans (enabledBy_insert h found e.name)

theorem step_flags (ops : CaseOps) (d : Dom) (found : Bool) (a : Action)
    (hd : FlagsInvariant d found)
    (ha : ∀ m, a = Action.modeChange m → m = "ingresar" ∨ m = "consultar") :
    FlagsInvariant (step ops d a) (foundFrom found [a]) := by
  obtain ⟨hmode, hflags⟩ := hd
  cases a with
  | modeChange m =>
    show FlagsInvariant (modeChange d m) false
    unfold FlagsInvariant
    rw [modeChange_modeSelect]
    refine ⟨ha m rfl, ?_⟩
    rcases ha m rfl with h | h
    · subst h
      rw [modeChange_form_ingresar]
      exact flagsBy_of_flagOf (formReset_flagOf _) (flagsBy_insert d.form)
    · subst h
      rw [modeChange_form_consultar]
      exact flagsBy_rif_only _
  | clearSearch =>
    show FlagsInvariant (clearSearchClick d) (found || false)
    obtain ⟨m, hm⟩ := clearSearchClick_eq d
    rw [hm, Bool.or_false]
    exact ⟨hmode, flagsBy_of_flagOf (formReset_flagOf d.form) hflags⟩
  | search typed net =>
    show FlagsInvariant (searchClick ops { d with rifSearch := typed } net)
      (found || (Action.search typed net).finds)
    rcases searchClick_cases ops { d with rifSearch := typed } net with
      ⟨hnone, m, reqs, h⟩ | ⟨rec, hsome, m, reqs, h⟩
    · have hfinds : (Action.search typed net).finds = false := by
        by_contra hc
        have hc' : (Action.search typed net).finds = true := by simpa using hc
        obtain ⟨rec, hrec⟩ := (buscarRif_finds { d with rifSearch := typed } typed net).mpr hc'
        exact hnone rec hrec
      rw [h, hfinds, Bool.or_false]
      exact ⟨hmode, hflags⟩
    · have hfinds : (Action.search typed net).finds = true :=
        (buscarRif_finds { d with rifSearch := typed } typed net).mp ⟨rec, hsome⟩
      rw [h, hfinds, Bool.or_true]
      refine ⟨hmode, ?_⟩
      show FlagsBy d.modeSelect true
        (populateForm ops { d with rifSearch := typed } (some rec)).form
      rcases hmode with hm | hm
      · have hform : (populateForm ops { d with rifSearch := typed } (some rec)).form
            = rec.foldl (populateKey ops) d.form := by
          simp [populateForm, hm]
        rw [hform]
        have hne : d.modeSelect ≠ "consultar" := by rw [hm]; decide
        exact flagsBy_of_flagOf (populate_fold_flagOf ops rec d.form)
          (flagsBy_found_irrelevant hne hflags)
      · have hform : (populateForm ops { d with rifSearch := typed } (some rec)).form
            = enableOnlyEditableFields (rec.foldl (populateKey ops) d.form) := by
          simp [populateForm, hm]
        rw [hform, hm]
        exact flagsBy_editable _

theorem foundFrom_cons (found : Bool) (a : Action) (as : List Action) :
    foundFrom found (a :: as) = foundFrom (foundFrom found [a]) as := by
  simp [foundFrom]

/-- The enabled flags follow `enabledBy` along every sequence of actions whose
mode changes pick `ingresar` or `consultar`. -/
theorem run_flags (ops : CaseOps) :
    ∀ (actions : List Action) (d : Dom) (found : Bool), FlagsInvariant d found →
      (∀ m, Action.modeChange m ∈ actions → m = "ingresar" ∨ m = "consultar") →
      FlagsInvariant (run ops d actions) (foundFrom found actions) := by
  intro actions
  induction actions with
  | nil => intro d found hd _; exact hd
  | cons a as ih =>
    intro d found hd hm
    rw [foundFrom_cons]
    simp only [run, List.foldl_cons]
    apply ih (step ops d a) (foundFrom found [a])
    · apply step_flags ops d found a hd
      intro m hma
      exact hm m (by rw [hma]; exact List.mem_cons_self _ _)
    · intro m hmem
      exact hm m (List.mem_cons_of_mem _ hmem)

/-- What holds of the visibility rule in every page reached by actions whose
searches are clicked in `consultar`: the query controls are shown exactly in
`consultar`, and in any other mode the update control is hidden and the submit
button shown. -/
theorem reached_controls (ops : CaseOps) (d : Dom) (actions : List Action)
    (hs : SearchesInQuery ops (initialise d) actions) :
    ControlsByMode (reached ops d actions) :=
  run_controls ops actions (initialise d) (initialise_controls d) hs

/-- The enabled flags of every page reached by actions whose mode changes pick
`ingresar` or `consultar`. -/
theorem reached_flags (ops : CaseOps) (d : Dom) (actions : List Action)
    (hmode : d.modeSelect = "ingresar" ∨ d.modeSelect = "consultar")
    (hmodes : ∀ m, Action.modeChange m ∈ actions → m = "ingresar" ∨ m = "consultar") :
    FlagsInvariant (reached ops d actions) (foundSince actions) :=
  run_flags ops actions (initialise d) false (initialise_flags d hmode) hmodes

/-! ## Lemmas on the update control of the reachable pages -/

/-- The update control after a click on the search button: shown when the
search finds a record, as it was otherwise. -/
theorem step_search_updateControl (ops : CaseOps) (d : Dom) (typed : String)
    (net : FetchOutcome) :
    (step ops d (Action.search typed net)).updateControlDisplay
      = if (Action.search typed net).finds = true then "block" else d.updateControlDisplay := by
  show (searchClick ops { d with rifSearch := typed } net).updateControlDisplay = _
  rcases searchClick_cases ops { d with rifSearch := typed } net with
    ⟨hno, m, reqs, h⟩ | ⟨rec, hrec, m, reqs, h⟩
  · have hf : (Action.search typed net).finds = false := by
      cases hfi : (Action.search typed net).finds
      · rfl
      · obtain ⟨rec, hr⟩ := (buscarRif_finds { d with rifSearch := typed } typed net).mpr hfi
        exact absurd hr (hno rec)
    rw [h, hf]
    rfl
  · have hf := (buscarRif_finds { d with rifSearch := typed } typed net).mp ⟨rec, hrec⟩
    rw [h, hf]
    rfl

theorem run_append (ops : CaseOps) (d : Dom) (pre post : List Action) :
    run ops d (pre ++ post) = run ops (run ops d pre) post := by
  simp [run, List.foldl_append]

theorem run_cons (ops : CaseOps) (d : Dom) (a : Action) (post : List Action) :
    run ops d (a :: post) = run ops (step ops d a) post := rfl

theorem run_visible (ops : CaseOps) :
    ∀ (actions : List Action) (d : Dom), d.updateControlDisplay = "block" →
      (∀ b ∈ actions, ∃ typed net, b = Action.search typed net) →
      (run ops d actions).updateControlDisplay = "block" := by
  intro actions
  induction actions with
  | nil => intro d hd _; exact hd
  | cons a as ih =>
    intro d hd hall
    rw [run_cons]
    apply ih
    · obtain ⟨typed, net, rfl⟩ := hall a (List.mem_cons_self _ _)
      rw [step_search_updateControl]
      split
      · rfl
      · exact hd
    · exact fun x hx => hall x (List.mem_cons_of_mem _ hx)

/-- The update control after a sequence of actions: hidden when the last mode
change or clear has no finding search after it, shown when the last finding
search has only searches after it. -/
theorem run_updateControl (ops : CaseOps) (d : Dom) (pre post : List Action) (a : Action) :
    ((a = Action.clearSearch ∨ ∃ m, a = Action.modeChange m) →
      (∀ b ∈ post, b.finds = false) →
      (run ops d (pre ++ a :: post)).updateControlDisplay = "none") ∧
    (a.finds = true → (∀ b ∈ post, ∃ typed net, b = Action.search typed net) →
      (run ops d (pre ++ a :: post)).updateControlDisplay = "block") := by
  rw [run_append, run_cons]
  constructor
  · intro ha hpost
    apply run_hidden ops post _ _ hpost
    rcases ha with rfl | ⟨m, rfl⟩
    · exact clearSearchClick_updateControl _
    · exact modeChange_updateControl _ m
  · intro ha hpost
    apply run_visible ops post _ _ hpost
    cases a with
    | modeChange m => simp [Action.finds] at ha
    | clearSearch => simp [Action.finds] at ha
    | search typed net =>
      rw [step_search_updateControl, if_pos ha]

/-! ## Lemmas on the outcomes of the submit handler -/

theorem fileInputFiles_eq (d : Dom) :
    d.fileInputFiles
      = ((d.form.find? (fun el => el.idAttr == "fileInput")).map Element.files).getD
          d.detachedFiles := by
  unfold Dom.fileInputFiles
  cases d.form.find? (fun el => el.idAttr == "fileInput") <;> rfl

theorem insertRestrictionBody_idAttr (e : Element) :
    (insertRestrictionBody e).idAttr = e.idAttr := by
  unfold insertRestrictionBody
  split
  · rfl
  · split <;> rfl

theorem insertRestrictionBody_files (e : Element) :
    (insertRestrictionBody e).files = e.files := by
  unfold insertRestrictionBody
  split
  · rfl
  · split <;> rfl

theorem find_fileInput_map_body : ∀ form : List Element,
    ((form.map insertRestrictionBody).find? (fun el => el.idAttr == "fileInput")).map
        Element.files
      = (form.find? (fun el => el.idAttr == "fileInput")).map Element.files
  | [] => rfl
  | e :: rest => by
    simp only [List.map_cons, List.find?_cons, insertRestrictionBody_idAttr]
    cases h : (e.idAttr == "fileInput")
    · simpa using find_fileInput_map_body rest
    · simp [insertRestrictionBody_files]

theorem find_fileInput_insertForm (mode : String) (form : List Element) :
    ((insertForm mode form).find? (fun el => el.idAttr == "fileInput")).map Element.files
      = (form.find? (fun el => el.idAttr == "fileInput")).map Element.files := by
  by_cases hm : mode = "ingresar"
  · rw [hm, insertForm_ingresar]
    exact find_fileInput_map_body form
  · simp [insertForm, hm]

theorem find_fileInput_carriers (mode : String) (form : List Element) (u : Nat) :
    (carriers mode form u).find? (fun el => el.idAttr == "fileInput") = none := by
  apply List.find?_eq_none.mpr
  intro m hm
  unfold carriers at hm
  split at hm
  · obtain ⟨e, _, _, _, uid, rfl⟩ := mem_mirrorList _ _ m hm
    simp [hiddenInput]
  · simp at hm

/-- The file input the submit handler looks at holds the same files with the
mirrors attached as before. -/
theorem fileInputFiles_with_mirrors {d d2 : Dom}
    (hform : d2.form
      = insertForm d.modeSelect d.form ++ carriers d.modeSelect d.form d.nextUid)
    (hdet : d2.detachedFiles = d.detachedFiles) : d2.fileInputFiles = d.fileInputFiles := by
  rw [fileInputFiles_eq, fileInputFiles_eq, hform, hdet, List.find?_append,
    find_fileInput_carriers, Option.or_none, find_fileInput_insertForm]

theorem fileInputFiles_submitting (d : Dom) (msg : Message) (b1 b2 : Bool) (n : Nat) :
    Dom.fileInputFiles
        { d with
            message := msg, submitButtonDisabled := b1, submitButtonLoading := b2,
            form := insertForm d.modeSelect d.form ++ carriers d.modeSelect d.form d.nextUid,
            nextUid := n }
      = d.fileInputFiles :=
  fileInputFiles_with_mirrors rfl rfl

/-- The ways the submit handler ends, by the files of the file input and the
state of the promise of `uploadFile`. -/
theorem submitHandler_outcomes (d : Dom) (read : ReadOutcome) (net : FetchOutcome) :
    (d.fileInputFiles = [] → ∃ d', submitHandler d read net = some (HandlerResult.returned d')) ∧
    (∀ file rest, d.fileInputFiles = file :: rest →
      (∀ a, uploadFile file read = Settled.resolved a →
        ∃ d', submitHandler d read net = some (HandlerResult.returned d')) ∧
      (uploadFile file read = Settled.rejected →
        ∃ d', submitHandler d read net = some (HandlerResult.returned d')) ∧
      (uploadFile file read = Settled.pending →
        ∃ d', submitHandler d read net = some (HandlerResult.suspended d'))) := by
  unfold submitHandler
  rw [collectAll_eq]
  simp only
  rw [fileInputFiles_submitting]
  constructor
  · intro h
    rw [h]
    exact ⟨_, rfl⟩
  · intro file rest h
    rw [h]
    refine ⟨?_, ?_, ?_⟩
    · intro a ha
      simp only [ha]
      exact ⟨_, rfl⟩
    · intro ha
      simp only [ha]
      exact ⟨_, rfl⟩
    · intro ha
      simp only [ha]
      exact ⟨_, rfl⟩

/-! ## Claims -/

/-- C1: for every form, the insert policy (`applyInsertFieldRestrictions` with
the selector at `ingresar`) leaves each named control enabled exactly when its
name is in `INSERT_EDITABLE_FIELDS`, and the query policy
(`enableOnlyEditableFields`) leaves each named control enabled exactly when its
name is in `EDITABLE_FIELDS` and is not `RIF`; over any allow-list the query
loop leaves `RIF` disabled.  Nothing but the `disabled` flag of named controls
changes, control by control. -/
theorem enablement_policy_exact (form : List Element) :
    List.Forall₂ (PolicyApplied (fun n => n ∈ INSERT_EDITABLE_FIELDS)) form
      (applyInsertFieldRestrictions (some "ingresar") form) ∧
    List.Forall₂ (PolicyApplied (fun n => n ∈ EDITABLE_FIELDS)) form
      (enableOnlyEditableFields form) ∧
    ∀ allow : List String,
      List.Forall₂ (PolicyApplied (fun n => n ∈ allow ∧ n ≠ "RIF")) form
        (enableOnlyEditableFieldsWith allow form) := by
  refine ⟨?_, ?_, ?_⟩
  · have : applyInsertFieldRestrictions (some "ingresar") form
        = form.map insertRestrictionBody := by
      simp [applyInsertFieldRestrictions, forEachElement_eq_map]
    rw [this]
    exact forall₂_map_right_of _ insertRestrictionBody_spec form
  · unfold enableOnlyEditableFields enableOnlyEditableFieldsWith
    rw [forEachElement_eq_map]
    apply forall₂_map_right_of
    intro e
    have h := editableBody_spec EDITABLE_FIELDS e
    refine ⟨h.1, h.2.1, fun hn => (h.2.2 hn).trans ⟨fun hh => hh.1, fun hh => ⟨hh, ?_⟩⟩⟩
    intro hr
    rw [hr] at hh
    revert hh
    decide
  · intro allow
    unfold enableOnlyEditableFieldsWith
    rw [forEachElement_eq_map]
    exact forall₂_map_right_of _ (editableBody_spec allow) form

/-- C2: for every page, every outcome of the file read and every answer of
the service, the mapping `updates` the update handler builds (the editable
subset, then the attachment, then the removal of empty keys) has no key `RIF`;
and any update request the handler adds to the requests made carries a mapping
without the key `RIF`. -/
theorem update_payload_never_has_rif (d : Dom) (read : ReadOutcome) (net : FetchOutcome) :
    (∀ updates, buildUpdates d read = some updates → "RIF" ∉ updates.keys) ∧
    (∀ rif updates, Request.postUpdate rif updates ∈ (updateClick d read net).requests →
      Request.postUpdate rif updates ∉ d.requests → "RIF" ∉ updates.keys) := by
  have key : ∀ updates, buildUpdates d read = some updates → "RIF" ∉ updates.keys := by
    intro updates h hmem
    rcases buildUpdates_keys h "RIF" hmem with h1 | h1
    · exact absurd h1 (by decide)
    · exact h1.1 rfl
  refine ⟨key, ?_⟩
  intro rif updates hsent hnew
  rcases updateClick_requests d read net with h | ⟨rif', updates', hb, _, _, h⟩
  · rw [h] at hsent
    exact absurd hsent hnew
  · rw [h] at hsent
    rcases List.mem_append.mp hsent with h1 | h1
    · exact absurd h1 hnew
    · simp only [List.mem_singleton, Request.postUpdate.injEq] at h1
      rw [h1.2]
      exact key updates' hb

/-- Witness of C2: a form whose enabled `RIF` field holds `J-1` and whose
`SERVICIO` field holds `x` gives the mapping `{SERVICIO: "x"}`. -/
theorem update_payload_never_has_rif_witness :
    buildUpdates
        (pageOf [textInput 0 "RIF" "J-1" false, textInput 1 "SERVICIO" "x" false] 2 "consultar")
        ReadOutcome.error
      = some [("SERVICIO", Value.str "x")] ∧
    "RIF" ∉ JsObject.keys [("SERVICIO", Value.str "x")] :=
  ⟨by decide,
   (update_payload_never_has_rif
      (pageOf [textInput 0 "RIF" "J-1" false, textInput 1 "SERVICIO" "x" false] 2 "consultar")
      ReadOutcome.error (FetchOutcome.failed "")).1 _ (by decide)⟩

/-- C3: the mapping of the editable subset that the update action collects,
`collectEditableFormData` followed by the removal of empty keys in the update
handler, has no key whose value is the empty string: for every page and every
outcome of the file read, the mapping `updates` at the call of
`actualizarRegistro` has no such key, and neither has any update request the
handler adds to the requests made. -/
theorem update_payload_has_no_empty_value (d : Dom) (read : ReadOutcome) (net : FetchOutcome)
    (key : String) :
    (∀ updates, buildUpdates d read = some updates → updates.get key ≠ some (Value.str "")) ∧
    (∀ rif updates, Request.postUpdate rif updates ∈ (updateClick d read net).requests →
      Request.postUpdate rif updates ∉ d.requests → updates.get key ≠ some (Value.str "")) := by
  have main : ∀ updates, buildUpdates d read = some updates →
      updates.get key ≠ some (Value.str "") := by
    intro updates h
    unfold buildUpdates at h
    split at h
    · cases h
      exact deleteEmptyKeys_no_empty _ key
    · split at h
      · cases h
        exact deleteEmptyKeys_no_empty _ key
      · cases h
  refine ⟨main, ?_⟩
  intro rif updates hsent hnew
  rcases updateClick_requests d read net with h | ⟨rif', updates', hb, _, _, h⟩
  · rw [h] at hsent
    exact absurd hsent hnew
  · rw [h] at hsent
    rcases List.mem_append.mp hsent with h1 | h1
    · exact absurd h1 hnew
    · simp only [List.mem_singleton, Request.postUpdate.injEq] at h1
      rw [h1.2]
      exact main updates' hb

/-- Witness of C3: a query page after a search, with `RIF` holding `J-1`,
`SERVICIO` left empty and `SRM` holding `x`: the mapping at the call is
`{SRM: "x"}`, and it is what the update request carries. -/
theorem update_payload_has_no_empty_value_witness :
    buildUpdates
        (pageOf [textInput 0 "RIF" "J-1" true, textInput 1 "SERVICIO" "" false,
                 textInput 2 "SRM" "x" false] 3 "consultar")
        ReadOutcome.error
      = some [("SRM", Value.str "x")] ∧
    (updateClick
        (pageOf [textInput 0 "RIF" "J-1" true, textInput 1 "SERVICIO" "" false,
                 textInput 2 "SRM" "x" false] 3 "consultar")
        ReadOutcome.error (FetchOutcome.failed "")).requests
      = [Request.postUpdate "J-1" [("SRM", Value.str "x")]] ∧
    JsObject.get [("SRM", Value.str "x")] "SERVICIO" ≠ some (Value.str "") :=
  ⟨by decide, by decide,
   (update_payload_has_no_empty_value
      (pageOf [textInput 0 "RIF" "J-1" true, textInput 1 "SERVICIO" "" false,
               textInput 2 "SRM" "x" false] 3 "consultar")
      ReadOutcome.error (FetchOutcome.failed "") "SERVICIO").2 "J-1" _ (by decide) (by decide)⟩

/-- C4: for every page whose node identities are fresh, every outcome of the
file read and every answer of the service, the submit handler ends within the
budget of its mirror loop.  Once it has returned, the form holds the nodes it
held before the handler ran, in the same order, and none of the mirrors that
`createHiddenMirrorsForDisabledFields` created.  The handler returns when no
file is selected (whatever the service answers: success, another status, or a
network failure), when the read of the selected file fails, and when
`uploadFile` resolves.  It stays suspended, with its mirrors attached, only
for a selected file whose data URL makes `uploadFile` throw inside `onload`. -/
theorem submit_handler_restores_form (d : Dom) (read : ReadOutcome) (net : FetchOutcome)
    (hfresh : FreshUids d) :
    (∃ r, submitHandler d read net = some r) ∧
    (∀ d', submitHandler d read net = some (HandlerResult.returned d') →
      d'.form.map Element.uid = d.form.map Element.uid ∧
      ∀ st obj, collectAll d.modeSelect d.form d.nextUid = some (st, obj) →
        ∀ m ∈ st.created, ∀ e ∈ d'.form, e.uid ≠ m.uid) ∧
    (d.fileInputFiles = [] →
      ∃ d', submitHandler d read net = some (HandlerResult.returned d')) ∧
    (read = ReadOutcome.error →
      ∃ d', submitHandler d read net = some (HandlerResult.returned d')) ∧
    (∀ file rest a, d.fileInputFiles = file :: rest →
      uploadFile file read = Settled.resolved a →
      ∃ d', submitHandler d read net = some (HandlerResult.returned d')) ∧
    (∀ file rest, d.fileInputFiles = file :: rest →
      uploadFile file read = Settled.pending →
      ∃ d', submitHandler d read net = some (HandlerResult.suspended d')) := by
  obtain ⟨r, hr, hform, _⟩ := submitHandler_cases d read net hfresh
  obtain ⟨hnone, hsome⟩ := submitHandler_outcomes d read net
  refine ⟨⟨r, hr⟩, ?_, hnone, ?_, ?_, ?_⟩
  · intro d' hd'
    rw [hr] at hd'
    have huid : d'.form.map Element.uid = d.form.map Element.uid := by
      rcases hform d' (Option.some.inj hd') with h | h
      · rw [h, insertForm_uids]
      · rw [h, formReset_uids, insertForm_uids]
    refine ⟨huid, ?_⟩
    intro st obj hc m hm e he heq
    rw [collectAll_eq] at hc
    have hst := (Prod.mk.inj (Option.some.inj hc)).1
    rw [← hst] at hm
    have hge := carriers_uid_ge _ _ _ m hm
    have hmem : e.uid ∈ d.form.map Element.uid := by
      rw [← huid]
      exact List.mem_map.mpr ⟨e, he, rfl⟩
    obtain ⟨e', he', heq'⟩ := List.mem_map.mp hmem
    have hlt := hfresh e' he'
    omega
  · intro hread
    cases hf : d.fileInputFiles with
    | nil => exact hnone hf
    | cons file rest =>
      refine (hsome file rest hf).2.1 ?_
      rw [hread]
      rfl
  · intro file rest a hf ha
    exact (hsome file rest hf).1 a ha
  · intro file rest hf ha
    exact (hsome file rest hf).2.2 ha

/-- Witness of C4: a form with an enabled `FECHA`, a field `STATUS` outside
the insert allow-list and the file `a.pdf` selected, submitted in `ingresar`
when the read of the file fails: one mirror, for `STATUS`, is created, the
handler returns and the form holds its three nodes again. -/
theorem submit_handler_restores_form_witness :
    FreshUids submitPageWithFile ∧
    submitPageWithFile.fileInputFiles = [⟨"a.pdf", "application/pdf"⟩] ∧
    (collectAll "ingresar" submitPageWithFile.form 3).map
        (fun p => p.1.created.map Element.name) = some ["STATUS"] ∧
    ∃ d', submitHandler submitPageWithFile ReadOutcome.error
          (FetchOutcome.json ⟨"success", none, none⟩) = some (HandlerResult.returned d') ∧
      d'.form.map Element.uid = [0, 1, 2] := by
  have hfresh : FreshUids submitPageWithFile := by unfold FreshUids; decide
  have h := submit_handler_restores_form submitPageWithFile ReadOutcome.error
    (FetchOutcome.json ⟨"success", none, none⟩) hfresh
  obtain ⟨d', hd'⟩ := h.2.2.2.1 rfl
  exact ⟨hfresh, by decide, by decide, d', hd', (h.2.1 d' hd').1⟩

/-- C5, as stated, fails: in a form with distinct names whose file input
`theFile` (in the insert allow-list) holds `a.pdf`, the value of the field is
the string `C:\fakepath\a.pdf`, and the payload maps `theFile` to the `File`
entry of the `FormData`, not to that value. -/
theorem insert_payload_file_field_not_value :
    DistinctNames formWithFile ∧
    (fileInputControl 1 [⟨"a.pdf", "application/pdf"⟩]).jsValue = "C:\\fakepath\\a.pdf" ∧
    (collectAll "ingresar" formWithFile 2).map Prod.snd
      = some [("FECHA", Value.str "2024-05-01"),
              ("theFile", Value.file ⟨"a.pdf", "application/pdf"⟩)] := by
  refine ⟨?_, ?_, ?_⟩
  · unfold DistinctNames
    decide
  · decide
  · decide

/-- C5, amended: in insert mode, for every form whose named fields have
distinct names, the payload the submit handler collects maps the name of
every named field outside the insert allow-list to the current value of the
field, brought by exactly one same-named mirror (names `__proto__` and
`_charset_` apart).  For a named field in the insert allow-list it maps the
name to the field's own value when the field is a text input, a hidden input
or a select with a selected option; to the `File` the field holds when it is a
file input (the last one when it holds several), and to an empty `File` of
type `application/octet-stream` when it holds none; and it has no key of that
name when the field is a button or a select without a selected option. -/
theorem insert_payload_carries_fields (form : List Element) (u : Nat)
    (hdist : DistinctNames form) :
    ∃ st obj, collectAll "ingresar" form u = some (st, obj) ∧
      ∀ f ∈ form, f.name ≠ "" →
        (f.name ∉ INSERT_EDITABLE_FIELDS → f.name ≠ "__proto__" →
          asciiLower f.name ≠ "_charset_" →
          obj.get f.name = some (Value.str f.jsValue) ∧
          (st.created.map Element.name).count f.name = 1) ∧
        (f.name ∈ INSERT_EDITABLE_FIELDS →
          (HasOwnEntry f → obj.get f.name = some (Value.str f.jsValue)) ∧
          (f.kind = Kind.file → ∀ file, f.files.getLast? = some file →
            obj.get f.name = some (Value.file file)) ∧
          (f.kind = Kind.file → f.files = [] →
            obj.get f.name = some (Value.file ⟨"", "application/octet-stream"⟩)) ∧
          (f.kind = Kind.button → obj.get f.name = none) ∧
          (f.kind = Kind.select →
            (∀ i o, f.selectedIndex = some i → f.options.get? i ≠ some o) →
            obj.get f.name = none)) := by
  refine ⟨_, _, collectAll_eq "ingresar" form u, ?_⟩
  intro f hf hn
  refine ⟨(collectAll_get u hdist hf hn).1, ?_⟩
  intro hin
  have hlast := collectAll_get_enabled u hdist hf hn hin
  refine ⟨(collectAll_get u hdist hf hn).2 hin, ?_, ?_, ?_, ?_⟩
  · intro hk file hfile
    rw [hlast]
    cases hfs : f.files with
    | nil => rw [hfs] at hfile; simp at hfile
    | cons x xs =>
      rw [hfs] at hfile
      simp only [entriesOf, hn, hk, hfs, Bool.false_eq_true, if_false]
      rw [List.getLast?_map, hfile]
      rfl
  · intro hk hfs
    rw [hlast]
    simp [entriesOf, hn, hk, hfs]
  · intro hk
    rw [hlast]
    simp [entriesOf, hn, hk]
  · intro hk hsel
    rw [hlast]
    cases hi : f.selectedIndex with
    | none => simp [entriesOf, hn, hk, hi]
    | some i =>
      cases ho : f.options.get? i with
      | none =>
        have ho' : f.options[i]? = none := by simpa using ho
        simp [entriesOf, hn, hk, hi, ho']
      | some o => exact absurd ho (hsel i o hi)

/-- Witness of C5 amended, on Scenario A: the payload is
`{FECHA, REGION, STATUS: "pending"}`, with one mirror, for `STATUS`. -/
theorem insert_payload_carries_fields_witness :
    DistinctNames scenarioA ∧
    (collectAll "ingresar" scenarioA 3).map Prod.snd
      = some [("FECHA", Value.str "2024-05-01"), ("REGION", Value.str "Centro"),
              ("STATUS", Value.str "pending")] ∧
    (collectAll "ingresar" scenarioA 3).map (fun p => p.1.created.map Element.name)
      = some ["STATUS"] ∧
    ∃ st obj, collectAll "ingresar" scenarioA 3 = some (st, obj) ∧
      ∀ f ∈ scenarioA, f.name ≠ "" →
        (f.name ∉ INSERT_EDITABLE_FIELDS → f.name ≠ "__proto__" →
          asciiLower f.name ≠ "_charset_" →
          obj.get f.name = some (Value.str f.jsValue) ∧
          (st.created.map Element.name).count f.name = 1) ∧
        (f.name ∈ INSERT_EDITABLE_FIELDS →
          (HasOwnEntry f → obj.get f.name = some (Value.str f.jsValue)) ∧
          (f.kind = Kind.file → ∀ file, f.files.getLast? = some file →
            obj.get f.name = some (Value.file file)) ∧
          (f.kind = Kind.file → f.files = [] →
            obj.get f.name = some (Value.file ⟨"", "application/octet-stream"⟩)) ∧
          (f.kind = Kind.button → obj.get f.name = none) ∧
          (f.kind = Kind.select →
            (∀ i o, f.selectedIndex = some i → f.options.get? i ≠ some o) →
            obj.get f.name = none)) :=
  ⟨by unfold DistinctNames; decide, by decide, by decide,
   insert_payload_carries_fields scenarioA 3 (by unfold DistinctNames; decide)⟩

/-- C7, as stated, fails: the record value `" x "` matches no option of the
select, and the option `populateForm` appends has value and label `x`, not the
literal `" x "`; the value of the field is then `x`. -/
theorem populate_select_new_option_is_trimmed :
    (∀ o ∈ estatusSelect.options, optionMatches asciiCase (jsTrim " x ") o = false) ∧
    (populateKey asciiCase [estatusSelect] ("ESTATUS", some " x ")).map Element.options
      = [[⟨"ACTIVO", "Activo"⟩, ⟨"x", "x"⟩]] ∧
    (populateKey asciiCase [estatusSelect] ("ESTATUS", some " x ")).map Element.jsValue
      = ["x"] := by
  refine ⟨?_, ?_, ?_⟩ <;> decide

/-- C7, amended: for every form, every record key that resolves to a select
and every record value that matches none of its options (trimmed and
case-insensitive comparison with option values and labels), the iteration of
`populateForm` appends exactly one option, whose value is the trimmed value
and whose label reads as the trimmed value with every run of ASCII white space
collapsed to one space; it leaves the other options as they were, and selects
the new option, so that the value of the field is the trimmed value. -/
theorem populate_select_unmatched_appends (ops : CaseOps) (form : List Element)
    (key : String) (v : Option String) (i : Nat) (elem : Element)
    (hres : resolveField ops form key = NamedItem.node i elem)
    (hsel : elem.kind = Kind.select)
    (hno : ∀ o ∈ elem.options, optionMatches ops (jsTrim (v.getD "")) o = false) :
    populateKey ops form (key, v)
      = form.set i
          { elem with
              options := elem.options ++
                [⟨jsTrim (v.getD ""), stripAndCollapse (jsTrim (v.getD ""))⟩],
              selectedIndex := some elem.options.length } ∧
    ({ elem with
        options := elem.options ++
          [⟨jsTrim (v.getD ""), stripAndCollapse (jsTrim (v.getD ""))⟩],
        selectedIndex := some elem.options.length } : Element).jsValue
      = jsTrim (v.getD "") := by
  constructor
  · unfold populateKey
    rw [hres]
    simp only []
    rw [if_pos hsel, populateSelect_unmatched ops elem _ hno]
  · simp [Element.jsValue, hsel]

/-- Witness of C7 amended: the select `ESTATUS` and the record value
`" a  b "`, with two spaces between `a` and `b`: the new option has the value
`a  b` and the label `a b`. -/
theorem populate_select_unmatched_appends_witness :
    (jsTrim " a  b " = "a  b" ∧ stripAndCollapse (jsTrim " a  b ") = "a b") ∧
    populateKey asciiCase [estatusSelect] ("ESTATUS", some " a  b ")
      = [estatusSelect].set 0
          { estatusSelect with
              options := estatusSelect.options ++
                [⟨jsTrim " a  b ", stripAndCollapse (jsTrim " a  b ")⟩],
              selectedIndex := some estatusSelect.options.length } ∧
    ({ estatusSelect with
        options := estatusSelect.options ++
          [⟨jsTrim " a  b ", stripAndCollapse (jsTrim " a  b ")⟩],
        selectedIndex := some estatusSelect.options.length } : Element).jsValue
      = jsTrim " a  b " :=
  ⟨by decide,
   populate_select_unmatched_appends asciiCase [estatusSelect] "ESTATUS" (some " a  b ") 0
     estatusSelect (by decide) (by decide) (by decide)⟩

/-- C6, as stated, fails: the record `{ESTATUS: "activo"}` populates the
select `ESTATUS` of the form, found by its exact name, by selecting the option
`ACTIVO` that matches it case-insensitively; the payload then holds
`ESTATUS: "ACTIVO"`, not the value `activo` the record gave. -/
theorem populate_collect_select_not_reproduced :
    resolveField asciiCase [estatusSelect] "ESTATUS" = NamedItem.node 0 estatusSelect ∧
    (collectAll "ingresar"
        (populateForm asciiCase (pageOf [estatusSelect] 1 "ingresar")
          (some [("ESTATUS", some "activo")])).form 1).map Prod.snd
      = some [("ESTATUS", Value.str "ACTIVO")] := by
  constructor <;> decide

/-- C6, amended: in insert mode, for every form whose named fields have
distinct names and every record, take a key that resolves (by exact,
uppercased or lowercased name or id) to a single named text input, hidden
input or select, such that no later key resolves to the same field, nor any
earlier key when the field is a select.  Then `populateForm` followed by the
collection of the submit handler yields a payload that holds, under the name
of the field (`__proto__` and `_charset_` apart): for a text input the value
the record gave without its line breaks (the empty string for `null`); for a
hidden input the value the record gave; and for a select the value of the
first option that matches that value once trimmed, case-insensitively, or the
trimmed value when none matches. -/
theorem populate_then_collect (ops : CaseOps) (d : Dom) (pre post : Record)
    (key : String) (v : Option String) (i : Nat) (f : Element)
    (hmode : d.modeSelect = "ingresar") (hdist : DistinctNames d.form)
    (hres : resolveField ops d.form key = NamedItem.node i f)
    (hpost : ∀ q ∈ post, (resolveField ops d.form q.1).index ≠ some (some i))
    (hpre : f.kind = Kind.select →
      ∀ q ∈ pre, (resolveField ops d.form q.1).index ≠ some (some i))
    (hkind : f.kind = Kind.text ∨ f.kind = Kind.hidden ∨ f.kind = Kind.select)
    (hn : f.name ≠ "") (hproto : f.name ≠ "__proto__")
    (hcs : asciiLower f.name ≠ "_charset_") :
    ∃ st obj,
      collectAll d.modeSelect
        (populateForm ops d (some (pre ++ (key, v) :: post))).form d.nextUid = some (st, obj) ∧
      (f.kind = Kind.text →
        obj.get f.name = some (Value.str (stripNewlines (v.getD "")))) ∧
      (f.kind = Kind.hidden → obj.get f.name = some (Value.str (v.getD ""))) ∧
      (f.kind = Kind.select →
        obj.get f.name = some (Value.str
          (match f.options.find? (optionMatches ops (jsTrim (v.getD ""))) with
           | some o => o.value
           | none => jsTrim (v.getD "")))) := by
  obtain ⟨g, hg, hgname, hgval, hgown, hshape⟩ :=
    populate_fold_result ops d.form pre post key v i f hres hpost hpre hkind
  have hform : (populateForm ops d (some (pre ++ (key, v) :: post))).form
      = (pre ++ (key, v) :: post).foldl (populateKey ops) d.form := by
    simp [populateForm, hmode]
  rw [hform, hmode]
  refine ⟨_, _, collectAll_eq _ _ _, ?_⟩
  have hdist' := distinctNames_of_shape hshape hdist
  have hgn : g.name ≠ "" := by rw [hgname]; exact hn
  obtain ⟨h1, h2⟩ := collectAll_get d.nextUid hdist' hg hgn
  have hval : JsObject.get
      (entriesToObject (formDataEntries
        (insertForm "ingresar" ((pre ++ (key, v) :: post).foldl (populateKey ops) d.form) ++
          carriers "ingresar" ((pre ++ (key, v) :: post).foldl (populateKey ops) d.form)
            d.nextUid))) f.name
      = some (Value.str (populatedValue ops f (v.getD ""))) := by
    rw [← hgname, ← hgval]
    by_cases hin : g.name ∈ INSERT_EDITABLE_FIELDS
    · exact h2 hin hgown
    · exact (h1 hin (by rw [hgname]; exact hproto) (by rw [hgname]; exact hcs)).1
  refine ⟨?_, ?_, ?_⟩
  · intro hk
    rw [hval]
    simp [populatedValue, hk]
  · intro hk
    rw [hval]
    simp [populatedValue, hk]
  · intro hk
    rw [hval]
    simp [populatedValue, hk]

/-- Witness of C6 amended: the record `{ESTATUS: "activo", rif: "J-2\n"}` on a
form with the select `ESTATUS` and the text field `RIF`; the key `rif`
resolves to `RIF` by its uppercased name, and the payload holds `RIF: "J-2"`,
the value without its line break. -/
theorem populate_then_collect_witness :
    stripNewlines "J-2\n" = "J-2" ∧
    ∃ st obj,
      collectAll (pageOf estatusRifForm 2 "ingresar").modeSelect
        (populateForm asciiCase (pageOf estatusRifForm 2 "ingresar")
          (some ([("ESTATUS", some "activo")] ++ ("rif", some "J-2\n") :: []))).form
        (pageOf estatusRifForm 2 "ingresar").nextUid = some (st, obj) ∧
      ((textInput 1 "RIF" "" false).kind = Kind.text →
        obj.get (textInput 1 "RIF" "" false).name
          = some (Value.str (stripNewlines ((some "J-2\n" : Option String).getD "")))) ∧
      ((textInput 1 "RIF" "" false).kind = Kind.hidden →
        obj.get (textInput 1 "RIF" "" false).name
          = some (Value.str ((some "J-2\n" : Option String).getD ""))) ∧
      ((textInput 1 "RIF" "" false).kind = Kind.select →
        obj.get (textInput 1 "RIF" "" false).name = some (Value.str
          (match (textInput 1 "RIF" "" false).options.find?
              (optionMatches asciiCase (jsTrim ((some "J-2\n" : Option String).getD ""))) with
           | some o => o.value
           | none => jsTrim ((some "J-2\n" : Option String).getD "")))) :=
  ⟨by decide,
   populate_then_collect asciiCase (pageOf estatusRifForm 2 "ingresar")
    [("ESTATUS", some "activo")] [] "rif" (some "J-2\n") 1 (textInput 1 "RIF" "" false)
    (by decide) (by unfold DistinctNames; decide) (by decide) (by decide) (by decide)
    (by decide) (by decide) (by decide) (by decide)⟩

/-- C8, the code at the failing input: for a file whose read result is the
data URL `data:;base64,QUJD` (no media type), `readFileAsBase64` resolves with
`{fileName, mimeType: "", data: "QUJD"}`, while in `uploadFile` the regular
expression does not match, `match(...)[1]` throws inside `onload`, and the
promise stays pending; for `data:application/pdf;base64,QUJD` both resolve
with the same attachment. -/
theorem uploadFile_diverges_without_media_type :
    uploadFile ⟨"notes", ""⟩ (ReadOutcome.loaded "data:;base64,QUJD") = Settled.pending ∧
    readFileAsBase64 ⟨"notes", ""⟩ (ReadOutcome.loaded "data:;base64,QUJD")
      = Settled.resolved ⟨"notes", "", some "QUJD"⟩ ∧
    uploadFile ⟨"a.pdf", "application/pdf"⟩
        (ReadOutcome.loaded "data:application/pdf;base64,QUJD")
      = Settled.resolved ⟨"a.pdf", "application/pdf", some "QUJD"⟩ ∧
    readFileAsBase64 ⟨"a.pdf", "application/pdf"⟩
        (ReadOutcome.loaded "data:application/pdf;base64,QUJD")
      = Settled.resolved ⟨"a.pdf", "application/pdf", some "QUJD"⟩ := by
  refine ⟨?_, ?_, ?_, ?_⟩ <;> decide

/-- C9: in the update handler, for every page whose `RIF` field holds a value
that is not empty once trimmed and whose file input holds a file, a failed
read of that file ends the handler with the error message
`Error leyendo archivo seleccionado.` and without any request; and for every
page whose `RIF` field is missing or empty once trimmed, the handler ends with
the error message `El formulario no contiene un RIF válido.` and without any
request.  In both cases nothing but the message area changes. -/
theorem update_aborts_before_network (d : Dom) (read : ReadOutcome) (net : FetchOutcome) :
    (∀ rifValue file rest, rifValueOf d.form = some rifValue → rifValue ≠ "" →
      d.fileInputFiles = file :: rest → readFileAsBase64 file read = Settled.rejected →
      updateClick d read net
        = { d with message :=
              ⟨"block", "Error leyendo archivo seleccionado.", "#f14668", "white"⟩ } ∧
      (updateClick d read net).requests = d.requests) ∧
    (rifValueOf d.form = none ∨ rifValueOf d.form = some "" →
      updateClick d read net
        = { d with message :=
              ⟨"block", "El formulario no contiene un RIF válido.", "#f14668", "white"⟩ } ∧
      (updateClick d read net).requests = d.requests) := by
  constructor
  · intro rifValue file rest hrif hne hfiles hread
    have hb : buildUpdates d read = none := by
      unfold buildUpdates
      simp only [hfiles, hread]
    have : updateClick d read net
        = showMessage d "Error leyendo archivo seleccionado." "error" := by
      unfold updateClick
      simp only [hrif, hne, if_false, hb]
    rw [this, showMessage_eq_error]
    exact ⟨rfl, rfl⟩
  · intro h
    have : updateClick d read net
        = showMessage d "El formulario no contiene un RIF válido." "error" := by
      unfold updateClick
      rcases h with h | h
      · simp only [h]
      · simp only [h, if_true]
    rw [this, showMessage_eq_error]
    exact ⟨rfl, rfl⟩

/-- Witness of C9: a query page with `RIF` holding `J-1` and the file `a.pdf`
selected, the read of which fails. -/
theorem update_aborts_before_network_witness :
    updateClick queryPageWithFile ReadOutcome.error (FetchOutcome.failed "")
      = { queryPageWithFile with message :=
            ⟨"block", "Error leyendo archivo seleccionado.", "#f14668", "white"⟩ } ∧
    (updateClick queryPageWithFile ReadOutcome.error (FetchOutcome.failed "")).requests
      = queryPageWithFile.requests :=
  (update_aborts_before_network queryPageWithFile ReadOutcome.error
    (FetchOutcome.failed "")).1 "J-1" ⟨"a.pdf", "application/pdf"⟩ []
    (by decide) (by decide) (by decide) (by decide)

/-- C10, as stated, fails: in query mode, after a search that finds a record
(the update control is shown and the form populated), a search answered
`not_found` shows the error message but leaves the update control visible. -/
theorem not_found_after_found_keeps_update_control :
    (run asciiCase freshPage
      [Action.modeChange "consultar",
       Action.search "J-1" (FetchOutcome.json ⟨"success", some [("RIF", some "J-1")], none⟩),
       Action.search "X1" (FetchOutcome.json ⟨"not_found", none, none⟩)]).updateControlDisplay
      = "block" ∧
    (run asciiCase freshPage
      [Action.modeChange "consultar",
       Action.search "J-1" (FetchOutcome.json ⟨"success", some [("RIF", some "J-1")], none⟩),
       Action.search "X1" (FetchOutcome.json ⟨"not_found", none, none⟩)]).message
      = ⟨"block", "RIF no encontrado.", "#f14668", "white"⟩ ∧
    (run asciiCase freshPage
      [Action.modeChange "consultar",
       Action.search "J-1" (FetchOutcome.json ⟨"success", some [("RIF", some "J-1")], none⟩),
       Action.search "X1" (FetchOutcome.json ⟨"not_found", none, none⟩)]).modeSelect
      = "consultar" := by
  refine ⟨?_, ?_, ?_⟩ <;> decide

/-- C10, amended: after every sequence of mode changes, searches and clears,
a search with a typed RIF whose answer has status `not_found` leaves the
update control and the form as they were, issues its one request and shows the
error-styled message `RIF no encontrado.`.  So after it the update control is
hidden when no search has found a record since the page was loaded (or since
a page whose update control was hidden), since the last change of mode or
since the last clear; and it is visible when a search of the sequence found a
record and only searches came after that one. -/
theorem search_not_found_keeps_update_control (ops : CaseOps) (d : Dom)
    (actions : List Action) (typed : String) (data : Response)
    (hstatus : data.status = "not_found") (htyped : jsTrim typed ≠ "") :
    (searchAfter ops d actions typed (FetchOutcome.json data)).updateControlDisplay
      = (run ops d actions).updateControlDisplay ∧
    (searchAfter ops d actions typed (FetchOutcome.json data)).form
      = (run ops d actions).form ∧
    (searchAfter ops d actions typed (FetchOutcome.json data)).message
      = ⟨"block", "RIF no encontrado.", "#f14668", "white"⟩ ∧
    (searchAfter ops d actions typed (FetchOutcome.json data)).requests
      = (run ops d actions).requests ++ [Request.get (jsTrim typed)] ∧
    (d.updateControlDisplay = "none" → (∀ a ∈ actions, a.finds = false) →
      (searchAfter ops d actions typed (FetchOutcome.json data)).updateControlDisplay
        = "none") ∧
    (∀ d0, d = initialise d0 → (∀ a ∈ actions, a.finds = false) →
      (searchAfter ops d actions typed (FetchOutcome.json data)).updateControlDisplay
        = "none") ∧
    (∀ pre a post, actions = pre ++ a :: post →
      (a = Action.clearSearch ∨ ∃ m, a = Action.modeChange m) →
      (∀ b ∈ post, b.finds = false) →
      (searchAfter ops d actions typed (FetchOutcome.json data)).updateControlDisplay
        = "none") ∧
    (∀ pre a post, actions = pre ++ a :: post → a.finds = true →
      (∀ b ∈ post, ∃ t n, b = Action.search t n) →
      (searchAfter ops d actions typed (FetchOutcome.json data)).updateControlDisplay
        = "block") := by
  have key : searchAfter ops d actions typed (FetchOutcome.json data)
      = { (run ops d actions) with
            rifSearch := typed,
            message := ⟨"block", "RIF no encontrado.", "#f14668", "white"⟩,
            requests := (run ops d actions).requests ++ [Request.get (jsTrim typed)] } := by
    show searchClick ops { (run ops d actions) with rifSearch := typed }
      (FetchOutcome.json data) = _
    rw [searchClick_not_found ops { (run ops d actions) with rifSearch := typed } data hstatus
      htyped]
  rw [key]
  refine ⟨rfl, rfl, rfl, rfl, ?_, ?_, ?_, ?_⟩
  · intro hd hall
    exact run_hidden ops actions d hd hall
  · intro d0 hd hall
    exact run_hidden ops actions d (by rw [hd]; exact initialise_updateControl d0) hall
  · intro pre a post hact ha hpost
    rw [hact]
    exact (run_updateControl ops d pre post a).1 ha hpost
  · intro pre a post hact ha hpost
    rw [hact]
    exact (run_updateControl ops d pre post a).2 ha hpost

/-- Witness of C10 amended: in query mode a search finds the record of `J-1`,
the search is cleared, and a search for `X1` is answered `not_found`: the
update control, shown by the first search and hidden by the clear, is hidden
after it. -/
theorem search_not_found_keeps_update_control_witness :
    (run asciiCase freshPage
      [Action.modeChange "consultar", foundSearch "J-1" "x"]).updateControlDisplay = "block" ∧
    (searchAfter asciiCase freshPage
      [Action.modeChange "consultar", foundSearch "J-1" "x", Action.clearSearch] "X1"
      (FetchOutcome.json ⟨"not_found", none, none⟩)).updateControlDisplay = "none" :=
  ⟨by decide,
   (search_not_found_keeps_update_control asciiCase freshPage
      [Action.modeChange "consultar", foundSearch "J-1" "x", Action.clearSearch]
      "X1" ⟨"not_found", none, none⟩ (by decide) (by decide)).2.2.2.2.2.2.1
      [Action.modeChange "consultar", foundSearch "J-1" "x"] Action.clearSearch [] rfl
      (Or.inl rfl) (by simp)⟩

/-- C11, the code at the failing input: after a change of mode to `consultar`
the submit button is hidden by `setMode`; a click on the clear-search button
then leaves the mode at `consultar` and shows the submit button again.  The
clear handler does so on every page. -/
theorem clear_search_shows_submit_in_query :
    (reached asciiCase freshPage [Action.modeChange "consultar"]).modeSelect = "consultar" ∧
    (reached asciiCase freshPage [Action.modeChange "consultar"]).submitButtonDisplay
      = "none" ∧
    (reached asciiCase freshPage
      [Action.modeChange "consultar", Action.clearSearch]).modeSelect = "consultar" ∧
    (reached asciiCase freshPage
      [Action.modeChange "consultar", Action.clearSearch]).submitButtonDisplay
      = "inline-block" ∧
    ∀ d : Dom, (clearSearchClick d).modeSelect = d.modeSelect ∧
      (clearSearchClick d).submitButtonDisplay = "inline-block" := by
  refine ⟨by decide, by decide, by decide, by decide, ?_⟩
  intro d
  obtain ⟨m, hm⟩ := clearSearchClick_eq d
  rw [hm]
  exact ⟨rfl, rfl⟩

/-- C12, as stated, fails: two pages reached in the same mode `consultar`, one
by the mode change alone and one by the mode change and a search that finds a
record, give the named fields different enabled flags: `RIF` is enabled and
`SERVICIO` disabled before the search, and the reverse after it. -/
theorem query_flags_differ_after_search :
    (reached asciiCase freshPage [Action.modeChange "consultar"]).modeSelect = "consultar" ∧
    (reached asciiCase freshPage
      [Action.modeChange "consultar", foundSearch "J-1" "x"]).modeSelect = "consultar" ∧
    (reached asciiCase freshPage [Action.modeChange "consultar"]).form.map flagOf
      = [("RIF", false), ("SERVICIO", true)] ∧
    (reached asciiCase freshPage
      [Action.modeChange "consultar", foundSearch "J-1" "x"]).form.map flagOf
      = [("RIF", true), ("SERVICIO", false)] := by
  refine ⟨?_, ?_, ?_, ?_⟩ <;> decide

/-- C12, amended: the enabled flag of a named field is a function of the mode
and of whether a search has found a record since the page was loaded or the
mode last changed.  In every page reached from a page loaded in `ingresar` or
`consultar` by mode changes between these two, searches and clears, a named
field is enabled exactly when `enabledBy` says so: in `ingresar` when its name
is in `INSERT_EDITABLE_FIELDS`; in `consultar` when it is `RIF` before a search
has found a record, and when its name is in `EDITABLE_FIELDS` after one.  So in
two such pages with the same mode and the same search phase, fields of the same
name have the same enabled flag, whichever records were populated. -/
theorem enabled_flags_by_mode_and_phase (ops : CaseOps) (d1 d2 : Dom)
    (actions1 actions2 : List Action)
    (hmode1 : d1.modeSelect = "ingresar" ∨ d1.modeSelect = "consultar")
    (hmode2 : d2.modeSelect = "ingresar" ∨ d2.modeSelect = "consultar")
    (hmodes1 : ∀ m, Action.modeChange m ∈ actions1 → m = "ingresar" ∨ m = "consultar")
    (hmodes2 : ∀ m, Action.modeChange m ∈ actions2 → m = "ingresar" ∨ m = "consultar") :
    FlagsBy (reached ops d1 actions1).modeSelect (foundSince actions1)
      (reached ops d1 actions1).form ∧
    ((reached ops d1 actions1).modeSelect = (reached ops d2 actions2).modeSelect →
      foundSince actions1 = foundSince actions2 →
      ∀ e1 ∈ (reached ops d1 actions1).form, ∀ e2 ∈ (reached ops d2 actions2).form,
        e1.name ≠ "" → e1.name = e2.name → e1.disabled = e2.disabled) := by
  have h1 := (reached_flags ops d1 actions1 hmode1 hmodes1).2
  have h2 := (reached_flags ops d2 actions2 hmode2 hmodes2).2
  refine ⟨h1, ?_⟩
  intro hm hf e1 he1 e2 he2 hn hname
  have i1 := h1 e1 he1 hn
  have i2 := h2 e2 he2 (by rw [← hname]; exact hn)
  rw [← hm, ← hf, ← hname] at i2
  have hiff : e1.disabled = false ↔ e2.disabled = false := i1.trans i2.symm
  cases hd1 : e1.disabled <;> cases hd2 : e2.disabled <;> simp [hd1, hd2] at hiff ⊢

/-- Witness of C12 amended: two query pages after searches that found
different records. -/
theorem enabled_flags_by_mode_and_phase_witness :
    FlagsBy
      (reached asciiCase freshPage
        [Action.modeChange "consultar", foundSearch "J-1" "x"]).modeSelect
      (foundSince [Action.modeChange "consultar", foundSearch "J-1" "x"])
      (reached asciiCase freshPage
        [Action.modeChange "consultar", foundSearch "J-1" "x"]).form ∧
    ((reached asciiCase freshPage
        [Action.modeChange "consultar", foundSearch "J-1" "x"]).modeSelect
      = (reached asciiCase queryPage [foundSearch "J-2" "y"]).modeSelect →
      foundSince [Action.modeChange "consultar", foundSearch "J-1" "x"]
        = foundSince [foundSearch "J-2" "y"] →
      ∀ e1 ∈ (reached asciiCase freshPage
          [Action.modeChange "consultar", foundSearch "J-1" "x"]).form,
        ∀ e2 ∈ (reached asciiCase queryPage [foundSearch "J-2" "y"]).form,
        e1.name ≠ "" → e1.name = e2.name → e1.disabled = e2.disabled) :=
  enabled_flags_by_mode_and_phase asciiCase freshPage queryPage
    [Action.modeChange "consultar", foundSearch "J-1" "x"] [foundSearch "J-2" "y"]
    (by decide) (by decide)
    (by
      intro m hm
      simp [foundSearch] at hm
      exact Or.inr hm)
    (by
      intro m hm
      simp [foundSearch] at hm)

end ProspectForm
